import Mathlib

/-!
# resource-service/common/git.go

A shallow embedding of the project repository manager (`Git` in
`resource-service/common/git.go`) and theorems about it.

The Go code is stateful: every method drives the go-git library and the
operating system.  The embedding makes that explicit.

* `GoGit S` is the interface of the external collaborators (go-git, `os`,
  `ioutil`) over an abstract store `S`.  Theorems stated for every `L : GoGit S`
  hold whatever the library does.
* `World S` pairs the store with the trace of library calls made so far, so
  that statements such as "push is never attempted" can be expressed.
* `Prog` is the state-and-panic monad in which the methods are written.  A Go
  `(value, error)` result is a pair whose second component is `Option Error`
  (`none` is Go's `nil`).
* `simGit` is a small executable repository store implementing `GoGit`; it
  is the concrete library used to evaluate the code on concrete inputs.
-/

namespace ResourceService

/-! ## Go errors -/

/-- Sentinel errors of the go-git library that the source mentions, plus the few
more that the executable store produces. -/
inductive LibSentinel where
  | gitErrNonFastForwardUpdate
  | transportErrAuthenticationRequired
  | transportErrAuthorizationFailed
  | gitErrForceNeeded
  | plumbingErrReferenceNotFound
  | transportErrEmptyRemoteRepository
  | gitErrRemoteNotFound
  | gitErrRemoteExists
  | gitNoErrAlreadyUpToDate
  | gitErrRepositoryAlreadyExists
  | gitErrRepositoryNotExists
  | gitErrBranchExists
  | objectErrFileNotFound
  | objectErrUnsupportedObject
  | storerErrStop
  deriving DecidableEq, Repr

/-- Sentinel errors of the package `kerrors` (resource-service/errors) that the
source mentions. -/
inductive KSentinel where
  | ErrInvalidGitContext
  | ErrCredentialsNotFound
  | ErrProjectNotFound
  | ErrBranchExists
  | ErrReferenceNotFound
  | ErrForceNeeded
  | ErrNonFastForwardUpdate
  | ErrAuthenticationRequired
  | ErrAuthorizationFailed
  | ErrResolvedNilHash
  | ErrResolveRevision
  | ErrResourceNotFound
  deriving DecidableEq, Repr

/-- The format strings `kerrors.ErrMsg...` used with `fmt.Errorf`; each ends in a
wrapping verb for its last operand. -/
inductive Fmt where
  | ErrMsgCouldNotGitAction
  | ErrMsgCouldNotCreatePath
  | ErrMsgCouldNotCommit
  | ErrMsgCouldNotGetRevision
  | ErrMsgCouldNotGetDefBranch
  | ErrMsgCouldNotCreate
  | ErrMsgCouldNotCheckout
  | ErrMsgCouldNotSetUser
  deriving DecidableEq, Repr

/-- A non-nil Go `error` value.  `wrap` is `fmt.Errorf(format, args..., inner)`;
`wrapNil` is the same call with a nil last operand, whose `Unwrap` is nil. -/
inductive Error where
  | lib (e : LibSentinel)
  | kerr (e : KSentinel)
  | other (msg : String)
  | wrap (format : Fmt) (args : List String) (inner : Error)
  | wrapNil (format : Fmt) (args : List String)
  deriving DecidableEq, Repr

/-- The Go call `fmt.Errorf(format, args..., inner)` where `inner` may be nil. -/
def fmtErrorf (format : Fmt) (args : List String) (inner : Option Error) : Error :=
  match inner with
  | some e => Error.wrap format args e
  | none => Error.wrapNil format args

/-- The walk of `errors.Is` down the `Unwrap` chain of a non-nil error. -/
def Error.is : Error → Error → Bool
  | Error.wrap f a inner, target =>
      decide (Error.wrap f a inner = target) || Error.is inner target
  | e, target => decide (e = target)

/-- The Go call `errors.Is(err, target)`; a nil `err` matches no target. -/
def errorsIs (err : Option Error) (target : Error) : Bool :=
  match err with
  | some e => e.is target
  | none => false

/-- The unwrapped cause of a composite error (`errors.Unwrap`). -/
def Error.unwrap : Error → Option Error
  | Error.wrap _ _ inner => some inner
  | _ => none

/-- Translation of go-git errors to the errors of the other resource-service
components (`mapError`). -/
def mapError (err : Option Error) : Option Error :=
  if errorsIs err (Error.lib LibSentinel.gitErrNonFastForwardUpdate) then
    some (Error.kerr KSentinel.ErrNonFastForwardUpdate)
  else if errorsIs err (Error.lib LibSentinel.transportErrAuthenticationRequired) then
    some (Error.kerr KSentinel.ErrAuthenticationRequired)
  else if errorsIs err (Error.lib LibSentinel.transportErrAuthorizationFailed) then
    some (Error.kerr KSentinel.ErrAuthorizationFailed)
  else if errorsIs err (Error.lib LibSentinel.gitErrForceNeeded) then
    some (Error.kerr KSentinel.ErrForceNeeded)
  else err

/-- Modelled from the spec: the method `kerrors.ErrEmptyRemoteRepository.Is`, whose
declaration is outside the source file; the spec says the init subprotocol is
entered when the clone "fails with empty-remote-repository". -/
def ErrEmptyRemoteRepository_Is (err : Error) : Bool :=
  err.is (Error.lib LibSentinel.transportErrEmptyRemoteRepository)

/-! ## Data model -/

/-- The Go type `plumbing.ReferenceName`, a string. -/
abbrev ReferenceName := String

/-- The Go type `plumbing.Hash`, identified with its hexadecimal rendering. -/
structure Hash where
  hex : String
  deriving DecidableEq, Repr

/-- The method `Hash.String`. -/
def Hash.String (h : Hash) : String := h.hex

/-- The Go type `plumbing.Reference` restricted to hash references. -/
structure Reference where
  name : ReferenceName
  hash : Hash
  deriving DecidableEq, Repr

/-- The function `plumbing.NewBranchReferenceName`. -/
def NewBranchReferenceName (name : String) : ReferenceName := "refs/heads/" ++ name

/-- The Go function `strings.HasPrefix`. -/
def stringsHasPrefix (s pre : String) : Bool := pre.data.isPrefixOf s.data

/-- Removes `pre` from the front of `s` when it is there. -/
def stripLeading (pre : List Char) (s : List Char) : Option (List Char) :=
  if pre.isPrefixOf s then some (s.drop pre.length) else none

/-- The method `ReferenceName.Short` of go-git: the name without the leading
`refs/heads/`, `refs/tags/`, `refs/remotes/` or `refs/`. -/
def ReferenceName.Short (r : ReferenceName) : String :=
  match stripLeading "refs/heads/".data r.data with
  | some rest => String.mk rest
  | none =>
    match stripLeading "refs/tags/".data r.data with
    | some rest => String.mk rest
    | none =>
      match stripLeading "refs/remotes/".data r.data with
      | some rest => String.mk rest
      | none =>
        match stripLeading "refs/".data r.data with
        | some rest => String.mk rest
        | none => r

/-- Modelled from the spec: `common_models.ProxyGitAuth` ("optional proxy spec"). -/
structure ProxyGitAuth where
  Scheme : String
  URL : String
  User : String
  Password : String
  deriving DecidableEq, Repr

/-- Modelled from the spec: `common_models.HttpsGitAuth` (token, optional proxy,
insecure-skip-tls flag). -/
structure HttpsGitAuth where
  Token : String
  InsecureSkipTLS : Bool
  Proxy : Option ProxyGitAuth
  deriving DecidableEq, Repr

/-- Modelled from the spec: `common_models.SshGitAuth` (private key material). -/
structure SshGitAuth where
  PrivateKey : String
  PrivateKeyPass : String
  deriving DecidableEq, Repr

/-- Modelled from the spec: `common_models.GitCredentials`; the source reads
`RemoteURL`, `HttpsAuth`, `HttpsAuth.Proxy` and `HttpsAuth.InsecureSkipTLS`. -/
structure GitCredentials where
  RemoteURL : String
  User : String
  HttpsAuth : Option HttpsGitAuth
  SshAuth : Option SshGitAuth
  deriving DecidableEq, Repr

/-- The zero value `common_models.GitCredentials{}`. -/
def GitCredentials.zero : GitCredentials :=
  { RemoteURL := "", User := "", HttpsAuth := none, SshAuth := none }

/-- The auth envelope `gitContext.AuthMethod`; `GoGitAuth` is handed to the library
unchanged. -/
structure AuthMethod where
  GoGitAuth : String
  deriving DecidableEq, Repr

/-- The Go type `common_models.GitContext`. -/
structure GitContext where
  Project : String
  Credentials : Option GitCredentials
  AuthMethod : AuthMethod
  deriving DecidableEq, Repr

/-- The Go function `retrieveInsecureSkipTLS`. -/
def retrieveInsecureSkipTLS (credentials : Option GitCredentials) : Bool :=
  match credentials with
  | some c =>
    match c.HttpsAuth with
    | some https =>
      match https.Proxy with
      | none => https.InsecureSkipTLS
      | some _ => false
    | none => false
  | none => false

/-- The part of `config.Config` the source reads and writes. -/
structure GitConfig where
  UserName : String
  UserEmail : String
  InitDefaultBranch : String
  deriving DecidableEq, Repr

/-- The Go type `config.RemoteConfig`; go-git rejects a remote without URL, so the
first URL is a field of its own. -/
structure RemoteConfig where
  Name : String
  URL0 : String
  URLs : List String
  deriving DecidableEq, Repr

/-- The Go type `config.Branch`. -/
structure Branch where
  Name : String
  Remote : String
  Merge : ReferenceName
  deriving DecidableEq, Repr

/-- The Go type `git.CloneOptions` as filled by the source. -/
structure CloneOptions where
  URL : String
  Auth : String
  InsecureSkipTLS : Bool
  deriving DecidableEq, Repr

/-- The Go type `git.PushOptions` as filled by the source. -/
structure PushOptions where
  RemoteName : String
  Auth : String
  Force : Bool
  InsecureSkipTLS : Bool
  deriving DecidableEq, Repr

/-- The Go type `git.PullOptions` as filled by the source; `ReferenceName` is
absent in the retry. -/
structure PullOptions where
  RemoteName : String
  Force : Bool
  ReferenceName : Option ReferenceName
  Auth : String
  InsecureSkipTLS : Bool
  deriving DecidableEq, Repr

/-- The Go type `git.FetchOptions` as filled by the source. -/
structure FetchOptions where
  RemoteName : String
  RefSpecs : List String
  Force : Bool
  Auth : String
  InsecureSkipTLS : Bool
  deriving DecidableEq, Repr

/-- The Go type `git.CheckoutOptions` as filled by the source. -/
structure CheckoutOptions where
  Branch : ReferenceName
  Create : Bool
  Force : Bool
  deriving DecidableEq, Repr

/-- The author signature of a commit (the timestamp is left out). -/
structure Signature where
  Name : String
  Email : String
  deriving DecidableEq, Repr

/-- Process-scope configuration read by the source: the base directory behind
`GetProjectConfigPath`, the values of the identity environment variables (empty
when unset) with their defaults, the stage directory name, the default branch
configured in the environment and the library's hardcoded initial branch
`common_models.GitInitDefaultBranchName`. -/
structure Env where
  configDir : String
  keptnUserEnv : String
  keptnEmailEnv : String
  gitKeptnUserDefault : String
  gitKeptnEmailDefault : String
  StageDirectoryName : String
  defaultBranchFromEnv : String
  GitInitDefaultBranchName : String
  deriving DecidableEq, Repr

/-- Modelled from the spec: `GetProjectConfigPath`, "`<base>/<project>/` contains the
working tree". -/
def GetProjectConfigPath (env : Env) (project : String) : String :=
  env.configDir ++ "/" ++ project

/-- Modelled from the spec: `GetProjectMetadataFilePath`,
"`<base>/<project>/metadata.yaml` is the per-project manifest". -/
def GetProjectMetadataFilePath (env : Env) (project : String) : String :=
  GetProjectConfigPath env project ++ "/metadata.yaml"

/-- The Go function `getGitKeptnUser`. -/
def getGitKeptnUser (env : Env) : String :=
  if env.keptnUserEnv ≠ "" then env.keptnUserEnv else env.gitKeptnUserDefault

/-- The Go function `getGitKeptnEmail`. -/
def getGitKeptnEmail (env : Env) : String :=
  if env.keptnEmailEnv ≠ "" then env.keptnEmailEnv else env.gitKeptnEmailDefault

/-- The constant `gitHeadFilePath`. -/
def gitHeadFilePath : String := "/.git/HEAD"

/-- The Go function `bytes.Replace(s, old, new, -1)` on a list of characters, for a
non-empty `old`; the counter is the number of characters of a matched occurrence
still to be skipped. -/
def bytesReplaceFrom (old new : List Char) : Nat → List Char → List Char
  | _, [] => []
  | k + 1, _ :: cs => bytesReplaceFrom old new k cs
  | 0, c :: cs =>
    if old.isPrefixOf (c :: cs) then new ++ bytesReplaceFrom old new (old.length - 1) cs
    else c :: bytesReplaceFrom old new 0 cs

/-- The Go function `bytes.Replace(s, old, new, -1)`: every non-overlapping
occurrence of `old` is replaced; an empty `old` matches at the beginning and after
each character. -/
def bytesReplace (s old new : String) : String :=
  if old = "" then String.mk (new.data ++ s.data.flatMap (fun c => c :: new.data))
  else String.mk (bytesReplaceFrom old.data new.data 0 s.data)

/-! ## The external collaborators -/

/-- One call to go-git or to the operating system, with the arguments the source
passes. -/
inductive Call where
  | osStat (path : String)
  | ensureDirectoryExists (path : String)
  | osMkdirAll (path : String)
  | osCreate (path : String)
  | fileWrite (path : String)
  | fileClose (path : String)
  | ReadFile (path : String)
  | WriteFile (path : String) (content : String)
  | ReadDir (path : String)
  | osRename (oldpath newpath : String)
  | osRemoveAll (path : String)
  | PlainOpen (path : String)
  | PlainClone (path : String) (o : CloneOptions)
  | PlainInit (path : String)
  | Config (repo : String)
  | SetConfig (repo : String) (c : GitConfig)
  | Head (repo : String)
  | Fetch (repo : String) (o : FetchOptions)
  | Remote (repo : String) (name : String)
  | DeleteRemote (repo : String) (name : String)
  | CreateRemote (repo : String) (c : RemoteConfig)
  | Worktree (repo : String)
  | Add (repo : String) (file : String)
  | AddWithOptions (repo : String)
  | Commit (repo : String) (msg : String) (author : Signature)
  | Push (repo : String) (o : PushOptions)
  | Pull (repo : String) (o : PullOptions)
  | Checkout (repo : String) (o : CheckoutOptions)
  | Reset (repo : String) (commit : Option Hash)
  | ResolveRevision (repo : String) (rev : String)
  | CommitObject (repo : String) (h : Hash)
  | IsAncestor (repo : String) (h : Hash) (of : Hash)
  | CreateBranch (repo : String) (b : Branch)
  | Branches (repo : String)
  deriving DecidableEq, Repr

/-- The operations of go-git, `os` and `ioutil` that the source calls, over a
store `S`.  A repository or worktree handle is the path it was opened at.
Inspections cannot change the store; every other operation returns the new store
along with its Go result. -/
structure GoGit (S : Type) where
  osStat : S → String → Option Error
  ensureDirectoryExists : S → String → Option Error × S
  osMkdirAll : S → String → Option Error × S
  osCreate : S → String → Option Error × S
  fileWrite : S → String → Option Error × S
  fileClose : S → String → Option Error × S
  ReadFile : S → String → Except Error String
  WriteFile : S → String → String → Option Error × S
  ReadDir : S → String → Except Error (List String)
  osRename : S → String → String → Option Error × S
  osRemoveAll : S → String → Option Error × S
  PlainOpen : S → String → Option Error
  PlainClone : S → String → CloneOptions → Option Error × S
  PlainInit : S → String → Option Error × S
  Config : S → String → Option GitConfig × Option Error
  SetConfig : S → String → GitConfig → Option Error × S
  Head : S → String → Except Error Reference
  Fetch : S → String → FetchOptions → Option Error × S
  Remote : S → String → String → Except Error RemoteConfig
  DeleteRemote : S → String → String → Option Error × S
  CreateRemote : S → String → RemoteConfig → Option Error × S
  Worktree : S → String → Option Error
  Add : S → String → String → Option Error × S
  AddWithOptions : S → String → Option Error × S
  Commit : S → String → String → Signature → (Hash × Option Error) × S
  Push : S → String → PushOptions → Option Error × S
  Pull : S → String → PullOptions → Option Error × S
  Checkout : S → String → CheckoutOptions → Option Error × S
  Reset : S → String → Option Hash → Option Error × S
  ResolveRevision : S → String → String → Except Error (Option Hash)
  CommitObject : S → String → Hash → Option Error
  IsAncestor : S → String → Hash → Hash → Except Error Bool
  CreateBranch : S → String → Branch → Option Error × S
  Branches : S → String → Except Error (List Reference)

/-- The store together with the calls made so far, oldest first. -/
structure World (S : Type) where
  lib : S
  trace : List Call

/-- How a run ends: with a value and a world, or in a Go runtime panic. -/
inductive Outcome (W α : Type) where
  | ret (val : α) (w : W)
  | panicked (msg : String)

/-- A computation over worlds that may panic. -/
def Prog (W α : Type) : Type := W → Outcome W α

/-- Returns a value without touching the world. -/
def Prog.pure {W α : Type} (a : α) : Prog W α := fun w => Outcome.ret a w

/-- Sequencing; a panic ends the run. -/
def Prog.bind {W α β : Type} (m : Prog W α) (f : α → Prog W β) : Prog W β := fun w =>
  match m w with
  | Outcome.ret a w1 => f a w1
  | Outcome.panicked msg => Outcome.panicked msg

instance {W : Type} : Monad (Prog W) where
  pure := Prog.pure
  bind := Prog.bind

/-- A Go runtime panic. -/
def goPanic {W α : Type} (msg : String) : Prog W α := fun _ => Outcome.panicked msg

/-- A library call that may change the store. -/
def act {S α : Type} (c : Call) (f : S → α × S) : Prog (World S) α := fun w =>
  Outcome.ret (f w.lib).1 { lib := (f w.lib).2, trace := w.trace ++ [c] }

/-- A library call that only inspects the store. -/
def ask {S α : Type} (c : Call) (f : S → α) : Prog (World S) α := fun w =>
  Outcome.ret (f w.lib) { lib := w.lib, trace := w.trace ++ [c] }

/-- The Go interface `object.Object` as `resolve` sees it: the four kinds of
object it switches on, named by their hash, and any other implementation. -/
inductive Obj where
  | Commit (h : Hash)
  | Tag (h : Hash)
  | Tree (h : Hash)
  | Blob (h : Hash)
  | Other
  deriving DecidableEq, Repr

/-- The `io.Reader` a blob hands out. -/
structure Reader where
  blob : Hash
  deriving DecidableEq, Repr

/-- The operations of the go-git object store that `GetFileRevision` and `resolve`
call; all of them inspect the store.  `Object` is `Repository.Object` asked for a
commit, with its two Go results; `ReadAll` is `ioutil.ReadAll`, with its two
results. -/
structure GoGitObjects (S : Type) where
  Object : S → String → Hash → Option Obj × Option Error
  CommitTree : S → String → Hash → Except Error Hash
  TagObject : S → String → Hash → Except Error Obj
  TreeFile : S → String → Hash → String → Except Error Hash
  BlobReader : S → String → Hash → Except Error Reader
  ReadAll : S → String → Reader → String × Option Error

/-! ## The methods of `Git` -/

section Methods

variable {S : Type} (L : GoGit S) (env : Env)

/-- The Go function `configureGitUser`.  The configuration is written to before the
error is looked at, so a nil configuration is a nil dereference; the result of
`SetConfig` is dropped. -/
def configureGitUser (repository : String) : Prog (World S) (Option Error) := do
  let r ← ask (Call.Config repository) (fun s => L.Config s repository)
  match r.1 with
  | none => goPanic "nil pointer dereference"
  | some c =>
    match r.2 with
    | some err => pure (some (fmtErrorf Fmt.ErrMsgCouldNotSetUser [] (some err)))
    | none => do
      let c1 : GitConfig :=
        { UserName := getGitKeptnUser env, UserEmail := getGitKeptnEmail env,
          InitDefaultBranch := c.InitDefaultBranch }
      let _ ← act (Call.SetConfig repository c1) (fun s => L.SetConfig s repository c1)
      pure none

/-- The Go function `ensureRemoteMatchesCredentials`. -/
def ensureRemoteMatchesCredentials (repo : String) (gitContext : GitContext) :
    Prog (World S) (Option Error) := do
  let r ← ask (Call.Remote repo "origin") (fun s => L.Remote s repo "origin")
  match r with
  | Except.error err => pure (some err)
  | Except.ok remote =>
    match gitContext.Credentials with
    | none => goPanic "nil pointer dereference"
    | some credentials =>
      if remote.URL0 ≠ credentials.RemoteURL then do
        let err ← act (Call.DeleteRemote repo "origin") (fun s => L.DeleteRemote s repo "origin")
        match err with
        | some e => pure (some e)
        | none => do
          let c : RemoteConfig := { Name := "origin", URL0 := credentials.RemoteURL, URLs := [] }
          let err ← act (Call.CreateRemote repo c) (fun s => L.CreateRemote s repo c)
          match err with
          | some e => pure (some e)
          | none => pure none
      else pure none

namespace Git

/-- The Go method `Git.ProjectRepoExists`. -/
def ProjectRepoExists (project : String) : Prog (World S) Bool := do
  let path := GetProjectConfigPath env project
  let err ← ask (Call.osStat path) (fun s => L.osStat s path)
  match err with
  | none => do
    let err ← ask (Call.PlainOpen path) (fun s => L.PlainOpen s path)
    match err with
    | none => pure true
    | some _ => pure false
  | some _ => pure false

/-- The Go method `Git.getWorkTree`; the repository and worktree handles it returns
are the project path. -/
def getWorkTree (gitContext : GitContext) : Prog (World S) (Option Error) := do
  let projectConfigPath := GetProjectConfigPath env gitContext.Project
  let err ← ask (Call.PlainOpen projectConfigPath) (fun s => L.PlainOpen s projectConfigPath)
  match err with
  | some e => pure (some e)
  | none => do
    let err ← ensureRemoteMatchesCredentials L projectConfigPath gitContext
    match err with
    | some e => pure (some e)
    | none => do
      let err ← ask (Call.Worktree projectConfigPath) (fun s => L.Worktree s projectConfigPath)
      match err with
      | some e => pure (some e)
      | none => pure none

/-- The Go method `Git.Push`. -/
def Push (gitContext : GitContext) : Prog (World S) (Option Error) := do
  match gitContext.Credentials with
  | none =>
    pure (some (fmtErrorf Fmt.ErrMsgCouldNotGitAction ["push", gitContext.Project]
      (some (Error.kerr KSentinel.ErrCredentialsNotFound))))
  | some _ => do
    let err ← getWorkTree L env gitContext
    match err with
    | some e =>
      pure (some (fmtErrorf Fmt.ErrMsgCouldNotGitAction ["push", gitContext.Project]
        (mapError (some e))))
    | none => do
      let repo := GetProjectConfigPath env gitContext.Project
      let o : PushOptions :=
        { RemoteName := "origin", Auth := gitContext.AuthMethod.GoGitAuth, Force := false,
          InsecureSkipTLS := retrieveInsecureSkipTLS gitContext.Credentials }
      let err ← act (Call.Push repo o) (fun s => L.Push s repo o)
      match err with
      | some e =>
        if !(errorsIs (some e) (Error.lib LibSentinel.gitNoErrAlreadyUpToDate)) then
          pure (some (fmtErrorf Fmt.ErrMsgCouldNotGitAction ["push", gitContext.Project]
            (mapError (some e))))
        else pure none
      | none => pure none

/-- The Go method `Git.rewriteDefaultBranch`. -/
def rewriteDefaultBranch (path : String) : Prog (World S) (Option Error) := do
  let defaultBranch := env.defaultBranchFromEnv
  if defaultBranch ≠ env.GitInitDefaultBranchName then do
    let r ← ask (Call.ReadFile path) (fun s => L.ReadFile s path)
    match r with
    | Except.error err => pure (some err)
    | Except.ok input => do
      let output := bytesReplace input env.GitInitDefaultBranchName defaultBranch
      let err ← act (Call.WriteFile path output) (fun s => L.WriteFile s path output)
      match err with
      | some e => pure (some e)
      | none => pure none
  else pure none

/-- The tail of `Git.init` from the creation of `metadata.yaml` on. -/
def initSeed (gitContext : GitContext) (projectPath : String) :
    Prog (World S) (Option Error) := do
  let file := projectPath ++ "/metadata.yaml"
  let err ← act (Call.osCreate file) (fun s => L.osCreate s file)
  match err with
  | some e => pure (some e)
  | none => do
    let err ← act (Call.fileWrite file) (fun s => L.fileWrite s file)
    match err with
    | some e => pure (some e)
    | none => do
      let err ← act (Call.fileClose file) (fun s => L.fileClose s file)
      match err with
      | some e => pure (some e)
      | none => do
        let _ ← act (Call.osMkdirAll (projectPath ++ "/.git"))
          (fun s => L.osMkdirAll s (projectPath ++ "/.git"))
        let err ← ask (Call.Worktree projectPath) (fun s => L.Worktree s projectPath)
        match err with
        | some e => pure (some e)
        | none => do
          let _ ← act (Call.Add projectPath file) (fun s => L.Add s projectPath file)
          let author : Signature :=
            { Name := getGitKeptnUser env, Email := getGitKeptnEmail env }
          let r ← act (Call.Commit projectPath "init git empty repo" author)
            (fun s => L.Commit s projectPath "init git empty repo" author)
          match r.2 with
          | some e => pure (some e)
          | none => do
            let err ← Push L env gitContext
            match err with
            | some e => pure (some e)
            | none => pure none

/-- The middle of `Git.init`: rewrite of the HEAD file and creation of `origin`. -/
def initRemote (gitContext : GitContext) (projectPath : String) :
    Prog (World S) (Option Error) := do
  let err ← rewriteDefaultBranch L env (projectPath ++ gitHeadFilePath)
  match err with
  | some e => pure (some e)
  | none => do
    let r ← ask (Call.Remote projectPath "origin") (fun s => L.Remote s projectPath "origin")
    if errorsIs (match r with | Except.error e => some e | Except.ok _ => none)
        (Error.lib LibSentinel.gitErrRemoteNotFound) then
      match gitContext.Credentials with
      | none => goPanic "nil pointer dereference"
      | some credentials => do
        let c : RemoteConfig := { Name := "origin", URL0 := credentials.RemoteURL, URLs := [] }
        let err ← act (Call.CreateRemote projectPath c) (fun s => L.CreateRemote s projectPath c)
        match err with
        | some e => pure (some e)
        | none => initSeed L env gitContext projectPath
    else initSeed L env gitContext projectPath

/-- The Go method `Git.init`; the repository it returns is the one at `projectPath`. -/
def init (gitContext : GitContext) (projectPath : String) : Prog (World S) (Option Error) := do
  let err ← act (Call.PlainInit projectPath) (fun s => L.PlainInit s projectPath)
  match err with
  | some e =>
    if errorsIs (some e) (Error.lib LibSentinel.gitErrRepositoryAlreadyExists) then do
      let err ← ask (Call.PlainOpen projectPath) (fun s => L.PlainOpen s projectPath)
      match err with
      | some e1 => pure (some e1)
      | none => initRemote L env gitContext projectPath
    else pure (some e)
  | none => initRemote L env gitContext projectPath

/-- The Go method `Git.fetch`. -/
def fetch (gitContext : GitContext) (r : String) : Prog (World S) (Option Error) := do
  let o : FetchOptions :=
    { RemoteName := "origin", RefSpecs := ["+refs/*:refs/*"], Force := true,
      Auth := gitContext.AuthMethod.GoGitAuth,
      InsecureSkipTLS := retrieveInsecureSkipTLS gitContext.Credentials }
  let err ← act (Call.Fetch r o) (fun s => L.Fetch s r o)
  match err with
  | some e =>
    if !(errorsIs (some e) (Error.lib LibSentinel.gitNoErrAlreadyUpToDate)) then pure (some e)
    else pure none
  | none => pure none

/-- The Go method `Git.storeDefaultBranchConfig`. -/
def storeDefaultBranchConfig (gitContext : GitContext) (clone : String) (head : Reference) :
    Prog (World S) (Option Error) := do
  let r ← ask (Call.Config clone) (fun s => L.Config s clone)
  match r.2 with
  | some err =>
    pure (some (fmtErrorf Fmt.ErrMsgCouldNotGitAction ["get config", gitContext.Project]
      (mapError (some err))))
  | none =>
    match r.1 with
    | none => goPanic "nil pointer dereference"
    | some cfg => do
      let cfg1 : GitConfig :=
        { UserName := cfg.UserName, UserEmail := cfg.UserEmail, InitDefaultBranch := head.name }
      let err ← act (Call.SetConfig clone cfg1) (fun s => L.SetConfig s clone cfg1)
      match err with
      | some e =>
        pure (some (fmtErrorf Fmt.ErrMsgCouldNotGitAction ["set config", gitContext.Project]
          (mapError (some e))))
      | none => pure none

/-- The part of `Git.CloneRepo` after the repository has been cloned or
initialised. -/
def cloneFinish (gitContext : GitContext) (clone : String) :
    Prog (World S) (Bool × Option Error) := do
  let err ← configureGitUser L env clone
  match err with
  | some e => pure (false, some e)
  | none => do
    let r ← ask (Call.Head clone) (fun s => L.Head s clone)
    match r with
    | Except.error e =>
      pure (false, some (fmtErrorf Fmt.ErrMsgCouldNotGitAction ["clone", gitContext.Project]
        (mapError (some e))))
    | Except.ok head => do
      let err ← fetch L gitContext clone
      match err with
      | some e =>
        pure (false, some (fmtErrorf Fmt.ErrMsgCouldNotGitAction ["fetch", gitContext.Project]
          (mapError (some e))))
      | none => do
        let err ← storeDefaultBranchConfig L gitContext clone head
        match err with
        | some e => pure (false, some e)
        | none => pure (true, none)

/-- The Go method `Git.CloneRepo`. -/
def CloneRepo (gitContext : GitContext) : Prog (World S) (Bool × Option Error) := do
  let missing : Bool × Option Error :=
    (false, some (fmtErrorf Fmt.ErrMsgCouldNotGitAction ["clone", "project"]
      (some (Error.kerr KSentinel.ErrInvalidGitContext))))
  match gitContext.Credentials with
  | none => pure missing
  | some credentials =>
    if credentials = GitCredentials.zero then pure missing
    else do
      let projectPath := GetProjectConfigPath env gitContext.Project
      let found ← ProjectRepoExists L env gitContext.Project
      if found then pure (true, none)
      else do
        let err ← act (Call.ensureDirectoryExists projectPath)
          (fun s => L.ensureDirectoryExists s projectPath)
        match err with
        | some e =>
          pure (false, some (fmtErrorf Fmt.ErrMsgCouldNotCreatePath [projectPath] (some e)))
        | none => do
          let o : CloneOptions :=
            { URL := credentials.RemoteURL, Auth := gitContext.AuthMethod.GoGitAuth,
              InsecureSkipTLS := retrieveInsecureSkipTLS gitContext.Credentials }
          let err ← act (Call.PlainClone projectPath o) (fun s => L.PlainClone s projectPath o)
          match err with
          | some e =>
            if ErrEmptyRemoteRepository_Is e then do
              let err ← init L env gitContext projectPath
              match err with
              | some e1 =>
                pure (false, some (fmtErrorf Fmt.ErrMsgCouldNotGitAction
                  ["init", gitContext.Project] (mapError (some e1))))
              | none => cloneFinish L env gitContext projectPath
            else
              pure (false, some (fmtErrorf Fmt.ErrMsgCouldNotGitAction
                ["clone", gitContext.Project] (mapError (some e))))
          | none => cloneFinish L env gitContext projectPath

/-- The Go method `Git.ProjectExists`. -/
def ProjectExists (gitContext : GitContext) : Prog (World S) Bool := do
  let found ← ProjectRepoExists L env gitContext.Project
  if found then pure true
  else do
    let r ← CloneRepo L env gitContext
    pure r.1

/-- The Go method `Git.Pull`. -/
def Pull (gitContext : GitContext) : Prog (World S) (Option Error) := do
  let found ← ProjectExists L env gitContext
  if !found then
    pure (some (fmtErrorf Fmt.ErrMsgCouldNotGitAction ["pull", gitContext.Project]
      (some (Error.kerr KSentinel.ErrProjectNotFound))))
  else do
    let err ← getWorkTree L env gitContext
    match err with
    | some e =>
      pure (some (fmtErrorf Fmt.ErrMsgCouldNotGitAction ["pull", gitContext.Project]
        (mapError (some e))))
    | none => do
      let r := GetProjectConfigPath env gitContext.Project
      let h ← ask (Call.Head r) (fun s => L.Head s r)
      match h with
      | Except.error e =>
        pure (some (fmtErrorf Fmt.ErrMsgCouldNotGitAction ["pull", gitContext.Project]
          (mapError (some e))))
      | Except.ok head => do
        let o1 : PullOptions :=
          { RemoteName := "origin", Force := true, ReferenceName := some head.name,
            Auth := gitContext.AuthMethod.GoGitAuth,
            InsecureSkipTLS := retrieveInsecureSkipTLS gitContext.Credentials }
        let o2 : PullOptions :=
          { RemoteName := "origin", Force := true, ReferenceName := none,
            Auth := gitContext.AuthMethod.GoGitAuth,
            InsecureSkipTLS := retrieveInsecureSkipTLS gitContext.Credentials }
        let err1 ← act (Call.Pull r o1) (fun s => L.Pull s r o1)
        let err ←
          if errorsIs err1 (Error.lib LibSentinel.plumbingErrReferenceNotFound) then
            act (Call.Pull r o2) (fun s => L.Pull s r o2)
          else pure err1
        match err with
        | some e =>
          if errorsIs (some e) (Error.lib LibSentinel.gitNoErrAlreadyUpToDate)
              || errorsIs (some e) (Error.lib LibSentinel.transportErrEmptyRemoteRepository) then
            pure none
          else
            pure (some (fmtErrorf Fmt.ErrMsgCouldNotGitAction ["pull", gitContext.Project]
              (mapError (some e))))
        | none => pure none

/-- The Go method `Git.commitAll`. -/
def commitAll (gitContext : GitContext) (message : String) :
    Prog (World S) (String × Option Error) := do
  let err ← getWorkTree L env gitContext
  match err with
  | some e => pure ("", some e)
  | none => do
    let w := GetProjectConfigPath env gitContext.Project
    let message := if message = "" then "commit changes" else message
    let err ← act (Call.AddWithOptions w) (fun s => L.AddWithOptions s w)
    match err with
    | some e => pure ("", some e)
    | none => do
      let author : Signature := { Name := getGitKeptnUser env, Email := getGitKeptnEmail env }
      let r ← act (Call.Commit w message author) (fun s => L.Commit s w message author)
      pure (r.1.String, r.2)

/-- The Go method `Git.ResetHard`. -/
def ResetHard (gitContext : GitContext) (rev : String) : Prog (World S) (Option Error) := do
  let err ← getWorkTree L env gitContext
  match err with
  | some e =>
    pure (some (fmtErrorf Fmt.ErrMsgCouldNotGitAction ["reset", gitContext.Project] (some e)))
  | none => do
    let r := GetProjectConfigPath env gitContext.Project
    let revision ← ask (Call.ResolveRevision r rev) (fun s => L.ResolveRevision s r rev)
    match revision with
    | Except.error e =>
      pure (some (fmtErrorf Fmt.ErrMsgCouldNotGitAction ["reset", gitContext.Project] (some e)))
    | Except.ok none => goPanic "nil pointer dereference"
    | Except.ok (some h) => act (Call.Reset r (some h)) (fun s => L.Reset s r (some h))

/-- The Go method `Git.GetCurrentRevision`. -/
def GetCurrentRevision (gitContext : GitContext) : Prog (World S) (String × Option Error) := do
  let err ← getWorkTree L env gitContext
  match err with
  | some e =>
    pure ("", some (fmtErrorf Fmt.ErrMsgCouldNotGetRevision [gitContext.Project]
      (mapError (some e))))
  | none => do
    let r := GetProjectConfigPath env gitContext.Project
    let h ← ask (Call.Head r) (fun s => L.Head s r)
    match h with
    | Except.error e =>
      pure ("", some (fmtErrorf Fmt.ErrMsgCouldNotGetRevision [gitContext.Project]
        (mapError (some e))))
    | Except.ok ref => pure (ref.hash.String, none)

/-- The Go method `Git.getCurrentRemoteRevision`: the commit id of the remote and
whether the remote is up to date with the local branch. -/
def getCurrentRemoteRevision (gitContext : GitContext) :
    Prog (World S) (String × Bool × Option Error) := do
  let fail (e : Error) : String × Bool × Option Error :=
    ("", false, some (fmtErrorf Fmt.ErrMsgCouldNotGetRevision [gitContext.Project] (some e)))
  let err ← getWorkTree L env gitContext
  match err with
  | some e => pure (fail e)
  | none => do
    let repo := GetProjectConfigPath env gitContext.Project
    let h ← ask (Call.Head repo) (fun s => L.Head s repo)
    match h with
    | Except.error e => pure (fail e)
    | Except.ok headRef => do
      let branch := ReferenceName.Short headRef.name
      let revision := "origin/" ++ branch
      let rh ← ask (Call.ResolveRevision repo revision)
        (fun s => L.ResolveRevision s repo revision)
      match rh with
      | Except.error e => pure (fail e)
      | Except.ok none => goPanic "nil pointer dereference"
      | Except.ok (some revHash) => do
        let err ← ask (Call.CommitObject repo revHash) (fun s => L.CommitObject s repo revHash)
        match err with
        | some e => pure (fail e)
        | none => do
          let err ← ask (Call.CommitObject repo headRef.hash)
            (fun s => L.CommitObject s repo headRef.hash)
          match err with
          | some e => pure (fail e)
          | none => do
            let a ← ask (Call.IsAncestor repo headRef.hash revHash)
              (fun s => L.IsAncestor s repo headRef.hash revHash)
            match a with
            | Except.error e => pure (fail e)
            | Except.ok isAncestor => pure (revHash.String, isAncestor, none)

/-- The Go method `Git.StageAndCommitAll`. -/
def StageAndCommitAll (gitContext : GitContext) (message : String) :
    Prog (World S) (String × Option Error) := do
  let c ← commitAll L env gitContext message
  match c.2 with
  | some _ => do
    let err ← ResetHard L env gitContext "HEAD~0"
    pure ("", some (fmtErrorf Fmt.ErrMsgCouldNotCommit [gitContext.Project] (mapError err)))
  | none => do
    let err ← Pull L env gitContext
    match err with
    | some e => do
      let _ ← ResetHard L env gitContext "HEAD~1"
      pure ("", some e)
    | none => do
      let err ← Push L env gitContext
      match err with
      | some e => do
        let _ ← ResetHard L env gitContext "HEAD~1"
        pure ("", some e)
      | none => do
        let r ← getCurrentRemoteRevision L env gitContext
        match r.2.2 with
        | some e =>
          pure ("", some (fmtErrorf Fmt.ErrMsgCouldNotCommit [gitContext.Project]
            (mapError (some e))))
        | none =>
          if !r.2.1 then
            pure ("", some (fmtErrorf Fmt.ErrMsgCouldNotCommit [gitContext.Project]
              (some (Error.kerr KSentinel.ErrForceNeeded))))
          else pure (r.1, none)

/-- The Go method `Git.checkoutBranch`. -/
def checkoutBranch (gitContext : GitContext) (options : CheckoutOptions) :
    Prog (World S) (Option Error) := do
  let found ← ProjectExists L env gitContext
  if found then do
    let err ← getWorkTree L env gitContext
    match err with
    | some e => pure (some e)
    | none =>
      let w := GetProjectConfigPath env gitContext.Project
      act (Call.Checkout w options) (fun s => L.Checkout s w options)
  else pure (some (Error.kerr KSentinel.ErrProjectNotFound))

/-- The Go method `Git.CheckoutBranch`. -/
def CheckoutBranch (gitContext : GitContext) (branch : String) :
    Prog (World S) (Option Error) := do
  let b : ReferenceName :=
    if stringsHasPrefix branch "refs" then branch else NewBranchReferenceName branch
  let err ← checkoutBranch L env gitContext { Branch := b, Create := false, Force := true }
  match err with
  | some e =>
    if errorsIs (some e) (Error.lib LibSentinel.plumbingErrReferenceNotFound) then
      pure (some (fmtErrorf Fmt.ErrMsgCouldNotCheckout [branch]
        (some (Error.kerr KSentinel.ErrReferenceNotFound))))
    else pure (some (fmtErrorf Fmt.ErrMsgCouldNotCheckout [branch] (mapError (some e))))
  | none => pure none

/-- The Go method `Git.CreateBranch`. -/
def CreateBranch (gitContext : GitContext) (branch : String) (sourceBranch : String) :
    Prog (World S) (Option Error) := do
  let err ← CheckoutBranch L env gitContext sourceBranch
  match err with
  | some e => pure (some e)
  | none => do
    let b := NewBranchReferenceName branch
    let newBranch : Branch := { Name := branch, Remote := "origin", Merge := b }
    let err ← getWorkTree L env gitContext
    match err with
    | some e =>
      pure (some (fmtErrorf Fmt.ErrMsgCouldNotCreate [branch, gitContext.Project]
        (mapError (some e))))
    | none => do
      let w := GetProjectConfigPath env gitContext.Project
      let o1 : CheckoutOptions := { Branch := b, Create := false, Force := false }
      let err ← act (Call.Checkout w o1) (fun s => L.Checkout s w o1)
      match err with
      | none =>
        pure (some (fmtErrorf Fmt.ErrMsgCouldNotCreate [branch, gitContext.Project]
          (some (Error.kerr KSentinel.ErrBranchExists))))
      | some _ => do
        let o2 : CheckoutOptions := { Branch := b, Create := true, Force := false }
        let err ← act (Call.Checkout w o2) (fun s => L.Checkout s w o2)
        match err with
        | some e =>
          pure (some (fmtErrorf Fmt.ErrMsgCouldNotCreate [branch, gitContext.Project]
            (mapError (some e))))
        | none => do
          let err ← act (Call.CreateBranch w newBranch) (fun s => L.CreateBranch s w newBranch)
          match err with
          | some e =>
            pure (some (fmtErrorf Fmt.ErrMsgCouldNotCreate [branch, gitContext.Project]
              (mapError (some e))))
          | none => pure none

/-- The Go method `Git.GetDefaultBranch`. -/
def GetDefaultBranch (gitContext : GitContext) : Prog (World S) (String × Option Error) := do
  let err ← getWorkTree L env gitContext
  match err with
  | some e =>
    pure ("", some (fmtErrorf Fmt.ErrMsgCouldNotGetDefBranch [gitContext.Project] (some e)))
  | none => do
    let r := GetProjectConfigPath env gitContext.Project
    let c ← ask (Call.Config r) (fun s => L.Config s r)
    match c.2 with
    | some e =>
      pure ("", some (fmtErrorf Fmt.ErrMsgCouldNotGetDefBranch [gitContext.Project] (some e)))
    | none =>
      match c.1 with
      | none => goPanic "nil pointer dereference"
      | some repoConfig =>
        if repoConfig.InitDefaultBranch = "" then do
          let h ← ask (Call.Head r) (fun s => L.Head s r)
          match h with
          | Except.error e =>
            pure ("", some (fmtErrorf Fmt.ErrMsgCouldNotGetDefBranch [gitContext.Project]
              (some e)))
          | Except.ok head => pure (head.name, none)
        else pure (repoConfig.InitDefaultBranch, none)

/-- The loop of `Git.migrateBranch` over the entries of the temporary tree. -/
def migrateFiles (branch : Reference) (projectPath tmpProjectPath : String) :
    List String → Prog (World S) (Option Error)
  | [] => pure none
  | file :: files =>
    if file = ".git" then migrateFiles branch projectPath tmpProjectPath files
    else do
      let src := tmpProjectPath ++ "/" ++ file
      let dst := projectPath ++ "/" ++ env.StageDirectoryName ++ "/"
        ++ ReferenceName.Short branch.name ++ "/" ++ file
      let err ← act (Call.osRename src dst) (fun s => L.osRename s src dst)
      match err with
      | some e => pure (some e)
      | none => migrateFiles branch projectPath tmpProjectPath files

/-- The Go method `Git.migrateBranch`; `oldRepoWorktree` is the path of the
temporary tree. -/
def migrateBranch (branch : Reference) (oldRepoWorktree : String)
    (projectPath tmpProjectPath : String) : Prog (World S) (Option Error) := do
  let o : CheckoutOptions := { Branch := branch.name, Create := false, Force := false }
  let err ← act (Call.Checkout oldRepoWorktree o) (fun s => L.Checkout s oldRepoWorktree o)
  match err with
  | some e => pure (some e)
  | none => do
    let stages := projectPath ++ "/" ++ env.StageDirectoryName
    let err ← act (Call.ensureDirectoryExists stages)
      (fun s => L.ensureDirectoryExists s stages)
    match err with
    | some e => pure (some e)
    | none => do
      let stage := projectPath ++ "/" ++ env.StageDirectoryName ++ "/"
        ++ ReferenceName.Short branch.name
      let err ← act (Call.ensureDirectoryExists stage)
        (fun s => L.ensureDirectoryExists s stage)
      match err with
      | some e => pure (some e)
      | none => do
        let files ← ask (Call.ReadDir tmpProjectPath) (fun s => L.ReadDir s tmpProjectPath)
        match files with
        | Except.error e => pure (some e)
        | Except.ok files => do
          let err ← migrateFiles L env branch projectPath tmpProjectPath files
          match err with
          | some e => pure (some e)
          | none => do
            let err ← act (Call.Reset oldRepoWorktree none)
              (fun s => L.Reset s oldRepoWorktree none)
            match err with
            | some e => pure (some e)
            | none => pure none

/-- The method `ForEach` of go-git reference iterators: the callback runs on each
reference in turn; its first error ends the iteration and is returned, except
`storer.ErrStop`, which ends it with nil. -/
def forEach {W : Type} (cb : Reference → Prog W (Option Error)) :
    List Reference → Prog W (Option Error)
  | [] => pure none
  | r :: rs => do
    let err ← cb r
    match err with
    | some e => if e = Error.lib LibSentinel.storerErrStop then pure none else pure (some e)
    | none => forEach cb rs

/-- The Go method `Git.MigrateProject`. -/
def MigrateProject (gitContext : GitContext) (newMetadataContent : String) :
    Prog (World S) (Option Error) := do
  let err ← Pull L env gitContext
  match err with
  | some e => pure (some e)
  | none => do
    let tmpGitContext : GitContext :=
      { Project := "_keptn-tmp_" ++ gitContext.Project, Credentials := gitContext.Credentials,
        AuthMethod := gitContext.AuthMethod }
    let tmpProjectPath := GetProjectConfigPath env tmpGitContext.Project
    let projectPath := GetProjectConfigPath env gitContext.Project
    let d ← GetDefaultBranch L env gitContext
    match d.2 with
    | some e => pure (some e)
    | none => do
      let defaultBranch := d.1
      let c ← CloneRepo L env tmpGitContext
      match c.2 with
      | some e => pure (some e)
      | none => do
        let err ← getWorkTree L env tmpGitContext
        match err with
        | some e => pure (some e)
        | none => do
          let err ← fetch L tmpGitContext tmpProjectPath
          match err with
          | some e => pure (some e)
          | none => do
            let bs ← ask (Call.Branches tmpProjectPath) (fun s => L.Branches s tmpProjectPath)
            match bs with
            | Except.error _ => goPanic "nil pointer dereference"
            | Except.ok branches => do
              let err ← forEach (fun branch =>
                if ReferenceName.Short branch.name ≠ defaultBranch then
                  migrateBranch L env branch tmpProjectPath projectPath tmpProjectPath
                else pure none) branches
              match err with
              | some e => pure (some e)
              | none => do
                let metaFile := GetProjectMetadataFilePath env gitContext.Project
                let err ← act (Call.WriteFile metaFile newMetadataContent)
                  (fun s => L.WriteFile s metaFile newMetadataContent)
                match err with
                | some e => pure (some e)
                | none => do
                  let c ← StageAndCommitAll L env gitContext "migrated project structure"
                  match c.2 with
                  | some e => pure (some e)
                  | none => do
                    let err ← act (Call.osRemoveAll tmpProjectPath)
                      (fun s => L.osRemoveAll s tmpProjectPath)
                    match err with
                    | some e => pure (some e)
                    | none => pure none

/-- The callback of the `ForEach` in `Git.MoveToNewUpstream`. -/
def pushBranch (currentRepo : String) (newContext : GitContext) (branch : Reference) :
    Prog (World S) (Option Error) := do
  let o : CheckoutOptions := { Branch := branch.name, Create := false, Force := false }
  let err ← act (Call.Checkout currentRepo o) (fun s => L.Checkout s currentRepo o)
  match err with
  | some e => pure (some e)
  | none => do
    let po : PushOptions :=
      { RemoteName := "tmp-origin", Auth := newContext.AuthMethod.GoGitAuth, Force := false,
        InsecureSkipTLS := retrieveInsecureSkipTLS newContext.Credentials }
    let err ← act (Call.Push currentRepo po) (fun s => L.Push s currentRepo po)
    match err with
    | some e =>
      if !(errorsIs (some e) (Error.lib LibSentinel.gitNoErrAlreadyUpToDate)) then
        pure (some (fmtErrorf Fmt.ErrMsgCouldNotGitAction ["push", newContext.Project]
          (mapError (some e))))
      else pure none
    | none => pure none

/-- The part of `Git.MoveToNewUpstream` from the fetch on. -/
def moveBranches (currentContext newContext : GitContext) (currentRepo : String) :
    Prog (World S) (Option Error) := do
  let err ← fetch L currentContext currentRepo
  match err with
  | some e => pure (some e)
  | none => do
    let bs ← ask (Call.Branches currentRepo) (fun s => L.Branches s currentRepo)
    match bs with
    | Except.error _ => goPanic "nil pointer dereference"
    | Except.ok branches => do
      let err ← forEach (pushBranch L currentRepo newContext) branches
      match err with
      | some e => pure (mapError (some e))
      | none => do
        let err ← ensureRemoteMatchesCredentials L currentRepo newContext
        match err with
        | some e => pure (mapError (some e))
        | none => do
          let err ← act (Call.DeleteRemote currentRepo "tmp-origin")
            (fun s => L.DeleteRemote s currentRepo "tmp-origin")
          match err with
          | some e => pure (mapError (some e))
          | none => pure none

/-- The Go method `Git.MoveToNewUpstream`. -/
def MoveToNewUpstream (currentContext newContext : GitContext) :
    Prog (World S) (Option Error) := do
  let err ← Pull L env currentContext
  match err with
  | some e => pure (some e)
  | none => do
    let err ← getWorkTree L env currentContext
    match err with
    | some e => pure (some e)
    | none => do
      let currentRepo := GetProjectConfigPath env currentContext.Project
      let err ← act (Call.DeleteRemote currentRepo "tmp-origin")
        (fun s => L.DeleteRemote s currentRepo "tmp-origin")
      if err ≠ none ∧ err ≠ some (Error.lib LibSentinel.gitErrRemoteNotFound) then
        pure (mapError err)
      else
        match newContext.Credentials with
        | none => goPanic "nil pointer dereference"
        | some credentials => do
          let c : RemoteConfig :=
            { Name := "tmp-origin", URL0 := credentials.RemoteURL, URLs := [] }
          let err ← act (Call.CreateRemote currentRepo c) (fun s => L.CreateRemote s currentRepo c)
          match err with
          | some e => pure (mapError (some e))
          | none => moveBranches L currentContext newContext currentRepo

/-- The Go function `resolve`.  The recursion follows commits to their tree and
tags to their target; `fuel` bounds its depth, and `none` means the bound was
reached. -/
def resolve (O : GoGitObjects S) (s : S) (repo : String) :
    Nat → Obj → String → Option (Except Error Hash)
  | 0, _, _ => none
  | fuel + 1, Obj.Commit h, path =>
    match O.CommitTree s repo h with
    | Except.error err => some (Except.error err)
    | Except.ok t => resolve O s repo fuel (Obj.Tree t) path
  | fuel + 1, Obj.Tag h, path =>
    match O.TagObject s repo h with
    | Except.error err => some (Except.error err)
    | Except.ok target => resolve O s repo fuel target path
  | _ + 1, Obj.Tree h, path =>
    match O.TreeFile s repo h path with
    | Except.error err => some (Except.error err)
    | Except.ok blob => some (Except.ok blob)
  | _ + 1, Obj.Blob h, _ => some (Except.ok h)
  | _ + 1, Obj.Other, _ => some (Except.error (Error.lib LibSentinel.objectErrUnsupportedObject))

/-- The Go method `Git.GetFileRevision`.  It only inspects the store, so it is a
function of the store; `none` means that `resolve` reached its bound. -/
def GetFileRevision (O : GoGitObjects S) (fuel : Nat) (gitContext : GitContext)
    (revision file : String) (s : S) : Option (String × Option Error) :=
  let path := GetProjectConfigPath env gitContext.Project
  let fail (action : String) (e : Error) : Option (String × Option Error) :=
    some ("", some (fmtErrorf Fmt.ErrMsgCouldNotGitAction [action, gitContext.Project] (some e)))
  match L.PlainOpen s path with
  | some err => fail "open" err
  | none =>
    match L.ResolveRevision s path revision with
    | Except.error err => fail "retrieve revision in " err
    | Except.ok none => fail "open" (Error.kerr KSentinel.ErrResolvedNilHash)
    | Except.ok (some h) =>
      match O.Object s path h with
      | (_, some err) => fail "retrieve revision in " err
      | (none, none) => fail "retrieve revision in " (Error.kerr KSentinel.ErrResolveRevision)
      | (some obj, none) =>
        match resolve O s path fuel obj file with
        | none => none
        | some (Except.error err) =>
          if errorsIs (some err) (Error.lib LibSentinel.objectErrFileNotFound) then
            fail "retrieve revision in " (Error.kerr KSentinel.ErrResourceNotFound)
          else fail "retrieve revision in " err
        | some (Except.ok blob) =>
          match O.BlobReader s path blob with
          | Except.error err => fail "retrieve revision in " err
          | Except.ok re => some (O.ReadAll s path re)

end Git

end Methods

/-! ## An executable repository store

`simGit` implements `GoGit` on a small model of the local disk: directories,
files, and repositories with a symbolic HEAD, references, a commit graph,
remotes and configuration.  What the network answers to a clone, fetch, pull or
push is an input: the store carries the list of the answers still to come.  The
trees and blobs of commits are there to be read: a checkout or reset moves
references, and a commit made through `simGit` has no tree.  `simGitIndex`, defined
with the examples, is the same library with the index of the worktree: there `Add`
stages a file and a commit records the staged files as its tree.
-/

/-- Lookup in an association list keyed by strings. -/
def assocGet {α : Type} (k : String) : List (String × α) → Option α
  | [] => none
  | (k1, v) :: rest => if k1 = k then some v else assocGet k rest

/-- Insertion or replacement in an association list keyed by strings. -/
def assocSet {α : Type} (k : String) (v : α) : List (String × α) → List (String × α)
  | [] => [(k, v)]
  | (k1, v1) :: rest => if k1 = k then (k, v) :: rest else (k1, v1) :: assocSet k v rest

/-- Writes every binding of the first list into the second. -/
def assocSetAll {α : Type} : List (String × α) → List (String × α) → List (String × α)
  | [], l => l
  | (k, v) :: rest, l => assocSetAll rest (assocSet k v l)

/-- A local repository. -/
structure SimRepo where
  HEAD : ReferenceName
  refs : List (String × Hash)
  commits : List (String × List Hash)
  remotes : List (String × RemoteConfig)
  config : GitConfig
  branches : List (String × Branch)
  trees : List (String × List (String × Hash)) := []
  blobs : List (String × String) := []
  index : List (String × Hash) := []
  deriving DecidableEq, Repr

/-- What the network answers to one transfer: an error, or the HEAD of the
upstream (used by a clone), the references the transfer writes locally and the
commits it brings. -/
structure NetReply where
  err : Option Error
  head : ReferenceName
  refs : List (String × Hash)
  commits : List (String × List Hash)
  deriving DecidableEq, Repr

/-- The local disk and the answers of the network still to come. -/
structure Sim where
  dirs : List String
  files : List (String × String)
  repos : List (String × SimRepo)
  net : List NetReply
  commitFault : Option Error
  deriving DecidableEq, Repr

/-- The error of an operation on a path that holds no repository. -/
def notARepo : Error := Error.lib LibSentinel.gitErrRepositoryNotExists

/-- Writes the repository at `path`. -/
def Sim.setRepo (s : Sim) (path : String) (r : SimRepo) : Sim :=
  { s with repos := assocSet path r s.repos }

/-- Runs a repository update at `path`, or fails when no repository is there. -/
def Sim.update (s : Sim) (path : String) (f : SimRepo → Option Error × SimRepo) :
    Option Error × Sim :=
  match assocGet path s.repos with
  | none => (some notARepo, s)
  | some r => ((f r).1, s.setRepo path (f r).2)

/-- Takes the next answer of the network. -/
def Sim.transfer (s : Sim) : NetReply × Sim :=
  match s.net with
  | [] => ({ err := some (Error.other "network unreachable"), head := "", refs := [],
             commits := [] }, s)
  | r :: rest => (r, { s with net := rest })

/-- A transfer into an existing repository: on success the references and commits
of the answer are written. -/
def Sim.receive (s : Sim) (path : String) : Option Error × Sim :=
  match assocGet path s.repos with
  | none => (some notARepo, s)
  | some _ =>
    let t := s.transfer
    match t.1.err with
    | some e => (some e, t.2)
    | none =>
      t.2.update path (fun r =>
        (none, { r with refs := assocSetAll t.1.refs r.refs,
                        commits := assocSetAll t.1.commits r.commits }))

/-- The repository without the remote `name`. -/
def SimRepo.dropRemote (r : SimRepo) (name : String) : SimRepo :=
  { r with remotes := r.remotes.filter (fun kv => kv.1 ≠ name) }

/-- The repository with the remote `c` written. -/
def SimRepo.addRemote (r : SimRepo) (c : RemoteConfig) : SimRepo :=
  { r with remotes := assocSet c.Name c r.remotes }

/-- The origin remote at `url`. -/
def originAt (url : String) : RemoteConfig := { Name := "origin", URL0 := url, URLs := [] }

/-- The hash that HEAD resolves to. -/
def SimRepo.headHash (r : SimRepo) : Option Hash := assocGet r.HEAD r.refs

/-- The first parent of a commit. -/
def SimRepo.firstParent (r : SimRepo) (h : Hash) : Option Hash :=
  match assocGet h.hex r.commits with
  | some (p :: _) => some p
  | _ => none

/-- Resolution of a name that carries no `~` suffix: `HEAD`, then the reference
rules of go-git, then a commit id. -/
def SimRepo.resolveName (r : SimRepo) (name : String) : Option Hash :=
  if name = "HEAD" then r.headHash
  else
    (assocGet name r.refs).orElse fun _ =>
    (assocGet ("refs/" ++ name) r.refs).orElse fun _ =>
    (assocGet ("refs/tags/" ++ name) r.refs).orElse fun _ =>
    (assocGet ("refs/heads/" ++ name) r.refs).orElse fun _ =>
    (assocGet ("refs/remotes/" ++ name) r.refs).orElse fun _ =>
    match assocGet name r.commits with
    | some _ => some { hex := name }
    | none => none

/-- Resolution of a revision: a name, optionally followed by `~0` or `~1`. -/
def SimRepo.resolve (r : SimRepo) (rev : String) : Option Hash :=
  match rev.data.reverse with
  | '0' :: '~' :: base => r.resolveName (String.mk base.reverse)
  | '1' :: '~' :: base =>
    match r.resolveName (String.mk base.reverse) with
    | some h => r.firstParent h
    | none => none
  | _ => r.resolveName rev

/-- Whether commit `a` is reachable from commit `c` in at most `fuel` parent
steps. -/
def SimRepo.reaches (r : SimRepo) : Nat → Hash → Hash → Bool
  | 0, a, c => decide (a = c)
  | fuel + 1, a, c =>
    decide (a = c) ||
      (match assocGet c.hex r.commits with
       | some ps => ps.any (fun p => SimRepo.reaches r fuel a p)
       | none => false)

/-- The hash of the next commit created locally: a run of `c` one longer than the
number of commits in the repository. -/
def SimRepo.freshHash (r : SimRepo) : Hash :=
  { hex := String.mk (List.replicate (r.commits.length + 1) 'c') }

/-- The method `Worktree.Checkout` of go-git: with `Create` the branch must be new
and is created at HEAD; then the branch must resolve, and HEAD is pointed at
it. -/
def SimRepo.checkout (r : SimRepo) (o : CheckoutOptions) : Option Error × SimRepo :=
  if o.Create then
    match assocGet o.Branch r.refs with
    | some _ => (some (Error.other "a branch with that name already exists"), r)
    | none =>
      match r.headHash with
      | none => (some (Error.lib LibSentinel.plumbingErrReferenceNotFound), r)
      | some h => (none, { r with refs := assocSet o.Branch h r.refs, HEAD := o.Branch })
  else
    match assocGet o.Branch r.refs with
    | none => (some (Error.lib LibSentinel.plumbingErrReferenceNotFound), r)
    | some _ => (none, { r with HEAD := o.Branch })

/-- The content of the file `.git/HEAD` of a repository. -/
def SimRepo.headFile (r : SimRepo) : String := "ref: " ++ r.HEAD ++ "\n"

/-- The symbolic target written in a `.git/HEAD` file, if it has the expected
shape. -/
def parseHeadFile (content : String) : Option ReferenceName :=
  match stripLeading "ref: ".data content.data with
  | some rest =>
    match rest.reverse with
    | '\n' :: name => some (String.mk name.reverse)
    | _ => none
  | none => none

/-- The path of the repository whose `.git/HEAD` file is `path`, if any. -/
def Sim.headFileOf (s : Sim) (path : String) : Option String :=
  (s.repos.find? (fun kv => decide (kv.1 ++ gitHeadFilePath = path))).map (fun kv => kv.1)

/-- The entries directly under a directory: files, directories and `.git`. -/
def Sim.readDir (s : Sim) (path : String) : List String :=
  let under (p : String) : Option String :=
    match stripLeading (path ++ "/").data p.data with
    | some rest => if rest.contains '/' || rest.isEmpty then none else some (String.mk rest)
    | none => none
  (match assocGet path s.repos with
   | some _ => [".git"]
   | none => [])
  ++ (s.dirs.filterMap under) ++ (s.files.filterMap (fun kv => under kv.1))

/-- The executable library. -/
def simGit : GoGit Sim where
  osStat s path :=
    if path ∈ s.dirs ∨ (assocGet path s.repos).isSome then none
    else some (Error.other "no such file or directory")
  ensureDirectoryExists s path := (none, { s with dirs := path :: s.dirs })
  osMkdirAll s path := (none, { s with dirs := path :: s.dirs })
  osCreate s path := (none, { s with files := assocSet path "" s.files })
  fileWrite s _ := (none, s)
  fileClose s _ := (none, s)
  ReadFile s path :=
    match s.headFileOf path with
    | some repo =>
      match assocGet repo s.repos with
      | some r => Except.ok r.headFile
      | none => Except.error (Error.other "no such file or directory")
    | none =>
      match assocGet path s.files with
      | some c => Except.ok c
      | none => Except.error (Error.other "no such file or directory")
  WriteFile s path content :=
    match s.headFileOf path with
    | some repo =>
      match parseHeadFile content with
      | some target => s.update repo (fun r => (none, { r with HEAD := target }))
      | none => (some (Error.other "unsupported HEAD file"), s)
    | none => (none, { s with files := assocSet path content s.files })
  ReadDir s path :=
    if path ∈ s.dirs ∨ (assocGet path s.repos).isSome then Except.ok (s.readDir path)
    else Except.error (Error.other "no such file or directory")
  osRename s oldpath newpath :=
    match assocGet oldpath s.files with
    | some c =>
      (none, { s with files := assocSet newpath c (s.files.filter (fun kv => kv.1 ≠ oldpath)) })
    | none =>
      if oldpath ∈ s.dirs then
        (none, { s with dirs := newpath :: s.dirs.filter (fun d => d ≠ oldpath) })
      else (some (Error.other "no such file or directory"), s)
  osRemoveAll s path :=
    (none, { s with dirs := s.dirs.filter (fun d => d ≠ path),
                    repos := s.repos.filter (fun kv => kv.1 ≠ path) })
  PlainOpen s path :=
    match assocGet path s.repos with
    | some _ => none
    | none => some notARepo
  PlainClone s path o :=
    match assocGet path s.repos with
    | some _ => (some (Error.lib LibSentinel.gitErrRepositoryAlreadyExists), s)
    | none =>
      let t := s.transfer
      match t.1.err with
      | some e => (some e, t.2)
      | none =>
        let r : SimRepo :=
          { HEAD := t.1.head, refs := t.1.refs, commits := t.1.commits,
            remotes := [("origin", { Name := "origin", URL0 := o.URL, URLs := [] })],
            config := { UserName := "", UserEmail := "", InitDefaultBranch := "" },
            branches := [] }
        (none, { t.2 with repos := assocSet path r t.2.repos })
  PlainInit s path :=
    match assocGet path s.repos with
    | some _ => (some (Error.lib LibSentinel.gitErrRepositoryAlreadyExists), s)
    | none =>
      let r : SimRepo :=
        { HEAD := "refs/heads/master", refs := [], commits := [], remotes := [],
          config := { UserName := "", UserEmail := "", InitDefaultBranch := "" },
          branches := [] }
      (none, { s with repos := assocSet path r s.repos })
  Config s repo :=
    match assocGet repo s.repos with
    | some r => (some r.config, none)
    | none => (none, some notARepo)
  SetConfig s repo c := s.update repo (fun r => (none, { r with config := c }))
  Head s repo :=
    match assocGet repo s.repos with
    | none => Except.error notARepo
    | some r =>
      match r.headHash with
      | some h => Except.ok { name := r.HEAD, hash := h }
      | none => Except.error (Error.lib LibSentinel.plumbingErrReferenceNotFound)
  Fetch s repo _ := s.receive repo
  Remote s repo name :=
    match assocGet repo s.repos with
    | none => Except.error notARepo
    | some r =>
      match assocGet name r.remotes with
      | some c => Except.ok c
      | none => Except.error (Error.lib LibSentinel.gitErrRemoteNotFound)
  DeleteRemote s repo name :=
    s.update repo (fun r =>
      match assocGet name r.remotes with
      | some _ => (none, r.dropRemote name)
      | none => (some (Error.lib LibSentinel.gitErrRemoteNotFound), r))
  CreateRemote s repo c :=
    s.update repo (fun r =>
      match assocGet c.Name r.remotes with
      | some _ => (some (Error.lib LibSentinel.gitErrRemoteExists), r)
      | none => (none, r.addRemote c))
  Worktree s repo :=
    match assocGet repo s.repos with
    | some _ => none
    | none => some notARepo
  Add s repo _ := s.update repo (fun r => (none, r))
  AddWithOptions s repo := s.update repo (fun r => (none, r))
  Commit s repo _ _ :=
    match assocGet repo s.repos with
    | none => (({ hex := "" }, some notARepo), s)
    | some r =>
      match s.commitFault with
      | some e => (({ hex := "" }, some e), s)
      | none =>
        let h := r.freshHash
        let ps := match r.headHash with
          | some p => [p]
          | none => []
        let r1 : SimRepo :=
          { r with refs := assocSet r.HEAD h r.refs, commits := assocSet h.hex ps r.commits }
        ((h, none), { s with repos := assocSet repo r1 s.repos })
  Push s repo _ := s.receive repo
  Pull s repo _ := s.receive repo
  Checkout s repo o := s.update repo (fun r => r.checkout o)
  Reset s repo commit :=
    s.update repo (fun r =>
      match commit with
      | none => (none, r)
      | some h =>
        match assocGet h.hex r.commits with
        | some _ => (none, { r with refs := assocSet r.HEAD h r.refs })
        | none => (some (Error.other "object not found"), r))
  ResolveRevision s repo rev :=
    match assocGet repo s.repos with
    | none => Except.error notARepo
    | some r =>
      match r.resolve rev with
      | some h => Except.ok (some h)
      | none => Except.error (Error.lib LibSentinel.plumbingErrReferenceNotFound)
  CommitObject s repo h :=
    match assocGet repo s.repos with
    | none => some notARepo
    | some r =>
      match assocGet h.hex r.commits with
      | some _ => none
      | none => some (Error.other "object not found")
  IsAncestor s repo h of :=
    match assocGet repo s.repos with
    | none => Except.error notARepo
    | some r => Except.ok (r.reaches r.commits.length h of)
  CreateBranch s repo b :=
    s.update repo (fun r =>
      match assocGet b.Name r.branches with
      | some _ => (some (Error.lib LibSentinel.gitErrBranchExists), r)
      | none => (none, { r with branches := assocSet b.Name b r.branches }))
  Branches s repo :=
    match assocGet repo s.repos with
    | none => Except.error notARepo
    | some r =>
      Except.ok ((r.refs.filter (fun kv => stringsHasPrefix kv.1 "refs/heads/")).map
        (fun kv => { name := kv.1, hash := kv.2 }))

/-! ## Observations on runs and concrete inputs -/

/-- The value a run returns, if it returns. -/
def Outcome.val? {W α : Type} : Outcome W α → Option α
  | Outcome.ret a _ => some a
  | Outcome.panicked _ => none

/-- The world a run ends in, if it returns. -/
def Outcome.world? {W α : Type} : Outcome W α → Option W
  | Outcome.ret _ w => some w
  | Outcome.panicked _ => none

/-- The world a run ends in, or `w` if it panics. -/
def Outcome.worldOr {W α : Type} (o : Outcome W α) (w : W) : W :=
  match o with
  | Outcome.ret _ w1 => w1
  | Outcome.panicked _ => w

/-- The calls `Git.getWorkTree` can make. -/
def Call.isWorkTreeCall : Call → Bool
  | Call.PlainOpen _ => true
  | Call.Remote _ _ => true
  | Call.DeleteRemote _ _ => true
  | Call.CreateRemote _ _ => true
  | Call.Worktree _ => true
  | _ => false

/-- A call to the library's `Push`. -/
def Call.isPush : Call → Bool
  | Call.Push _ _ => true
  | _ => false

/-- A call to the library's `Reset`. -/
def Call.isReset : Call → Bool
  | Call.Reset _ _ => true
  | _ => false

/-- A call of the ancestor check: `ResolveRevision` of an `origin/...` revision,
`CommitObject` or `IsAncestor`. -/
def Call.isAncestorCheck : Call → Bool
  | Call.IsAncestor _ _ _ => true
  | Call.CommitObject _ _ => true
  | _ => false

/-- The calls one run of `Git.ResetHard` on `rev` appends to the trace: those of
`getWorkTree`, then nothing more, or the resolution of `rev`, or the resolution
followed by the one library reset to the resolved commit. -/
def ResetHardCalls (repo rev : String) (t : List Call) : Prop :=
  ∃ t1 t2, t = t1 ++ t2 ∧ (∀ c ∈ t1, c.isWorkTreeCall = true) ∧
    (t2 = [] ∨ t2 = [Call.ResolveRevision repo rev] ∨
      ∃ h, t2 = [Call.ResolveRevision repo rev, Call.Reset repo (some h)])

/-- Every call a returning run of `m` appends to the trace satisfies `P`. -/
def Emits {S α : Type} (P : Call → Bool) (m : Prog (World S) α) : Prop :=
  ∀ w a w1, m w = Outcome.ret a w1 → ∃ t, w1.trace = w.trace ++ t ∧ ∀ c ∈ t, P c = true

/-- Any call but the library's `Reset`. -/
def Call.notReset (c : Call) : Bool := !c.isReset

/-- What a successful ancestor check of `Git.getCurrentRemoteRevision` observed in
the store `s`: HEAD is `headRef`, `origin/<branch of HEAD>` resolves to `revHash`,
the library's ancestor test of the two commits answers `updated`, and `id` is the
hex id of `revHash`. -/
def RemoteRevisionAt {S : Type} (L : GoGit S) (env : Env) (gitContext : GitContext)
    (s : S) (id : String) (updated : Bool) : Prop :=
  ∃ headRef revHash,
    L.Head s (GetProjectConfigPath env gitContext.Project) = Except.ok headRef ∧
    L.ResolveRevision s (GetProjectConfigPath env gitContext.Project)
      ("origin/" ++ ReferenceName.Short headRef.name) = Except.ok (some revHash) ∧
    L.IsAncestor s (GetProjectConfigPath env gitContext.Project) headRef.hash revHash
      = Except.ok updated ∧
    id = revHash.String

/-- The reference `Git.CheckoutBranch` checks out for a branch argument: the
argument itself when it begins with `refs`, the branch reference of that name
otherwise. -/
def checkoutTarget (branch : String) : ReferenceName :=
  if stringsHasPrefix branch "refs" then branch else NewBranchReferenceName branch

/-- The store holds, at the project path of the context, a repository with an
`origin` remote whose HEAD points at `head` and whose references are `refs`. -/
def Ready (env : Env) (gitContext : GitContext) (s : Sim) (head : ReferenceName)
    (refs : List (String × Hash)) : Prop :=
  ∃ r rc, assocGet (GetProjectConfigPath env gitContext.Project) s.repos = some r ∧
    assocGet "origin" r.remotes = some rc ∧ r.HEAD = head ∧ r.refs = refs

/-- Process configuration of the examples. -/
def env0 : Env :=
  { configDir := "/data", keptnUserEnv := "", keptnEmailEnv := "",
    gitKeptnUserDefault := "keptn", gitKeptnEmailDefault := "keptn@keptn.sh",
    StageDirectoryName := "stages", defaultBranchFromEnv := "master",
    GitInitDefaultBranchName := "master" }

/-- Credentials of the examples. -/
def creds0 : GitCredentials :=
  { RemoteURL := "https://git/p", User := "u", HttpsAuth := none, SshAuth := none }

/-- The context of project `p`. -/
def ctx0 : GitContext :=
  { Project := "p", Credentials := some creds0, AuthMethod := { GoGitAuth := "t" } }

/-- The context of project `p` without credentials. -/
def ctxNoCreds : GitContext :=
  { Project := "p", Credentials := none, AuthMethod := { GoGitAuth := "t" } }

/-- A local repository on branch `main` at commit `a1`, in step with its remote,
with a second branch `dev`. -/
def repo0 : SimRepo :=
  { HEAD := "refs/heads/main",
    refs := [("refs/heads/main", { hex := "a1" }), ("refs/heads/dev", { hex := "a1" }),
             ("refs/remotes/origin/main", { hex := "a1" })],
    commits := [("a1", [])],
    remotes := [("origin", { Name := "origin", URL0 := "https://git/p", URLs := [] })],
    config := { UserName := "", UserEmail := "", InitDefaultBranch := "" },
    branches := [] }

/-- The network answers that everything is up to date. -/
def upToDate : NetReply :=
  { err := some (Error.lib LibSentinel.gitNoErrAlreadyUpToDate), head := "", refs := [],
    commits := [] }

/-- The network refuses the transfer. -/
def refused : NetReply :=
  { err := some (Error.lib LibSentinel.transportErrAuthorizationFailed), head := "", refs := [],
    commits := [] }

/-- The network accepts a push of commit `cc` to `main`. -/
def pushed : NetReply :=
  { err := none, head := "", refs := [("refs/remotes/origin/main", { hex := "cc" })],
    commits := [] }

/-- The network serves a clone of an upstream whose HEAD is on `main`, with a
second branch `dev`. -/
def cloneReply : NetReply :=
  { err := none, head := "refs/heads/main",
    refs := [("refs/heads/main", { hex := "a1" }), ("refs/heads/dev", { hex := "a1" }),
             ("refs/remotes/origin/main", { hex := "a1" })],
    commits := [("a1", [])] }

/-- A disk holding project `p` as `repo0`, with the given network answers. -/
def simProject (net : List NetReply) : World Sim :=
  { lib := { dirs := ["/data/p"], files := [], repos := [("/data/p", repo0)], net := net,
             commitFault := none },
    trace := [] }

/-- The same disk when the next commit fails. -/
def simCommitFails : World Sim :=
  { lib := { dirs := ["/data/p"], files := [], repos := [("/data/p", repo0)], net := [],
             commitFault := some (Error.other "permission denied") },
    trace := [] }

/-- An empty disk, with the given network answers. -/
def simEmpty (net : List NetReply) : World Sim :=
  { lib := { dirs := [], files := [], repos := [], net := net, commitFault := none },
    trace := [] }

/-- The world the commit step of the commit cycle leaves when started in `w`. -/
def afterCommit (w : World Sim) : World Sim :=
  (Git.commitAll simGit env0 ctx0 "add x" w).worldOr w

/-- The world the pull step of the commit cycle leaves. -/
def afterPull (w : World Sim) : World Sim :=
  (Git.Pull simGit env0 ctx0 (afterCommit w)).worldOr w

/-- The world the push step of the commit cycle leaves. -/
def afterPush (w : World Sim) : World Sim :=
  (Git.Push simGit env0 ctx0 (afterPull w)).worldOr w

/-- The world the ancestor check of the commit cycle leaves. -/
def afterCheck (w : World Sim) : World Sim :=
  (Git.getCurrentRemoteRevision simGit env0 ctx0 (afterPush w)).worldOr w

/-- The network answers met by a clone of `p`. -/
def cloneNet : List NetReply := [cloneReply, upToDate]

/-- The world a first `CloneRepo` of `p` leaves on an empty disk. -/
def afterClone (net : List NetReply) : World Sim :=
  (Git.CloneRepo simGit env0 ctx0 (simEmpty (cloneNet ++ net))).worldOr (simEmpty [])

/-- The network answers met by `MigrateProject` after the clone: nothing to pull,
the clone of the temporary tree and its two fetches, then the commit cycle. -/
def migrateNet : List NetReply :=
  [upToDate, cloneReply, upToDate, upToDate, upToDate, pushed]

/-- The temporary tree of the migration of `p`. -/
def tmpPath : String := "/data/_keptn-tmp_p"

/-- The world `MigrateProject` leaves when run after the clone of `p`. -/
def afterMigrate : World Sim :=
  (Git.MigrateProject simGit env0 ctx0 "k: v" (afterClone migrateNet)).worldOr (simEmpty [])

/-- The object store of the executable library: commits are the objects asked for,
the tree of a commit is named by the commit, files are looked up in `trees` and
their content in `blobs`; there are no tags. -/
def simObjects : GoGitObjects Sim where
  Object s repo h :=
    match assocGet repo s.repos with
    | none => (none, some notARepo)
    | some r =>
      match assocGet h.hex r.commits with
      | some _ => (some (Obj.Commit h), none)
      | none => (none, some (Error.other "object not found"))
  CommitTree s repo h :=
    match assocGet repo s.repos with
    | none => Except.error notARepo
    | some _ => Except.ok h
  TagObject _ _ _ := Except.error (Error.other "object not found")
  TreeFile s repo t path :=
    match assocGet repo s.repos with
    | none => Except.error notARepo
    | some r =>
      match assocGet t.hex r.trees with
      | none => Except.error (Error.lib LibSentinel.objectErrFileNotFound)
      | some entries =>
        match assocGet path entries with
        | some blob => Except.ok blob
        | none => Except.error (Error.lib LibSentinel.objectErrFileNotFound)
  BlobReader s repo blob :=
    match assocGet repo s.repos with
    | none => Except.error notARepo
    | some r =>
      match assocGet blob.hex r.blobs with
      | some _ => Except.ok { blob := blob }
      | none => Except.error (Error.other "object not found")
  ReadAll s repo re :=
    match assocGet repo s.repos with
    | none => ("", some notARepo)
    | some r =>
      match assocGet re.blob.hex r.blobs with
      | some content => (content, none)
      | none => ("", some (Error.other "object not found"))

/-- An error made by the library: no `kerrors` sentinel at the end of its chain. -/
def Error.isLibrary : Error → Bool
  | Error.kerr _ => false
  | Error.wrap _ _ inner => Error.isLibrary inner
  | _ => true

/-- A pull result that `Git.Pull` takes for success although it is an error:
already-up-to-date or empty-remote-repository. -/
def tolerated (err : Option Error) : Bool :=
  errorsIs err (Error.lib LibSentinel.gitNoErrAlreadyUpToDate)
    || errorsIs err (Error.lib LibSentinel.transportErrEmptyRemoteRepository)

/-- The cases in which `Pull` is to return success, in the words of the
specification: the first pull succeeds, or fails with a tolerated error, or fails
with reference-not-found and the retry succeeds or fails with a tolerated error. -/
def pullSucceeds (first retry : Option Error) : Bool :=
  first.isNone || tolerated first ||
    (errorsIs first (Error.lib LibSentinel.plumbingErrReferenceNotFound)
      && (retry.isNone || tolerated retry))

/-- The failure `Pull` reports: that of the retry when there was one, else that of
the first pull. -/
def pullFailure (first retry : Option Error) : Option Error :=
  if errorsIs first (Error.lib LibSentinel.plumbingErrReferenceNotFound) then retry else first

/-- A call to the library's `Pull`. -/
def Call.isPull : Call → Bool
  | Call.Pull _ _ => true
  | _ => false

/-- Whether `old` occurs in `s`. -/
def occursIn (old : List Char) : List Char → Bool
  | [] => old.isPrefixOf []
  | c :: cs => old.isPrefixOf (c :: cs) || occursIn old cs

/-- The context of project `p` with the zero value for credentials. -/
def ctxZeroCreds : GitContext :=
  { Project := "p", Credentials := some GitCredentials.zero,
    AuthMethod := { GoGitAuth := "t" } }

/-- Process configuration with the default branch `main`. -/
def envMain : Env := { env0 with defaultBranchFromEnv := "main" }

/-- Process configuration with a default branch that contains the hardcoded
name. -/
def envMaster2 : Env := { env0 with defaultBranchFromEnv := "master2" }

/-- A disk holding a freshly initialised repository at `/data/p`. -/
def simInitialised : World Sim :=
  { lib := { dirs := ["/data/p"], files := [],
             repos := [("/data/p",
               { HEAD := "refs/heads/master", refs := [], commits := [], remotes := [],
                 config := { UserName := "", UserEmail := "", InitDefaultBranch := "" },
                 branches := [] })],
             net := [], commitFault := none },
    trace := [] }

/-- The repository `repo0` whose commit `a1` holds the file `metadata.yaml`. -/
def repoFiles : SimRepo :=
  { repo0 with trees := [("a1", [("metadata.yaml", { hex := "b1" })])],
               blobs := [("b1", "k: v")] }

/-- A disk holding project `p` as `repoFiles`. -/
def simFiles : Sim :=
  { dirs := ["/data/p"], files := [], repos := [("/data/p", repoFiles)], net := [],
    commitFault := none }

/-- Credentials for another upstream of project `p`. -/
def credsNew : GitCredentials :=
  { RemoteURL := "https://git/q", User := "u", HttpsAuth := none, SshAuth := none }

/-- The context of project `p` at the other upstream. -/
def ctxNew : GitContext :=
  { Project := "p", Credentials := some credsNew, AuthMethod := { GoGitAuth := "t2" } }

/-- A call that initialises a repository, commits or pushes. -/
def Call.isInitCommitPush : Call → Bool
  | Call.PlainInit _ => true
  | Call.Commit _ _ _ => true
  | Call.Push _ _ => true
  | _ => false

/-- The calls of `Git.init` that create, add and commit the empty file
`metadata.yaml`. -/
def seedCalls (env : Env) (projectPath : String) : List Call :=
  [Call.osCreate (projectPath ++ "/metadata.yaml"),
   Call.fileWrite (projectPath ++ "/metadata.yaml"),
   Call.fileClose (projectPath ++ "/metadata.yaml"),
   Call.osMkdirAll (projectPath ++ "/.git"),
   Call.Worktree projectPath,
   Call.Add projectPath (projectPath ++ "/metadata.yaml"),
   Call.Commit projectPath "init git empty repo"
     { Name := getGitKeptnUser env, Email := getGitKeptnEmail env }]

/-- The calls `Git.init` can make before it creates `metadata.yaml`: the
initialisation or opening of the repository at `projectPath`, the rewrite of its
HEAD file, the lookup of `origin`, and the creation of `origin` at `url`. -/
def Call.isInitPrelude (projectPath url : String) : Call → Bool
  | Call.PlainInit p => decide (p = projectPath)
  | Call.PlainOpen p => decide (p = projectPath)
  | Call.ReadFile p => decide (p = projectPath ++ gitHeadFilePath)
  | Call.WriteFile p _ => decide (p = projectPath ++ gitHeadFilePath)
  | Call.Remote p n => decide (p = projectPath ∧ n = "origin")
  | Call.CreateRemote p c => decide (p = projectPath ∧ c = originAt url)
  | _ => false

/-- The network answers that the upstream is empty. -/
def emptyRemote : NetReply :=
  { err := some (Error.lib LibSentinel.transportErrEmptyRemoteRepository), head := "",
    refs := [], commits := [] }

/-- The network accepts a push of the first commit to `master`. -/
def pushedInit : NetReply :=
  { err := none, head := "", refs := [("refs/remotes/origin/master", { hex := "c" })],
    commits := [] }

/-- The temporary remote of `MoveToNewUpstream` at `url`. -/
def tmpOriginAt (url : String) : RemoteConfig :=
  { Name := "tmp-origin", URL0 := url, URLs := [] }

/-- The two calls `MoveToNewUpstream` makes for one branch: its checkout, and the
push to the temporary remote with the auth of the new context. -/
def moveCalls (repo : String) (newContext : GitContext) (branch : Reference) : List Call :=
  [Call.Checkout repo { Branch := branch.name, Create := false, Force := false },
   Call.Push repo
     { RemoteName := "tmp-origin", Auth := newContext.AuthMethod.GoGitAuth, Force := false,
       InsecureSkipTLS := retrieveInsecureSkipTLS newContext.Credentials }]

/-- The network accepts a transfer that changes nothing locally. -/
def accepted : NetReply := { err := none, head := "", refs := [], commits := [] }

/-- The repository `repo0` with a stale `tmp-origin` remote. -/
def repoStale : SimRepo :=
  { repo0 with remotes := [("origin", originAt "https://git/p"),
                           ("tmp-origin", tmpOriginAt "https://git/old")] }

/-- A disk holding project `p` as `repoStale`; the network has nothing to pull or
fetch and accepts two pushes. -/
def simStale : World Sim :=
  { lib := { dirs := ["/data/p"], files := [], repos := [("/data/p", repoStale)],
             net := [upToDate, upToDate, accepted, accepted], commitFault := none },
    trace := [] }

/-- A repository without commits, on the unborn branch `master`, with its
`origin`. -/
def repoFresh : SimRepo :=
  { HEAD := "refs/heads/master", refs := [], commits := [],
    remotes := [("origin", originAt "https://git/p")],
    config := { UserName := "", UserEmail := "", InitDefaultBranch := "" },
    branches := [] }

/-- A disk holding project `p` as `repoFresh`, with the given network answers. -/
def simFresh (net : List NetReply) : World Sim :=
  { lib := { dirs := ["/data/p"], files := [], repos := [("/data/p", repoFresh)], net := net,
             commitFault := none },
    trace := [] }

/-- The store after `MoveToNewUpstream` has checked out and pushed each of the
branches in turn, starting from `s`. -/
def moveStore {S : Type} (L : GoGit S) (repo : String) (newContext : GitContext) :
    List Reference → S → S
  | [], s => s
  | b :: rest, s =>
    moveStore L repo newContext rest
      (L.Push (L.Checkout s repo { Branch := b.name, Create := false, Force := false }).2 repo
        { RemoteName := "tmp-origin", Auth := newContext.AuthMethod.GoGitAuth, Force := false,
          InsecureSkipTLS := retrieveInsecureSkipTLS newContext.Credentials }).2

/-- Whether, starting from `s`, the library checks out every one of the branches
and accepts its push to `tmp-origin` or finds it already up to date. -/
def moveAccepted {S : Type} (L : GoGit S) (repo : String) (newContext : GitContext) :
    List Reference → S → Bool
  | [], _ => true
  | b :: rest, s =>
    (L.Checkout s repo { Branch := b.name, Create := false, Force := false }).1.isNone
      && ((L.Push (L.Checkout s repo { Branch := b.name, Create := false, Force := false }).2
            repo
            { RemoteName := "tmp-origin", Auth := newContext.AuthMethod.GoGitAuth,
              Force := false,
              InsecureSkipTLS := retrieveInsecureSkipTLS newContext.Credentials }).1.isNone
        || errorsIs
          (L.Push (L.Checkout s repo { Branch := b.name, Create := false, Force := false }).2
            repo
            { RemoteName := "tmp-origin", Auth := newContext.AuthMethod.GoGitAuth,
              Force := false,
              InsecureSkipTLS := retrieveInsecureSkipTLS newContext.Credentials }).1
          (Error.lib LibSentinel.gitNoErrAlreadyUpToDate))
      && moveAccepted L repo newContext rest
        (L.Push (L.Checkout s repo { Branch := b.name, Create := false, Force := false }).2
          repo
          { RemoteName := "tmp-origin", Auth := newContext.AuthMethod.GoGitAuth,
            Force := false,
            InsecureSkipTLS := retrieveInsecureSkipTLS newContext.Credentials }).2

/-- The store after `tmp-origin` has been deleted and created at `url` and the
fetch with the auth of the current context has been made, starting from `s`. -/
def afterTmpOrigin {S : Type} (L : GoGit S) (repo url : String) (currentContext : GitContext)
    (s : S) : S :=
  (L.Fetch (L.CreateRemote (L.DeleteRemote s repo "tmp-origin").2 repo (tmpOriginAt url)).2 repo
    { RemoteName := "origin", RefSpecs := ["+refs/*:refs/*"], Force := true,
      Auth := currentContext.AuthMethod.GoGitAuth,
      InsecureSkipTLS := retrieveInsecureSkipTLS currentContext.Credentials }).2

/-- The calls that delete `tmp-origin`, create it at `url`, fetch and list the
branches. -/
def tmpOriginCalls (repo url : String) (currentContext : GitContext) : List Call :=
  [Call.DeleteRemote repo "tmp-origin",
   Call.CreateRemote repo (tmpOriginAt url),
   Call.Fetch repo
     { RemoteName := "origin", RefSpecs := ["+refs/*:refs/*"], Force := true,
       Auth := currentContext.AuthMethod.GoGitAuth,
       InsecureSkipTLS := retrieveInsecureSkipTLS currentContext.Credentials },
   Call.Branches repo]

/-- The name of a file relative to the root of the worktree, as go-git takes the
path given to `Worktree.Add`: leading separators do not count. -/
def worktreeName (file : String) : String :=
  String.mk (file.data.dropWhile (fun c => c = '/'))

/-- The hash under which the executable store keeps the blob of a content. -/
def blobOf (content : String) : Hash := { hex := "blob:" ++ content }

/-- The repository with the file `name` of the given content staged. -/
def SimRepo.stage (r : SimRepo) (name content : String) : SimRepo :=
  { r with index := assocSet name (blobOf content) r.index,
           blobs := assocSet (blobOf content).hex content r.blobs }

/-- The repository with the staged files recorded as the tree of commit `h`. -/
def SimRepo.recordTree (r : SimRepo) (h : Hash) : SimRepo :=
  { r with trees := assocSet h.hex r.index r.trees }

/-- The executable library with the index of the worktree: `Add` stages the file
its path names relative to the root of the worktree and fails when there is no
such file; `Commit` records the staged files as the tree of the new commit. -/
def simGitIndex : GoGit Sim :=
  { simGit with
    Add := fun s repo file =>
      match assocGet repo s.repos with
      | none => (some notARepo, s)
      | some r =>
        match assocGet (repo ++ "/" ++ worktreeName file) s.files with
        | none => (some (Error.other "entry not found"), s)
        | some content => (none, s.setRepo repo (r.stage (worktreeName file) content))
    Commit := fun s repo msg author =>
      match (simGit.Commit s repo msg author).1.2 with
      | some _ => simGit.Commit s repo msg author
      | none =>
        ((simGit.Commit s repo msg author).1,
          ((simGit.Commit s repo msg author).2.update repo
            (fun r => (none, r.recordTree (simGit.Commit s repo msg author).1.1))).2) }

/-- The world `CloneRepo` of `p` leaves on an empty disk when the upstream is empty
and accepts the push of `init`, with the index of the worktree modelled. -/
def afterInit : World Sim :=
  (Git.CloneRepo simGitIndex env0 ctx0 (simEmpty [emptyRemote, pushedInit, upToDate])).worldOr
    (simEmpty [])

/-! ## Running programs -/

section Runs

variable {S : Type} (L : GoGit S) (env : Env)

@[simp] theorem bind_eq {W α β : Type} (m : Prog W α) (f : α → Prog W β) (w : W) :
    (m >>= f) w = match m w with
      | Outcome.ret a w1 => f a w1
      | Outcome.panicked msg => Outcome.panicked msg := rfl

@[simp] theorem pure_eq {W α : Type} (a : α) (w : W) :
    (pure a : Prog W α) w = Outcome.ret a w := rfl

@[simp] theorem ask_eq {α : Type} (c : Call) (f : S → α) (w : World S) :
    ask c f w = Outcome.ret (f w.lib) { lib := w.lib, trace := w.trace ++ [c] } := rfl

@[simp] theorem act_eq {α : Type} (c : Call) (f : S → α × S) (w : World S) :
    act c f w = Outcome.ret (f w.lib).1 { lib := (f w.lib).2, trace := w.trace ++ [c] } := rfl

@[simp] theorem goPanic_eq {W α : Type} (msg : String) (w : W) :
    (goPanic msg : Prog W α) w = Outcome.panicked msg := rfl

theorem val?_eq_some {W α : Type} (o : Outcome W α) (a : α) :
    o.val? = some a ↔ ∃ w, o = Outcome.ret a w := by
  cases o with
  | ret b w => simp [Outcome.val?]
  | panicked msg => simp [Outcome.val?]

/-- The calls of `ensureRemoteMatchesCredentials` are worktree calls. -/
theorem ensureRemoteMatchesCredentials_calls (repo : String) (gitContext : GitContext)
    (w w1 : World S) (e : Option Error)
    (h : ensureRemoteMatchesCredentials L repo gitContext w = Outcome.ret e w1) :
    ∃ t, w1.trace = w.trace ++ t ∧ ∀ c ∈ t, c.isWorkTreeCall = true := by
  unfold ensureRemoteMatchesCredentials at h
  simp only [bind_eq, ask_eq] at h
  cases hR : L.Remote w.lib repo "origin" with
  | error err =>
    simp [hR] at h
    exact ⟨[Call.Remote repo "origin"], by rw [← h.2], by simp [Call.isWorkTreeCall]⟩
  | ok remote =>
    cases hC : gitContext.Credentials with
    | none => simp [hR, hC] at h
    | some credentials =>
      by_cases hU : remote.URL0 = credentials.RemoteURL
      · simp [hR, hC, hU] at h
        exact ⟨[Call.Remote repo "origin"], by rw [← h.2], by simp [Call.isWorkTreeCall]⟩
      · simp [hR, hC, hU] at h
        cases hD : (L.DeleteRemote w.lib repo "origin").1 with
        | some err =>
          simp [hD] at h
          exact ⟨[Call.Remote repo "origin", Call.DeleteRemote repo "origin"],
            by rw [← h.2], by simp [Call.isWorkTreeCall]⟩
        | none =>
          simp [hD] at h
          refine ⟨[Call.Remote repo "origin", Call.DeleteRemote repo "origin",
            Call.CreateRemote repo
              { Name := "origin", URL0 := credentials.RemoteURL, URLs := [] }], ?_, ?_⟩
          · cases hK : (L.CreateRemote (L.DeleteRemote w.lib repo "origin").2 repo
                { Name := "origin", URL0 := credentials.RemoteURL, URLs := [] }).1 <;>
              simp [hK] at h <;> rw [← h.2]
          · simp [Call.isWorkTreeCall]

/-- With credentials, `ensureRemoteMatchesCredentials` returns. -/
theorem ensureRemoteMatchesCredentials_returns (repo : String) (gitContext : GitContext)
    (credentials : GitCredentials) (hC : gitContext.Credentials = some credentials)
    (w : World S) :
    ∃ e w1, ensureRemoteMatchesCredentials L repo gitContext w = Outcome.ret e w1 := by
  unfold ensureRemoteMatchesCredentials
  simp only [bind_eq, ask_eq]
  cases hR : L.Remote w.lib repo "origin" with
  | error err => simp
  | ok remote =>
    by_cases hU : remote.URL0 = credentials.RemoteURL
    · simp [hC, hU]
    · simp [hC, hU]
      cases hD : (L.DeleteRemote w.lib repo "origin").1 with
      | some err => simp
      | none =>
        simp
        cases hK : (L.CreateRemote (L.DeleteRemote w.lib repo "origin").2 repo
          { Name := "origin", URL0 := credentials.RemoteURL, URLs := [] }).1 <;> simp

/-- A successful `ensureRemoteMatchesCredentials` had credentials to compare with. -/
theorem ensureRemoteMatchesCredentials_ok_creds (repo : String) (gitContext : GitContext)
    (w w1 : World S)
    (h : ensureRemoteMatchesCredentials L repo gitContext w = Outcome.ret none w1) :
    ∃ credentials, gitContext.Credentials = some credentials := by
  unfold ensureRemoteMatchesCredentials at h
  simp only [bind_eq, ask_eq] at h
  cases hR : L.Remote w.lib repo "origin" with
  | error err => simp [hR] at h
  | ok remote =>
    cases hC : gitContext.Credentials with
    | none => simp [hR, hC] at h
    | some credentials => exact ⟨credentials, rfl⟩

/-- The calls of `Git.getWorkTree` are worktree calls. -/
theorem getWorkTree_calls (gitContext : GitContext) (w w1 : World S) (e : Option Error)
    (h : Git.getWorkTree L env gitContext w = Outcome.ret e w1) :
    ∃ t, w1.trace = w.trace ++ t ∧ ∀ c ∈ t, c.isWorkTreeCall = true := by
  unfold Git.getWorkTree at h
  simp only [bind_eq, ask_eq] at h
  cases hO : L.PlainOpen w.lib (GetProjectConfigPath env gitContext.Project) with
  | some err =>
    simp [hO] at h
    exact ⟨[Call.PlainOpen (GetProjectConfigPath env gitContext.Project)], by rw [← h.2],
      by simp [Call.isWorkTreeCall]⟩
  | none =>
    simp [hO] at h
    cases hE : ensureRemoteMatchesCredentials L (GetProjectConfigPath env gitContext.Project)
        gitContext { lib := w.lib, trace := w.trace ++
          [Call.PlainOpen (GetProjectConfigPath env gitContext.Project)] } with
    | panicked msg => simp [hE] at h
    | ret e2 w2 =>
      obtain ⟨t, ht, hall⟩ := ensureRemoteMatchesCredentials_calls L _ _ _ _ _ hE
      simp at ht
      cases e2 with
      | some err =>
        simp [hE] at h
        refine ⟨Call.PlainOpen (GetProjectConfigPath env gitContext.Project) :: t, ?_, ?_⟩
        · rw [← h.2, ht]
        · intro c hc
          rcases List.mem_cons.1 hc with rfl | hc
          · rfl
          · exact hall c hc
      | none =>
        simp [hE] at h
        refine ⟨Call.PlainOpen (GetProjectConfigPath env gitContext.Project) :: (t ++
          [Call.Worktree (GetProjectConfigPath env gitContext.Project)]), ?_, ?_⟩
        · cases hW : L.Worktree w2.lib (GetProjectConfigPath env gitContext.Project) <;>
            simp [hW] at h <;> rw [← h.2, ht] <;> simp
        · intro c hc
          rcases List.mem_cons.1 hc with rfl | hc
          · rfl
          · rcases List.mem_append.1 hc with hc | hc
            · exact hall c hc
            · simp at hc
              subst hc
              rfl

/-- With credentials, `Git.getWorkTree` returns. -/
theorem getWorkTree_returns (gitContext : GitContext) (credentials : GitCredentials)
    (hC : gitContext.Credentials = some credentials) (w : World S) :
    ∃ e w1, Git.getWorkTree L env gitContext w = Outcome.ret e w1 := by
  unfold Git.getWorkTree
  simp only [bind_eq, ask_eq]
  cases hO : L.PlainOpen w.lib (GetProjectConfigPath env gitContext.Project) with
  | some err => simp
  | none =>
    simp
    obtain ⟨e2, w2, hE⟩ := ensureRemoteMatchesCredentials_returns L
      (GetProjectConfigPath env gitContext.Project) gitContext credentials hC
      { lib := w.lib, trace := w.trace ++
          [Call.PlainOpen (GetProjectConfigPath env gitContext.Project)] }
    rw [hE]
    cases e2 with
    | some err => simp
    | none =>
      simp
      cases hW : L.Worktree w2.lib (GetProjectConfigPath env gitContext.Project) <;> simp

/-- A successful `Git.getWorkTree` had credentials to compare the remote with. -/
theorem getWorkTree_ok_creds (gitContext : GitContext) (w w1 : World S)
    (h : Git.getWorkTree L env gitContext w = Outcome.ret none w1) :
    ∃ credentials, gitContext.Credentials = some credentials := by
  unfold Git.getWorkTree at h
  simp only [bind_eq, ask_eq] at h
  cases hO : L.PlainOpen w.lib (GetProjectConfigPath env gitContext.Project) with
  | some err => simp [hO] at h
  | none =>
    simp [hO] at h
    cases hE : ensureRemoteMatchesCredentials L (GetProjectConfigPath env gitContext.Project)
        gitContext { lib := w.lib, trace := w.trace ++
          [Call.PlainOpen (GetProjectConfigPath env gitContext.Project)] } with
    | panicked msg => simp [hE] at h
    | ret e2 w2 =>
      cases e2 with
      | some err => simp [hE] at h
      | none => exact ensureRemoteMatchesCredentials_ok_creds L _ _ _ _ hE

/-- A successful `Git.commitAll` had credentials. -/
theorem commitAll_ok_creds (gitContext : GitContext) (message : String) (w w1 : World S)
    (id : String) (h : Git.commitAll L env gitContext message w = Outcome.ret (id, none) w1) :
    ∃ credentials, gitContext.Credentials = some credentials := by
  unfold Git.commitAll at h
  cases hG : Git.getWorkTree L env gitContext w with
  | panicked msg => simp [hG] at h
  | ret e w2 =>
    cases e with
    | some err => simp [hG] at h
    | none => exact getWorkTree_ok_creds L env _ _ _ hG

/-- When the library never resolves a revision to a nil hash without an error, a
run of `Git.ResetHard` with credentials returns, and the calls it makes are those
of `ResetHardCalls`. -/
theorem ResetHard_run (gitContext : GitContext) (credentials : GitCredentials)
    (hC : gitContext.Credentials = some credentials)
    (hL : ∀ s repo rev, L.ResolveRevision s repo rev ≠ Except.ok none)
    (rev : String) (w : World S) :
    ∃ r w1, Git.ResetHard L env gitContext rev w = Outcome.ret r w1 ∧
      ∃ t, w1.trace = w.trace ++ t ∧
        ResetHardCalls (GetProjectConfigPath env gitContext.Project) rev t := by
  obtain ⟨e, w2, hG⟩ := getWorkTree_returns L env gitContext credentials hC w
  obtain ⟨t1, ht1, hall⟩ := getWorkTree_calls L env _ _ _ _ hG
  cases e with
  | some err =>
    have hrun : Git.ResetHard L env gitContext rev w = Outcome.ret
        (some (fmtErrorf Fmt.ErrMsgCouldNotGitAction ["reset", gitContext.Project] (some err)))
        w2 := by
      simp [Git.ResetHard, hG]
    exact ⟨_, _, hrun, t1, ht1, t1, [], by simp, hall, Or.inl rfl⟩
  | none =>
    cases hR : L.ResolveRevision w2.lib (GetProjectConfigPath env gitContext.Project) rev with
    | error err =>
      have hrun : Git.ResetHard L env gitContext rev w = Outcome.ret
          (some (fmtErrorf Fmt.ErrMsgCouldNotGitAction ["reset", gitContext.Project] (some err)))
          { lib := w2.lib, trace := w2.trace ++
            [Call.ResolveRevision (GetProjectConfigPath env gitContext.Project) rev] } := by
        simp [Git.ResetHard, hG, hR]
      exact ⟨_, _, hrun,
        t1 ++ [Call.ResolveRevision (GetProjectConfigPath env gitContext.Project) rev],
        by simp [ht1], t1, _, rfl, hall, Or.inr (Or.inl rfl)⟩
    | ok o =>
      cases o with
      | none => exact absurd hR (hL _ _ _)
      | some hash =>
        have hrun : Git.ResetHard L env gitContext rev w = Outcome.ret
            (L.Reset w2.lib (GetProjectConfigPath env gitContext.Project) (some hash)).1
            { lib := (L.Reset w2.lib (GetProjectConfigPath env gitContext.Project)
                (some hash)).2,
              trace := w2.trace ++
                [Call.ResolveRevision (GetProjectConfigPath env gitContext.Project) rev] ++
                [Call.Reset (GetProjectConfigPath env gitContext.Project) (some hash)] } := by
          simp [Git.ResetHard, hG, hR]
        exact ⟨_, _, hrun,
          t1 ++ [Call.ResolveRevision (GetProjectConfigPath env gitContext.Project) rev,
            Call.Reset (GetProjectConfigPath env gitContext.Project) (some hash)],
          by simp [ht1], t1, _, rfl, hall, Or.inr (Or.inr ⟨hash, rfl⟩)⟩

/-- No call of `ResetHardCalls` is a push or part of the ancestor check, and at
most one is a library reset. -/
theorem ResetHardCalls_quiet (repo rev : String) (t : List Call)
    (h : ResetHardCalls repo rev t) :
    (∀ c ∈ t, c.isPush = false ∧ c.isAncestorCheck = false) ∧
      (t.filter Call.isReset).length ≤ 1 := by
  obtain ⟨t1, t2, rfl, hall, h2⟩ := h
  have h1 : ∀ c ∈ t1, c.isPush = false ∧ c.isAncestorCheck = false ∧ c.isReset = false := by
    intro c hc
    have := hall c hc
    cases c <;> simp_all [Call.isWorkTreeCall, Call.isPush, Call.isAncestorCheck, Call.isReset]
  have hf : t1.filter Call.isReset = [] := by
    rw [List.filter_eq_nil_iff]
    intro c hc
    simp [(h1 c hc).2.2]
  constructor
  · intro c hc
    rcases List.mem_append.1 hc with hc | hc
    · exact ⟨(h1 c hc).1, (h1 c hc).2.1⟩
    · rcases h2 with rfl | rfl | ⟨hash, rfl⟩
      · simp at hc
      · simp at hc
        subst hc
        exact ⟨rfl, rfl⟩
      · simp at hc
        rcases hc with rfl | rfl <;> exact ⟨rfl, rfl⟩
  · rw [List.filter_append, hf]
    rcases h2 with rfl | rfl | ⟨hash, rfl⟩ <;> simp [List.filter, Call.isReset]

/-- The commit-failure branch of `Git.StageAndCommitAll`: the error reported is
built from the result of the cleanup reset. -/
theorem StageAndCommitAll_commit_failed (gitContext : GitContext) (message : String)
    (w w1 w2 : World S) (id : String) (e : Error) (r : Option Error)
    (hc : Git.commitAll L env gitContext message w = Outcome.ret (id, some e) w1)
    (hr : Git.ResetHard L env gitContext "HEAD~0" w1 = Outcome.ret r w2) :
    Git.StageAndCommitAll L env gitContext message w =
      Outcome.ret ("", some (fmtErrorf Fmt.ErrMsgCouldNotCommit [gitContext.Project]
        (mapError r))) w2 := by
  simp [Git.StageAndCommitAll, hc, hr]

/-- The pull-failure branch of `Git.StageAndCommitAll`. -/
theorem StageAndCommitAll_pull_failed (gitContext : GitContext) (message : String)
    (w w1 w2 w3 : World S) (id : String) (e : Error) (r : Option Error)
    (hc : Git.commitAll L env gitContext message w = Outcome.ret (id, none) w1)
    (hp : Git.Pull L env gitContext w1 = Outcome.ret (some e) w2)
    (hr : Git.ResetHard L env gitContext "HEAD~1" w2 = Outcome.ret r w3) :
    Git.StageAndCommitAll L env gitContext message w = Outcome.ret ("", some e) w3 := by
  simp [Git.StageAndCommitAll, hc, hp, hr]

/-- The push-failure branch of `Git.StageAndCommitAll`. -/
theorem StageAndCommitAll_push_failed (gitContext : GitContext) (message : String)
    (w w1 w2 w3 w4 : World S) (id : String) (e : Error) (r : Option Error)
    (hc : Git.commitAll L env gitContext message w = Outcome.ret (id, none) w1)
    (hp : Git.Pull L env gitContext w1 = Outcome.ret none w2)
    (hq : Git.Push L env gitContext w2 = Outcome.ret (some e) w3)
    (hr : Git.ResetHard L env gitContext "HEAD~1" w3 = Outcome.ret r w4) :
    Git.StageAndCommitAll L env gitContext message w = Outcome.ret ("", some e) w4 := by
  simp [Git.StageAndCommitAll, hc, hp, hq, hr]

/-- The branch of `Git.StageAndCommitAll` in which commit, pull, push and the
ancestor check all ran without error. -/
theorem StageAndCommitAll_checked (gitContext : GitContext) (message : String)
    (w w1 w2 w3 w4 : World S) (id rid : String) (updated : Bool)
    (hc : Git.commitAll L env gitContext message w = Outcome.ret (id, none) w1)
    (hp : Git.Pull L env gitContext w1 = Outcome.ret none w2)
    (hq : Git.Push L env gitContext w2 = Outcome.ret none w3)
    (hg : Git.getCurrentRemoteRevision L env gitContext w3 =
      Outcome.ret (rid, updated, none) w4) :
    Git.StageAndCommitAll L env gitContext message w =
      Outcome.ret (if updated then (rid, none) else
        ("", some (Error.wrap Fmt.ErrMsgCouldNotCommit [gitContext.Project]
          (Error.kerr KSentinel.ErrForceNeeded)))) w4 := by
  cases updated <;> simp [Git.StageAndCommitAll, hc, hp, hq, hg, fmtErrorf]

/-- What a successful `Git.getCurrentRemoteRevision` observed, read in the world it
ends in: HEAD, the commit `origin/<branch>` resolves to, and the answer of the
ancestor test. -/
theorem getCurrentRemoteRevision_ok (gitContext : GitContext) (w w1 : World S) (id : String)
    (b : Bool)
    (h : Git.getCurrentRemoteRevision L env gitContext w = Outcome.ret (id, b, none) w1) :
    RemoteRevisionAt L env gitContext w1.lib id b := by
  unfold Git.getCurrentRemoteRevision at h
  cases hg : Git.getWorkTree L env gitContext w with
  | panicked msg => simp [hg] at h
  | ret e w2 =>
    cases e with
    | some e => simp [hg] at h
    | none =>
      simp [hg] at h
      cases hH : L.Head w2.lib (GetProjectConfigPath env gitContext.Project) with
      | error e => simp [hH] at h
      | ok headRef =>
        simp [hH] at h
        cases hR : L.ResolveRevision w2.lib (GetProjectConfigPath env gitContext.Project)
            ("origin/" ++ ReferenceName.Short headRef.name) with
        | error e => simp [hR] at h
        | ok o =>
          cases o with
          | none => simp [hR] at h
          | some revHash =>
            simp [hR] at h
            cases hC1 : L.CommitObject w2.lib (GetProjectConfigPath env gitContext.Project)
                revHash with
            | some e => simp [hC1] at h
            | none =>
              simp [hC1] at h
              cases hC2 : L.CommitObject w2.lib (GetProjectConfigPath env gitContext.Project)
                  headRef.hash with
              | some e => simp [hC2] at h
              | none =>
                simp [hC2] at h
                cases hA : L.IsAncestor w2.lib (GetProjectConfigPath env gitContext.Project)
                    headRef.hash revHash with
                | error e => simp [hA] at h
                | ok a =>
                  simp [hA] at h
                  obtain ⟨⟨h1, h2⟩, h3⟩ := h
                  subst h3
                  exact ⟨headRef, revHash, hH, hR, by rw [hA, h2], h1.symm⟩

/-- A successful `Git.StageAndCommitAll` went through commit, pull, push and the
ancestor check, in that order, and the check answered yes. -/
theorem StageAndCommitAll_ok_steps (gitContext : GitContext) (message : String)
    (w w4 : World S) (id : String)
    (h : Git.StageAndCommitAll L env gitContext message w = Outcome.ret (id, none) w4) :
    ∃ cid w1 w2 w3,
      Git.commitAll L env gitContext message w = Outcome.ret (cid, none) w1 ∧
      Git.Pull L env gitContext w1 = Outcome.ret none w2 ∧
      Git.Push L env gitContext w2 = Outcome.ret none w3 ∧
      Git.getCurrentRemoteRevision L env gitContext w3 = Outcome.ret (id, true, none) w4 := by
  unfold Git.StageAndCommitAll at h
  cases hc : Git.commitAll L env gitContext message w with
  | panicked msg => simp [hc] at h
  | ret c w1 =>
    obtain ⟨cid, cerr⟩ := c
    cases cerr with
    | some e =>
      simp [hc] at h
      cases hr : Git.ResetHard L env gitContext "HEAD~0" w1 <;> simp [hr] at h
    | none =>
      simp [hc] at h
      cases hp : Git.Pull L env gitContext w1 with
      | panicked msg => simp [hp] at h
      | ret perr w2 =>
        cases perr with
        | some e =>
          simp [hp] at h
          cases hr : Git.ResetHard L env gitContext "HEAD~1" w2 <;> simp [hr] at h
        | none =>
          simp [hp] at h
          cases hq : Git.Push L env gitContext w2 with
          | panicked msg => simp [hq] at h
          | ret qerr w3 =>
            cases qerr with
            | some e =>
              simp [hq] at h
              cases hr : Git.ResetHard L env gitContext "HEAD~1" w3 <;> simp [hr] at h
            | none =>
              simp [hq] at h
              cases hg : Git.getCurrentRemoteRevision L env gitContext w3 with
              | panicked msg => simp [hg] at h
              | ret r w5 =>
                obtain ⟨rid, updated, rerr⟩ := r
                cases rerr with
                | some e => simp [hg] at h
                | none =>
                  cases updated with
                  | false => simp [hg] at h
                  | true =>
                    simp [hg] at h
                    obtain ⟨h1, h2⟩ := h
                    subst h1 h2
                    exact ⟨cid, w1, w2, w3, rfl, hp, hq, hg⟩

theorem emits_pure {α : Type} (P : Call → Bool) (a : α) :
    Emits P (pure a : Prog (World S) α) := by
  intro w b w1 h
  simp at h
  exact ⟨[], by rw [← h.2]; simp, by simp⟩

theorem emits_goPanic {α : Type} (P : Call → Bool) (msg : String) :
    Emits P (goPanic msg : Prog (World S) α) := by
  intro w b w1 h
  simp at h

theorem emits_ask {α : Type} (P : Call → Bool) (c : Call) (f : S → α) (hc : P c = true) :
    Emits P (ask c f) := by
  intro w b w1 h
  simp at h
  exact ⟨[c], by rw [← h.2], by simpa using hc⟩

theorem emits_act {α : Type} (P : Call → Bool) (c : Call) (f : S → α × S) (hc : P c = true) :
    Emits P (act c f) := by
  intro w b w1 h
  simp at h
  exact ⟨[c], by rw [← h.2], by simpa using hc⟩

theorem emits_bind {α β : Type} (P : Call → Bool) (m : Prog (World S) α)
    (f : α → Prog (World S) β) (hm : Emits P m) (hf : ∀ a, Emits P (f a)) :
    Emits P (m >>= f) := by
  intro w b w2 h
  cases hmw : m w with
  | panicked msg => simp [hmw] at h
  | ret a w1 =>
    simp [hmw] at h
    obtain ⟨t1, ht1, h1⟩ := hm w a w1 hmw
    obtain ⟨t2, ht2, h2⟩ := hf a w1 b w2 h
    refine ⟨t1 ++ t2, by rw [ht2, ht1]; simp, ?_⟩
    intro c hc
    rcases List.mem_append.1 hc with hc | hc
    · exact h1 c hc
    · exact h2 c hc

theorem emits_mono {α : Type} (P Q : Call → Bool) (m : Prog (World S) α)
    (hPQ : ∀ c, P c = true → Q c = true) (hm : Emits P m) : Emits Q m := by
  intro w a w1 h
  obtain ⟨t, ht, hall⟩ := hm w a w1 h
  exact ⟨t, ht, fun c hc => hPQ c (hall c hc)⟩

theorem getWorkTree_emits (gitContext : GitContext) :
    Emits Call.isWorkTreeCall (Git.getWorkTree L env gitContext) := by
  intro w e w1 h
  exact getWorkTree_calls L env gitContext w w1 e h

theorem getWorkTree_noReset (gitContext : GitContext) :
    Emits Call.notReset (Git.getWorkTree L env gitContext) := by
  apply emits_mono _ _ _ _ (getWorkTree_emits L env gitContext)
  intro c hc
  cases c <;> simp_all [Call.isWorkTreeCall, Call.notReset, Call.isReset]

theorem getCurrentRemoteRevision_noReset (gitContext : GitContext) :
    Emits Call.notReset (Git.getCurrentRemoteRevision L env gitContext) := by
  unfold Git.getCurrentRemoteRevision
  repeat (first
    | exact emits_pure _ _
    | exact emits_goPanic _ _
    | exact emits_ask _ _ _ rfl
    | exact emits_act _ _ _ rfl
    | exact getWorkTree_noReset L env _
    | refine emits_bind _ _ _ ?_ (fun _ => ?_)
    | split
    | dsimp only)

theorem ProjectRepoExists_noReset (project : String) :
    Emits Call.notReset (Git.ProjectRepoExists L env project) := by
  unfold Git.ProjectRepoExists
  repeat (first
    | exact emits_pure _ _
    | exact emits_goPanic _ _
    | exact emits_ask _ _ _ rfl
    | exact emits_act _ _ _ rfl
    | refine emits_bind _ _ _ ?_ (fun _ => ?_)
    | split
    | dsimp only)

theorem Push_noReset (gitContext : GitContext) :
    Emits Call.notReset (Git.Push L env gitContext) := by
  unfold Git.Push
  repeat (first
    | exact emits_pure _ _
    | exact emits_goPanic _ _
    | exact emits_ask _ _ _ rfl
    | exact emits_act _ _ _ rfl
    | exact getWorkTree_noReset L env _
    | refine emits_bind _ _ _ ?_ (fun _ => ?_)
    | split
    | dsimp only)

theorem rewriteDefaultBranch_noReset (path : String) :
    Emits Call.notReset (Git.rewriteDefaultBranch L env path) := by
  unfold Git.rewriteDefaultBranch
  repeat (first
    | exact emits_pure _ _
    | exact emits_goPanic _ _
    | exact emits_ask _ _ _ rfl
    | exact emits_act _ _ _ rfl
    | refine emits_bind _ _ _ ?_ (fun _ => ?_)
    | split
    | dsimp only)

theorem initSeed_noReset (gitContext : GitContext) (projectPath : String) :
    Emits Call.notReset (Git.initSeed L env gitContext projectPath) := by
  unfold Git.initSeed
  repeat (first
    | exact emits_pure _ _
    | exact emits_goPanic _ _
    | exact emits_ask _ _ _ rfl
    | exact emits_act _ _ _ rfl
    | exact Push_noReset L env _
    | refine emits_bind _ _ _ ?_ (fun _ => ?_)
    | split
    | dsimp only)

theorem initRemote_noReset (gitContext : GitContext) (projectPath : String) :
    Emits Call.notReset (Git.initRemote L env gitContext projectPath) := by
  unfold Git.initRemote
  repeat (first
    | exact emits_pure _ _
    | exact emits_goPanic _ _
    | exact emits_ask _ _ _ rfl
    | exact emits_act _ _ _ rfl
    | exact rewriteDefaultBranch_noReset L env _
    | exact initSeed_noReset L env _ _
    | refine emits_bind _ _ _ ?_ (fun _ => ?_)
    | split
    | dsimp only)

theorem init_noReset (gitContext : GitContext) (projectPath : String) :
    Emits Call.notReset (Git.init L env gitContext projectPath) := by
  unfold Git.init
  repeat (first
    | exact emits_pure _ _
    | exact emits_goPanic _ _
    | exact emits_ask _ _ _ rfl
    | exact emits_act _ _ _ rfl
    | exact initRemote_noReset L env _ _
    | refine emits_bind _ _ _ ?_ (fun _ => ?_)
    | split
    | dsimp only)

theorem fetch_noReset (gitContext : GitContext) (r : String) :
    Emits Call.notReset (Git.fetch L gitContext r) := by
  unfold Git.fetch
  repeat (first
    | exact emits_pure _ _
    | exact emits_goPanic _ _
    | exact emits_ask _ _ _ rfl
    | exact emits_act _ _ _ rfl
    | refine emits_bind _ _ _ ?_ (fun _ => ?_)
    | split
    | dsimp only)

theorem configureGitUser_noReset (repository : String) :
    Emits Call.notReset (configureGitUser L env repository) := by
  unfold configureGitUser
  repeat (first
    | exact emits_pure _ _
    | exact emits_goPanic _ _
    | exact emits_ask _ _ _ rfl
    | exact emits_act _ _ _ rfl
    | refine emits_bind _ _ _ ?_ (fun _ => ?_)
    | split
    | dsimp only)

theorem storeDefaultBranchConfig_noReset (gitContext : GitContext) (clone : String) (head : Reference) :
    Emits Call.notReset (Git.storeDefaultBranchConfig L gitContext clone head) := by
  unfold Git.storeDefaultBranchConfig
  repeat (first
    | exact emits_pure _ _
    | exact emits_goPanic _ _
    | exact emits_ask _ _ _ rfl
    | exact emits_act _ _ _ rfl
    | refine emits_bind _ _ _ ?_ (fun _ => ?_)
    | split
    | dsimp only)

theorem cloneFinish_noReset (gitContext : GitContext) (clone : String) :
    Emits Call.notReset (Git.cloneFinish L env gitContext clone) := by
  unfold Git.cloneFinish
  repeat (first
    | exact emits_pure _ _
    | exact emits_goPanic _ _
    | exact emits_ask _ _ _ rfl
    | exact emits_act _ _ _ rfl
    | exact configureGitUser_noReset L env _
    | exact fetch_noReset L _ _
    | exact storeDefaultBranchConfig_noReset L _ _ _
    | refine emits_bind _ _ _ ?_ (fun _ => ?_)
    | split
    | dsimp only)

theorem CloneRepo_noReset (gitContext : GitContext) :
    Emits Call.notReset (Git.CloneRepo L env gitContext) := by
  unfold Git.CloneRepo
  repeat (first
    | exact emits_pure _ _
    | exact emits_goPanic _ _
    | exact emits_ask _ _ _ rfl
    | exact emits_act _ _ _ rfl
    | exact ProjectRepoExists_noReset L env _
    | exact init_noReset L env _ _
    | exact cloneFinish_noReset L env _ _
    | refine emits_bind _ _ _ ?_ (fun _ => ?_)
    | split
    | dsimp only)

theorem ProjectExists_noReset (gitContext : GitContext) :
    Emits Call.notReset (Git.ProjectExists L env gitContext) := by
  unfold Git.ProjectExists
  repeat (first
    | exact emits_pure _ _
    | exact emits_goPanic _ _
    | exact emits_ask _ _ _ rfl
    | exact emits_act _ _ _ rfl
    | exact ProjectRepoExists_noReset L env _
    | exact CloneRepo_noReset L env _
    | refine emits_bind _ _ _ ?_ (fun _ => ?_)
    | split
    | dsimp only)

theorem Pull_noReset (gitContext : GitContext) :
    Emits Call.notReset (Git.Pull L env gitContext) := by
  unfold Git.Pull
  repeat (first
    | exact emits_pure _ _
    | exact emits_goPanic _ _
    | exact emits_ask _ _ _ rfl
    | exact emits_act _ _ _ rfl
    | exact ProjectExists_noReset L env _
    | exact getWorkTree_noReset L env _
    | refine emits_bind _ _ _ ?_ (fun _ => ?_)
    | split
    | dsimp only)

theorem commitAll_noReset (gitContext : GitContext) (message : String) :
    Emits Call.notReset (Git.commitAll L env gitContext message) := by
  unfold Git.commitAll
  repeat (first
    | exact emits_pure _ _
    | exact emits_goPanic _ _
    | exact emits_ask _ _ _ rfl
    | exact emits_act _ _ _ rfl
    | exact getWorkTree_noReset L env _
    | refine emits_bind _ _ _ ?_ (fun _ => ?_)
    | split
    | dsimp only)

end Runs

/-! ## The commit cycle -/

/-- C1. If `StageAndCommitAll` returns without error, the run went through commit,
pull, push and the ancestor check in this order, and in the store it ends in (the
store after the push) the commit at local HEAD is, by the library's ancestor test,
an ancestor of the commit that `origin/<current branch>` resolves to, and the
returned string is the hex id of that remote commit. -/
theorem StageAndCommitAll_success_is_fast_forward {S : Type} (L : GoGit S) (env : Env)
    (gitContext : GitContext) (message : String) (w : World S) (id : String)
    (h : (Git.StageAndCommitAll L env gitContext message w).val? = some (id, none)) :
    ∃ cid w1 w2 w3 w4,
      Git.commitAll L env gitContext message w = Outcome.ret (cid, none) w1 ∧
      Git.Pull L env gitContext w1 = Outcome.ret none w2 ∧
      Git.Push L env gitContext w2 = Outcome.ret none w3 ∧
      Git.getCurrentRemoteRevision L env gitContext w3 = Outcome.ret (id, true, none) w4 ∧
      Git.StageAndCommitAll L env gitContext message w = Outcome.ret (id, none) w4 ∧
      RemoteRevisionAt L env gitContext w4.lib id true := by
  obtain ⟨w4, h4⟩ := (val?_eq_some _ _).1 h
  obtain ⟨cid, w1, w2, w3, hc, hp, hq, hg⟩ := StageAndCommitAll_ok_steps L env _ _ _ _ _ h4
  exact ⟨cid, w1, w2, w3, w4, hc, hp, hq, hg, h4, getCurrentRemoteRevision_ok L env _ _ _ _ _ hg⟩

/-- C1, on the executable store: a commit on `main` that the remote accepts. -/
theorem StageAndCommitAll_success_is_fast_forward_witness :
    (Git.StageAndCommitAll simGit env0 ctx0 "add x" (simProject [upToDate, pushed])).val?
        = some ("cc", none) ∧
      ∃ w4, Git.StageAndCommitAll simGit env0 ctx0 "add x" (simProject [upToDate, pushed])
          = Outcome.ret ("cc", none) w4 ∧
        RemoteRevisionAt simGit env0 ctx0 w4.lib "cc" true :=
  ⟨by decide,
    match StageAndCommitAll_success_is_fast_forward simGit env0 ctx0 "add x"
      (simProject [upToDate, pushed]) "cc" (by decide) with
    | ⟨_, _, _, _, w4, _, _, _, _, h5, h6⟩ => ⟨w4, h5, h6⟩⟩

/-- C2, as stated, fails: commit, pull and push succeed, local HEAD `cc` is not an
ancestor of `origin/main` (`a1`), the call fails with `CouldNotCommit` wrapping
`ForceNeeded`, and afterwards `GetCurrentRevision` returns the new commit `cc`, not
the revision `a1` it returned before the call. -/
theorem StageAndCommitAll_divergence_keeps_new_commit :
    (Git.GetCurrentRevision simGit env0 ctx0 (simProject [upToDate, upToDate])).val?
        = some ("a1", none) ∧
      (Git.commitAll simGit env0 ctx0 "add x" (simProject [upToDate, upToDate])).val?
        = some ("cc", none) ∧
      (Git.Pull simGit env0 ctx0 (afterCommit (simProject [upToDate, upToDate]))).val?
        = some none ∧
      (Git.Push simGit env0 ctx0 (afterPull (simProject [upToDate, upToDate]))).val?
        = some none ∧
      (Git.getCurrentRemoteRevision simGit env0 ctx0
          (afterPush (simProject [upToDate, upToDate]))).val? = some ("a1", false, none) ∧
      (Git.StageAndCommitAll simGit env0 ctx0 "add x" (simProject [upToDate, upToDate])).val?
        = some ("", some (Error.wrap Fmt.ErrMsgCouldNotCommit ["p"]
            (Error.kerr KSentinel.ErrForceNeeded))) ∧
      ((Git.StageAndCommitAll simGit env0 ctx0 "add x" >>= fun _ =>
          Git.GetCurrentRevision simGit env0 ctx0) (simProject [upToDate, upToDate])).val?
        = some ("cc", none) := by
  decide

/-- C2, amended. When commit, pull and push succeed and the ancestor check finds
that local HEAD is not an ancestor of `origin/<current branch>`, `StageAndCommitAll`
fails with `CouldNotCommit` wrapping `ForceNeeded` and returns in the world the
check left: HEAD is still the commit that is not an ancestor of the remote one,
and the whole run made no call to the library's reset. -/
theorem StageAndCommitAll_force_needed_without_rollback {S : Type} (L : GoGit S) (env : Env)
    (gitContext : GitContext) (message : String) (w w1 w2 w3 w4 : World S) (cid rid : String)
    (hc : Git.commitAll L env gitContext message w = Outcome.ret (cid, none) w1)
    (hp : Git.Pull L env gitContext w1 = Outcome.ret none w2)
    (hq : Git.Push L env gitContext w2 = Outcome.ret none w3)
    (hg : Git.getCurrentRemoteRevision L env gitContext w3 =
      Outcome.ret (rid, false, none) w4) :
    Git.StageAndCommitAll L env gitContext message w =
        Outcome.ret ("", some (Error.wrap Fmt.ErrMsgCouldNotCommit [gitContext.Project]
          (Error.kerr KSentinel.ErrForceNeeded))) w4 ∧
      RemoteRevisionAt L env gitContext w4.lib rid false ∧
      ∃ t, w4.trace = w.trace ++ t ∧ ∀ c ∈ t, c.isReset = false := by
  refine ⟨?_, getCurrentRemoteRevision_ok L env _ _ _ _ _ hg, ?_⟩
  · have := StageAndCommitAll_checked L env gitContext message w w1 w2 w3 w4 cid rid false
      hc hp hq hg
    simpa using this
  · obtain ⟨t1, ht1, h1⟩ := commitAll_noReset L env gitContext message w _ w1 hc
    obtain ⟨t2, ht2, h2⟩ := Pull_noReset L env gitContext w1 _ w2 hp
    obtain ⟨t3, ht3, h3⟩ := Push_noReset L env gitContext w2 _ w3 hq
    obtain ⟨t4, ht4, h4⟩ := getCurrentRemoteRevision_noReset L env gitContext w3 _ w4 hg
    refine ⟨t1 ++ t2 ++ t3 ++ t4, by rw [ht4, ht3, ht2, ht1]; simp, ?_⟩
    intro c hc
    have hn : c.notReset = true := by
      simp only [List.mem_append] at hc
      rcases hc with ((hc | hc) | hc) | hc
      · exact h1 c hc
      · exact h2 c hc
      · exact h3 c hc
      · exact h4 c hc
    simpa [Call.notReset] using hn

/-- C2 amended, on the executable store: nothing to pull, a push that leaves
`origin/main` where it was. -/
theorem StageAndCommitAll_force_needed_without_rollback_witness :
    Git.commitAll simGit env0 ctx0 "add x" (simProject [upToDate, upToDate])
        = Outcome.ret ("cc", none) (afterCommit (simProject [upToDate, upToDate])) ∧
      Git.Pull simGit env0 ctx0 (afterCommit (simProject [upToDate, upToDate]))
        = Outcome.ret none (afterPull (simProject [upToDate, upToDate])) ∧
      Git.Push simGit env0 ctx0 (afterPull (simProject [upToDate, upToDate]))
        = Outcome.ret none (afterPush (simProject [upToDate, upToDate])) ∧
      Git.getCurrentRemoteRevision simGit env0 ctx0 (afterPush (simProject [upToDate, upToDate]))
        = Outcome.ret ("a1", false, none) (afterCheck (simProject [upToDate, upToDate])) ∧
      (Git.StageAndCommitAll simGit env0 ctx0 "add x" (simProject [upToDate, upToDate]) =
          Outcome.ret ("", some (Error.wrap Fmt.ErrMsgCouldNotCommit [ctx0.Project]
            (Error.kerr KSentinel.ErrForceNeeded))) (afterCheck (simProject [upToDate, upToDate])) ∧
        RemoteRevisionAt simGit env0 ctx0 (afterCheck (simProject [upToDate, upToDate])).lib
          "a1" false ∧
        ∃ t, (afterCheck (simProject [upToDate, upToDate])).trace =
            (simProject [upToDate, upToDate]).trace ++ t ∧ ∀ c ∈ t, c.isReset = false) :=
  ⟨rfl, rfl, rfl, rfl,
    StageAndCommitAll_force_needed_without_rollback simGit env0 ctx0 "add x"
      (simProject [upToDate, upToDate]) _ _ _ _ "cc" "a1" rfl rfl rfl rfl⟩

/-- C3, as stated, fails: on a repository without commits the commit of
`StageAndCommitAll` is the first one, the remote refuses the pull, and the rollback
finds that `HEAD~1` does not resolve: no hard reset is performed, the pull's error
is returned, and the new commit `c` is still at HEAD afterwards. -/
theorem StageAndCommitAll_first_commit_stays :
    (Git.commitAll simGit env0 ctx0 "add x" (simFresh [refused])).val? = some ("c", none) ∧
      (Git.Pull simGit env0 ctx0 (afterCommit (simFresh [refused]))).val?
        = some (some (Error.wrap Fmt.ErrMsgCouldNotGitAction ["pull", "p"]
            (Error.kerr KSentinel.ErrAuthorizationFailed))) ∧
      (Git.ResetHard simGit env0 ctx0 "HEAD~1" (afterPull (simFresh [refused]))).val?
        = some (some (Error.wrap Fmt.ErrMsgCouldNotGitAction ["reset", "p"]
            (Error.lib LibSentinel.plumbingErrReferenceNotFound))) ∧
      (Git.StageAndCommitAll simGit env0 ctx0 "add x" (simFresh [refused])).val?
        = some ("", some (Error.wrap Fmt.ErrMsgCouldNotGitAction ["pull", "p"]
            (Error.kerr KSentinel.ErrAuthorizationFailed))) ∧
      ((Git.StageAndCommitAll simGit env0 ctx0 "add x" (simFresh [refused])).world?.map
          (fun w => w.trace.filter Call.isReset)) = some [] ∧
      ((Git.StageAndCommitAll simGit env0 ctx0 "add x" >>= fun _ =>
          Git.GetCurrentRevision simGit env0 ctx0) (simFresh [refused])).val?
        = some ("c", none) := by
  decide

/-- C3, amended. After a successful commit: if the pull fails, or the pull succeeds
and the push fails, leaving the world `wf`, then the rollback runs once from `wf`
and `StageAndCommitAll` returns an empty id with the error of the failed step,
whatever the rollback did.  The rollback obtains the worktree; if that fails
nothing more is done; otherwise it resolves `HEAD~1`, and if that fails nothing
more is done; if it resolves to a commit, the library's hard reset to that commit
is made, exactly once, and the store `StageAndCommitAll` leaves is the store that
reset left.  No call after the failed step is a push or part of the ancestor
check.  (The library is taken not to resolve a revision to a nil hash without an
error.) -/
theorem StageAndCommitAll_rollback {S : Type} (L : GoGit S) (env : Env)
    (gitContext : GitContext) (message : String) (w w1 w2 wf : World S) (cid : String)
    (e : Error)
    (hL : ∀ s repo rev, L.ResolveRevision s repo rev ≠ Except.ok none)
    (hc : Git.commitAll L env gitContext message w = Outcome.ret (cid, none) w1)
    (hfail : Git.Pull L env gitContext w1 = Outcome.ret (some e) wf ∨
      (Git.Pull L env gitContext w1 = Outcome.ret none w2 ∧
        Git.Push L env gitContext w2 = Outcome.ret (some e) wf)) :
    (∃ g wg tg,
        Git.getWorkTree L env gitContext wf = Outcome.ret g wg ∧
        wg.trace = wf.trace ++ tg ∧ (∀ c ∈ tg, c.isWorkTreeCall = true) ∧
        (∀ err, g = some err →
          Git.StageAndCommitAll L env gitContext message w = Outcome.ret ("", some e) wg) ∧
        (g = none → ∀ err,
          L.ResolveRevision wg.lib (GetProjectConfigPath env gitContext.Project) "HEAD~1"
            = Except.error err →
          Git.StageAndCommitAll L env gitContext message w =
            Outcome.ret ("", some e)
              { lib := wg.lib,
                trace := wg.trace ++
                  [Call.ResolveRevision (GetProjectConfigPath env gitContext.Project)
                    "HEAD~1"] }) ∧
        (g = none → ∀ h,
          L.ResolveRevision wg.lib (GetProjectConfigPath env gitContext.Project) "HEAD~1"
            = Except.ok (some h) →
          Git.StageAndCommitAll L env gitContext message w =
            Outcome.ret ("", some e)
              { lib := (L.Reset wg.lib (GetProjectConfigPath env gitContext.Project)
                  (some h)).2,
                trace := wg.trace ++
                  [Call.ResolveRevision (GetProjectConfigPath env gitContext.Project) "HEAD~1",
                   Call.Reset (GetProjectConfigPath env gitContext.Project) (some h)] })) ∧
      ∃ r w3 t,
        Git.ResetHard L env gitContext "HEAD~1" wf = Outcome.ret r w3 ∧
        Git.StageAndCommitAll L env gitContext message w = Outcome.ret ("", some e) w3 ∧
        w3.trace = wf.trace ++ t ∧
        ResetHardCalls (GetProjectConfigPath env gitContext.Project) "HEAD~1" t ∧
        (t.filter Call.isReset).length ≤ 1 ∧
        ∀ c ∈ t, c.isPush = false ∧ c.isAncestorCheck = false := by
  obtain ⟨credentials, hC⟩ := commitAll_ok_creds L env _ _ _ _ _ hc
  have hrun : ∀ r w3, Git.ResetHard L env gitContext "HEAD~1" wf = Outcome.ret r w3 →
      Git.StageAndCommitAll L env gitContext message w = Outcome.ret ("", some e) w3 := by
    intro r w3 hr
    rcases hfail with hp | ⟨hp, hq⟩
    · exact StageAndCommitAll_pull_failed L env _ _ _ _ _ _ _ _ _ hc hp hr
    · exact StageAndCommitAll_push_failed L env _ _ _ _ _ _ _ _ _ _ hc hp hq hr
  constructor
  · obtain ⟨g, wg, hG⟩ := getWorkTree_returns L env gitContext credentials hC wf
    obtain ⟨tg, htg, hall⟩ := getWorkTree_calls L env _ _ _ _ hG
    refine ⟨g, wg, tg, hG, htg, hall, ?_, ?_, ?_⟩
    · intro err hg
      subst hg
      apply hrun (some (fmtErrorf Fmt.ErrMsgCouldNotGitAction ["reset", gitContext.Project]
        (some err)))
      simp [Git.ResetHard, hG]
    · intro hg err hR
      subst hg
      apply hrun (some (fmtErrorf Fmt.ErrMsgCouldNotGitAction ["reset", gitContext.Project]
        (some err)))
      simp [Git.ResetHard, hG, hR]
    · intro hg h hR
      subst hg
      apply hrun (L.Reset wg.lib (GetProjectConfigPath env gitContext.Project) (some h)).1
      simp [Git.ResetHard, hG, hR]
  · obtain ⟨r, w3, hr, t, ht, hcalls⟩ :=
      ResetHard_run L env gitContext credentials hC hL "HEAD~1" wf
    obtain ⟨hquiet, hone⟩ := ResetHardCalls_quiet _ _ _ hcalls
    exact ⟨r, w3, t, hr, hrun r w3 hr, ht, hcalls, hone, hquiet⟩

/-- The executable store never resolves a revision to a nil hash without an error. -/
theorem simGit_ResolveRevision_not_nil (s : Sim) (repo rev : String) :
    simGit.ResolveRevision s repo rev ≠ Except.ok none := by
  simp only [simGit]
  cases assocGet repo s.repos with
  | none => simp
  | some r => cases hr : r.resolve rev <;> simp [hr]

/-- C3 amended, on the executable store: the remote refuses the pull, `HEAD~1`
resolves to `a1`, and the store after the call is the one the hard reset to `a1`
left; and the same when the remote has nothing to pull and refuses the push. -/
theorem StageAndCommitAll_rollback_witness :
    (∀ s repo rev, simGit.ResolveRevision s repo rev ≠ Except.ok none) ∧
      Git.commitAll simGit env0 ctx0 "add x" (simProject [refused])
        = Outcome.ret ("cc", none) (afterCommit (simProject [refused])) ∧
      Git.Pull simGit env0 ctx0 (afterCommit (simProject [refused]))
        = Outcome.ret (some (Error.wrap Fmt.ErrMsgCouldNotGitAction ["pull", "p"]
            (Error.kerr KSentinel.ErrAuthorizationFailed))) (afterPull (simProject [refused])) ∧
      (∃ wg, Git.getWorkTree simGit env0 ctx0 (afterPull (simProject [refused]))
          = Outcome.ret none wg ∧
        simGit.ResolveRevision wg.lib "/data/p" "HEAD~1" = Except.ok (some { hex := "a1" }) ∧
        Git.StageAndCommitAll simGit env0 ctx0 "add x" (simProject [refused]) =
          Outcome.ret ("", some (Error.wrap Fmt.ErrMsgCouldNotGitAction ["pull", "p"]
              (Error.kerr KSentinel.ErrAuthorizationFailed)))
            { lib := (simGit.Reset wg.lib "/data/p" (some { hex := "a1" })).2,
              trace := wg.trace ++ [Call.ResolveRevision "/data/p" "HEAD~1",
                Call.Reset "/data/p" (some { hex := "a1" })] }) ∧
      (Git.Pull simGit env0 ctx0 (afterCommit (simProject [upToDate, refused]))
          = Outcome.ret none (afterPull (simProject [upToDate, refused])) ∧
        Git.Push simGit env0 ctx0 (afterPull (simProject [upToDate, refused]))
          = Outcome.ret (some (Error.wrap Fmt.ErrMsgCouldNotGitAction ["push", "p"]
              (Error.kerr KSentinel.ErrAuthorizationFailed)))
            (afterPush (simProject [upToDate, refused])) ∧
        ∃ wg, Git.getWorkTree simGit env0 ctx0 (afterPush (simProject [upToDate, refused]))
            = Outcome.ret none wg ∧
          simGit.ResolveRevision wg.lib "/data/p" "HEAD~1" = Except.ok (some { hex := "a1" }) ∧
          Git.StageAndCommitAll simGit env0 ctx0 "add x" (simProject [upToDate, refused]) =
            Outcome.ret ("", some (Error.wrap Fmt.ErrMsgCouldNotGitAction ["push", "p"]
                (Error.kerr KSentinel.ErrAuthorizationFailed)))
              { lib := (simGit.Reset wg.lib "/data/p" (some { hex := "a1" })).2,
                trace := wg.trace ++ [Call.ResolveRevision "/data/p" "HEAD~1",
                  Call.Reset "/data/p" (some { hex := "a1" })] }) := by
  refine ⟨simGit_ResolveRevision_not_nil, rfl, rfl, ?_, rfl, rfl, ?_⟩
  · obtain ⟨⟨g, wg, tg, hG, _, _, _, _, h3⟩, _⟩ :=
      StageAndCommitAll_rollback simGit env0 ctx0 "add x" (simProject [refused])
        (afterCommit (simProject [refused])) (simProject [refused])
        (afterPull (simProject [refused])) "cc" _ simGit_ResolveRevision_not_nil (by rfl)
        (Or.inl (by rfl))
    have hG2 : Git.getWorkTree simGit env0 ctx0 (afterPull (simProject [refused])) =
        Outcome.ret none ((Git.getWorkTree simGit env0 ctx0
          (afterPull (simProject [refused]))).worldOr (simProject [])) := by rfl
    rw [hG2] at hG
    simp only [Outcome.ret.injEq] at hG
    obtain ⟨hg, hw⟩ := hG
    subst hw
    exact ⟨_, hG2, by rfl, h3 hg.symm { hex := "a1" } (by rfl)⟩
  · obtain ⟨⟨g, wg, tg, hG, _, _, _, _, h3⟩, _⟩ :=
      StageAndCommitAll_rollback simGit env0 ctx0 "add x" (simProject [upToDate, refused])
        (afterCommit (simProject [upToDate, refused]))
        (afterPull (simProject [upToDate, refused]))
        (afterPush (simProject [upToDate, refused])) "cc" _ simGit_ResolveRevision_not_nil
        (by rfl) (Or.inr ⟨by rfl, by rfl⟩)
    have hG2 : Git.getWorkTree simGit env0 ctx0 (afterPush (simProject [upToDate, refused])) =
        Outcome.ret none ((Git.getWorkTree simGit env0 ctx0
          (afterPush (simProject [upToDate, refused]))).worldOr (simProject [])) := by rfl
    rw [hG2] at hG
    simp only [Outcome.ret.injEq] at hG
    obtain ⟨hg, hw⟩ := hG
    subst hw
    exact ⟨_, hG2, by rfl, h3 hg.symm { hex := "a1" } (by rfl)⟩

/-- C4, at the failing input: the commit fails with `permission denied`, the cleanup
reset to `HEAD~0` succeeds, and `StageAndCommitAll` returns a `CouldNotCommit`
error whose wrapped cause is nil: the commit failure is gone from the result. -/
theorem StageAndCommitAll_commit_failure_is_erased :
    (Git.commitAll simGit env0 ctx0 "add x" simCommitFails).val?
        = some ("", some (Error.other "permission denied")) ∧
      (Git.ResetHard simGit env0 ctx0 "HEAD~0"
          ((Git.commitAll simGit env0 ctx0 "add x" simCommitFails).worldOr simCommitFails)).val?
        = some none ∧
      (Git.StageAndCommitAll simGit env0 ctx0 "add x" simCommitFails).val?
        = some ("", some (Error.wrapNil Fmt.ErrMsgCouldNotCommit ["p"])) ∧
      (Error.wrapNil Fmt.ErrMsgCouldNotCommit ["p"]).unwrap = none := by
  decide

/-! ## Bootstrap -/

section Bootstrap

variable {S : Type} (L : GoGit S) (env : Env)

/-- `Git.ProjectRepoExists` answers yes exactly after a successful stat and open,
and leaves the store as it was. -/
theorem ProjectRepoExists_true_inv (project : String) (w w1 : World S)
    (h : Git.ProjectRepoExists L env project w = Outcome.ret true w1) :
    L.osStat w.lib (GetProjectConfigPath env project) = none ∧
      L.PlainOpen w.lib (GetProjectConfigPath env project) = none ∧
      w1 = { lib := w.lib, trace := w.trace ++ [Call.osStat (GetProjectConfigPath env project),
        Call.PlainOpen (GetProjectConfigPath env project)] } := by
  unfold Git.ProjectRepoExists at h
  simp only [bind_eq, ask_eq] at h
  cases hs : L.osStat w.lib (GetProjectConfigPath env project) with
  | some e => simp [hs] at h
  | none =>
    simp [hs] at h
    cases ho : L.PlainOpen w.lib (GetProjectConfigPath env project) with
    | some e => simp [ho] at h
    | none =>
      simp [ho] at h
      subst h
      simp

/-- When the project path stats and opens, `Git.ProjectRepoExists` answers yes. -/
theorem ProjectRepoExists_of_open (project : String) (w : World S)
    (hs : L.osStat w.lib (GetProjectConfigPath env project) = none)
    (ho : L.PlainOpen w.lib (GetProjectConfigPath env project) = none) :
    Git.ProjectRepoExists L env project w =
      Outcome.ret true { lib := w.lib, trace := w.trace ++
        [Call.osStat (GetProjectConfigPath env project),
         Call.PlainOpen (GetProjectConfigPath env project)] } := by
  simp [Git.ProjectRepoExists, hs, ho]

/-- With non-empty credentials and a project path that stats and opens,
`Git.CloneRepo` returns `(true, nil)` after these two inspections only. -/
theorem CloneRepo_of_open (gitContext : GitContext) (credentials : GitCredentials)
    (w : World S)
    (hC : gitContext.Credentials = some credentials) (hz : credentials ≠ GitCredentials.zero)
    (hs : L.osStat w.lib (GetProjectConfigPath env gitContext.Project) = none)
    (ho : L.PlainOpen w.lib (GetProjectConfigPath env gitContext.Project) = none) :
    Git.CloneRepo L env gitContext w =
      Outcome.ret (true, none) { lib := w.lib, trace := w.trace ++
        [Call.osStat (GetProjectConfigPath env gitContext.Project),
         Call.PlainOpen (GetProjectConfigPath env gitContext.Project)] } := by
  simp [Git.CloneRepo, hC, hz, ProjectRepoExists_of_open L env _ _ hs ho]

/-- A successful `Git.storeDefaultBranchConfig` ends with a successful `SetConfig`. -/
theorem storeDefaultBranchConfig_ok_inv (gitContext : GitContext) (clone : String)
    (head : Reference) (w w1 : World S)
    (h : Git.storeDefaultBranchConfig L gitContext clone head w = Outcome.ret none w1) :
    ∃ cfg, (L.SetConfig w.lib clone cfg).1 = none ∧ w1.lib = (L.SetConfig w.lib clone cfg).2 ∧
      cfg.InitDefaultBranch = head.name := by
  unfold Git.storeDefaultBranchConfig at h
  simp only [bind_eq, ask_eq] at h
  cases h2 : (L.Config w.lib clone).2 with
  | some e => simp [h2] at h
  | none =>
    cases h1 : (L.Config w.lib clone).1 with
    | none => simp [h1, h2] at h
    | some cfg =>
      simp [h1, h2] at h
      cases hS : (L.SetConfig w.lib clone
          { UserName := cfg.UserName, UserEmail := cfg.UserEmail,
            InitDefaultBranch := head.name }).1 with
      | some e => simp [hS] at h
      | none =>
        simp [hS] at h
        exact ⟨_, hS, by rw [← h], rfl⟩

/-- A `Git.cloneFinish` that returns `(true, nil)` ends with a successful
`SetConfig` on the clone. -/
theorem cloneFinish_true_inv (gitContext : GitContext) (clone : String) (w w1 : World S)
    (h : Git.cloneFinish L env gitContext clone w = Outcome.ret (true, none) w1) :
    ∃ s cfg, (L.SetConfig s clone cfg).1 = none ∧ w1.lib = (L.SetConfig s clone cfg).2 := by
  unfold Git.cloneFinish at h
  cases hu : configureGitUser L env clone w with
  | panicked msg => simp [hu] at h
  | ret e wa =>
    cases e with
    | some e => simp [hu] at h
    | none =>
      simp [hu] at h
      cases hH : L.Head wa.lib clone with
      | error e => simp [hH] at h
      | ok head =>
        simp [hH] at h
        cases hf : Git.fetch L gitContext clone
            { lib := wa.lib, trace := wa.trace ++ [Call.Head clone] } with
        | panicked msg => simp [hf] at h
        | ret e wb =>
          cases e with
          | some e => simp [hf] at h
          | none =>
            simp [hf] at h
            cases hd : Git.storeDefaultBranchConfig L gitContext clone head wb with
            | panicked msg => simp [hd] at h
            | ret e wc =>
              cases e with
              | some e => simp [hd] at h
              | none =>
                simp [hd] at h
                subst h
                obtain ⟨cfg, h1, h2, _⟩ := storeDefaultBranchConfig_ok_inv L _ _ _ _ _ hd
                exact ⟨_, cfg, h1, h2⟩

/-- A `Git.CloneRepo` that returns `(true, nil)` either found the repository in
place or finished a clone or an init. -/
theorem CloneRepo_true_inv (gitContext : GitContext) (w w1 : World S)
    (h : Git.CloneRepo L env gitContext w = Outcome.ret (true, none) w1) :
    (∃ credentials, gitContext.Credentials = some credentials ∧
        credentials ≠ GitCredentials.zero) ∧
      (Git.ProjectRepoExists L env gitContext.Project w = Outcome.ret true w1 ∨
        ∃ w0, Git.cloneFinish L env gitContext
          (GetProjectConfigPath env gitContext.Project) w0 = Outcome.ret (true, none) w1) := by
  unfold Git.CloneRepo at h
  cases hC : gitContext.Credentials with
  | none => simp [hC] at h
  | some credentials =>
    by_cases hz : credentials = GitCredentials.zero
    · simp [hC, hz] at h
    · refine ⟨⟨credentials, rfl, hz⟩, ?_⟩
      simp [hC, hz] at h
      cases hp : Git.ProjectRepoExists L env gitContext.Project w with
      | panicked msg => simp [hp] at h
      | ret found wa =>
        cases found with
        | true =>
          simp [hp] at h
          exact Or.inl (by rw [h])
        | false =>
          right
          simp [hp] at h
          cases hd : (L.ensureDirectoryExists wa.lib
              (GetProjectConfigPath env gitContext.Project)).1 with
          | some e => simp [hd] at h
          | none =>
            simp [hd] at h
            cases hc : (L.PlainClone (L.ensureDirectoryExists wa.lib
                (GetProjectConfigPath env gitContext.Project)).2
                (GetProjectConfigPath env gitContext.Project)
                { URL := credentials.RemoteURL, Auth := gitContext.AuthMethod.GoGitAuth,
                  InsecureSkipTLS := retrieveInsecureSkipTLS (some credentials) }).1 with
            | none =>
              simp [hc] at h
              exact ⟨_, h⟩
            | some e =>
              simp [hc] at h
              by_cases hE : ErrEmptyRemoteRepository_Is e = true
              · simp [hE] at h
                cases hi : Git.init L env gitContext
                    (GetProjectConfigPath env gitContext.Project)
                    { lib := (L.PlainClone (L.ensureDirectoryExists wa.lib
                        (GetProjectConfigPath env gitContext.Project)).2
                        (GetProjectConfigPath env gitContext.Project)
                        { URL := credentials.RemoteURL, Auth := gitContext.AuthMethod.GoGitAuth,
                          InsecureSkipTLS := retrieveInsecureSkipTLS (some credentials) }).2,
                      trace := wa.trace ++
                        [Call.ensureDirectoryExists (GetProjectConfigPath env gitContext.Project),
                         Call.PlainClone (GetProjectConfigPath env gitContext.Project)
                          { URL := credentials.RemoteURL,
                            Auth := gitContext.AuthMethod.GoGitAuth,
                            InsecureSkipTLS := retrieveInsecureSkipTLS (some credentials) }] }
                    with
                | panicked msg => simp [hi] at h
                | ret e1 wc =>
                  cases e1 with
                  | some e1 => simp [hi] at h
                  | none =>
                    simp [hi] at h
                    exact ⟨wc, h⟩
              · simp [hE] at h

theorem assocGet_assocSet_self {α : Type} (k : String) (v : α) (l : List (String × α)) :
    assocGet k (assocSet k v l) = some v := by
  induction l with
  | nil => simp [assocSet, assocGet]
  | cons kv rest ih =>
    obtain ⟨k1, v1⟩ := kv
    by_cases hk : k1 = k
    · simp [assocSet, assocGet, hk]
    · simp [assocSet, assocGet, hk, ih]

/-- A successful `SetConfig` of the executable store leaves a repository at the
path. -/
theorem simGit_SetConfig_ok_exists (s : Sim) (repo : String) (c : GitConfig)
    (h : (simGit.SetConfig s repo c).1 = none) :
    (assocGet repo (simGit.SetConfig s repo c).2.repos).isSome = true := by
  simp only [simGit, Sim.update] at h ⊢
  cases hr : assocGet repo s.repos with
  | none => simp [hr] at h
  | some r => simp [hr, Sim.setRepo, assocGet_assocSet_self]

/-- On the executable store a path that holds a repository stats and opens. -/
theorem simGit_exists_stat_open (s : Sim) (path : String)
    (h : (assocGet path s.repos).isSome = true) :
    simGit.osStat s path = none ∧ simGit.PlainOpen s path = none := by
  simp only [simGit]
  cases hr : assocGet path s.repos with
  | none => simp [hr] at h
  | some r => simp [hr]

/-- On the executable store a `CloneRepo` that returned `(true, nil)` leaves a
repository at the project path. -/
theorem simGit_CloneRepo_true_exists (gitContext : GitContext) (w w1 : World Sim)
    (h : Git.CloneRepo simGit env gitContext w = Outcome.ret (true, none) w1) :
    (assocGet (GetProjectConfigPath env gitContext.Project) w1.lib.repos).isSome = true := by
  obtain ⟨_, hcase⟩ := CloneRepo_true_inv simGit env gitContext w w1 h
  rcases hcase with hp | ⟨w0, hf⟩
  · obtain ⟨_, ho, hw⟩ := ProjectRepoExists_true_inv simGit env _ _ _ hp
    subst hw
    simp only [simGit] at ho
    cases hr : assocGet (GetProjectConfigPath env gitContext.Project) w.lib.repos with
    | none => simp [hr, notARepo] at ho
    | some r => simp
  · obtain ⟨s, cfg, h1, h2⟩ := cloneFinish_true_inv simGit env _ _ _ _ hf
    rw [h2]
    exact simGit_SetConfig_ok_exists s _ cfg h1

end Bootstrap

/-- C5. For a context with non-empty credentials: whatever the library, when the
project path stats and opens as a repository `CloneRepo` returns `(true, nil)`, the
store is untouched and the only calls made are that stat and that open (no
directory creation, clone, init, fetch, push or config write); and on the
executable store a `CloneRepo` that follows one that returned `(true, nil)` is of
this kind: it returns `(true, nil)`, leaves the store untouched and makes those two
inspections only. -/
theorem CloneRepo_existing_repository_is_idle (env : Env) (gitContext : GitContext)
    (credentials : GitCredentials)
    (hC : gitContext.Credentials = some credentials)
    (hz : credentials ≠ GitCredentials.zero) :
    (∀ (S : Type) (L : GoGit S) (w : World S),
        L.osStat w.lib (GetProjectConfigPath env gitContext.Project) = none →
        L.PlainOpen w.lib (GetProjectConfigPath env gitContext.Project) = none →
        Git.CloneRepo L env gitContext w =
          Outcome.ret (true, none) { lib := w.lib, trace := w.trace ++
            [Call.osStat (GetProjectConfigPath env gitContext.Project),
             Call.PlainOpen (GetProjectConfigPath env gitContext.Project)] }) ∧
      (∀ w w1 : World Sim,
        Git.CloneRepo simGit env gitContext w = Outcome.ret (true, none) w1 →
        Git.CloneRepo simGit env gitContext w1 =
          Outcome.ret (true, none) { lib := w1.lib, trace := w1.trace ++
            [Call.osStat (GetProjectConfigPath env gitContext.Project),
             Call.PlainOpen (GetProjectConfigPath env gitContext.Project)] }) := by
  constructor
  · intro S L w hs ho
    exact CloneRepo_of_open L env gitContext credentials w hC hz hs ho
  · intro w w1 h
    have hex := simGit_CloneRepo_true_exists env gitContext w w1 h
    obtain ⟨hs, ho⟩ := simGit_exists_stat_open w1.lib _ hex
    exact CloneRepo_of_open simGit env gitContext credentials w1 hC hz hs ho

/-- C5, on the executable store: a first `CloneRepo` that clones from the network,
then a second one on the same context. -/
theorem CloneRepo_existing_repository_is_idle_witness :
    ctx0.Credentials = some creds0 ∧ creds0 ≠ GitCredentials.zero ∧
      Git.CloneRepo simGit env0 ctx0 (simEmpty (cloneNet ++ [])) =
        Outcome.ret (true, none) (afterClone []) ∧
      Git.CloneRepo simGit env0 ctx0 (afterClone []) =
        Outcome.ret (true, none) { lib := (afterClone []).lib, trace := (afterClone []).trace ++
          [Call.osStat (GetProjectConfigPath env0 ctx0.Project),
           Call.PlainOpen (GetProjectConfigPath env0 ctx0.Project)] } :=
  ⟨rfl, by decide, rfl,
    (CloneRepo_existing_repository_is_idle env0 ctx0 creds0 rfl (by decide)).2
      (simEmpty (cloneNet ++ [])) (afterClone []) (by rfl)⟩

/-- C6, as stated, fails: without credentials `CloneRepo` returns false with an
error that does not wrap `ErrCredentialsNotFound` (the error of missing
credentials); it wraps `ErrInvalidGitContext`. -/
theorem CloneRepo_missing_credentials_is_invalid_context :
    (Git.CloneRepo simGit env0 ctxNoCreds (simEmpty [])).val? =
        some (false, some (Error.wrap Fmt.ErrMsgCouldNotGitAction ["clone", "project"]
          (Error.kerr KSentinel.ErrInvalidGitContext))) ∧
      errorsIs (some (Error.wrap Fmt.ErrMsgCouldNotGitAction ["clone", "project"]
          (Error.kerr KSentinel.ErrInvalidGitContext)))
        (Error.kerr KSentinel.ErrCredentialsNotFound) = false := by
  decide

/-- C6, amended. For every context whose credentials are absent or the zero value,
`CloneRepo` returns false together with a `CouldNotGitAction("clone")` error
wrapping `ErrInvalidGitContext`, in the world it was called in: no filesystem or
network operation has been made. -/
theorem CloneRepo_without_credentials {S : Type} (L : GoGit S) (env : Env)
    (gitContext : GitContext) (w : World S)
    (h : gitContext.Credentials = none ∨ gitContext.Credentials = some GitCredentials.zero) :
    Git.CloneRepo L env gitContext w =
      Outcome.ret (false, some (Error.wrap Fmt.ErrMsgCouldNotGitAction ["clone", "project"]
        (Error.kerr KSentinel.ErrInvalidGitContext))) w := by
  rcases h with h | h
  · simp [Git.CloneRepo, h, fmtErrorf]
  · simp [Git.CloneRepo, h, fmtErrorf]

/-- C6 amended, on the executable store, for absent credentials. -/
theorem CloneRepo_without_credentials_witness :
    (ctxNoCreds.Credentials = none ∨ ctxNoCreds.Credentials = some GitCredentials.zero) ∧
      Git.CloneRepo simGit env0 ctxNoCreds (simEmpty cloneNet) =
        Outcome.ret (false, some (Error.wrap Fmt.ErrMsgCouldNotGitAction ["clone", "project"]
          (Error.kerr KSentinel.ErrInvalidGitContext))) (simEmpty cloneNet) :=
  ⟨Or.inl rfl, CloneRepo_without_credentials simGit env0 ctxNoCreds (simEmpty cloneNet)
    (Or.inl rfl)⟩

/-- C7, at the failing input: the upstream's HEAD is on `refs/heads/main`, whose
short name is `main`; `CloneRepo` succeeds, and `GetDefaultBranch` then returns the
full reference name `refs/heads/main`, not `main`. -/
theorem GetDefaultBranch_after_clone_is_full_name :
    (Git.CloneRepo simGit env0 ctx0 (simEmpty (cloneNet ++ []))).val? = some (true, none) ∧
      (simGit.Head (afterClone []).lib "/data/p").toOption
        = some { name := "refs/heads/main", hash := { hex := "a1" } } ∧
      ReferenceName.Short "refs/heads/main" = "main" ∧
      (Git.GetDefaultBranch simGit env0 ctx0 (afterClone [])).val?
        = some ("refs/heads/main", none) := by
  decide

/-- C8, at the failing input: a project bootstrapped by `CloneRepo` from an upstream
with branches `main` (the branch at HEAD) and `dev`.  `GetDefaultBranch` returns
`refs/heads/main`, `MigrateProject` succeeds, and it has run `migrateBranch` on
`main` as well as on `dev`: the temporary tree was checked out at
`refs/heads/main` and the directory `stages/main` was created. -/
theorem MigrateProject_migrates_default_branch :
    (Git.GetDefaultBranch simGit env0 ctx0 (afterClone migrateNet)).val?
        = some ("refs/heads/main", none) ∧
      (Git.MigrateProject simGit env0 ctx0 "k: v" (afterClone migrateNet)).val? = some none ∧
      Call.Checkout tmpPath { Branch := "refs/heads/main", Create := false, Force := false }
        ∈ afterMigrate.trace ∧
      Call.ensureDirectoryExists "/data/p/stages/main" ∈ afterMigrate.trace ∧
      Call.ensureDirectoryExists "/data/p/stages/dev" ∈ afterMigrate.trace ∧
      "/data/p/stages/main" ∈ afterMigrate.lib.dirs := by
  decide!

/-! ## Branches, on the executable store -/

theorem assocGet_filter_ne {α : Type} (k : String) (l : List (String × α)) :
    assocGet k (l.filter (fun kv => decide (kv.1 ≠ k))) = none := by
  induction l with
  | nil => simp [assocGet]
  | cons kv rest ih =>
    obtain ⟨k1, v1⟩ := kv
    by_cases hk : k1 = k
    · simp [List.filter, hk]
      simpa using ih
    · simp [List.filter, hk, assocGet]
      simpa using ih

@[simp] theorem setRepo_get (s : Sim) (path : String) (r : SimRepo) :
    assocGet path (s.setRepo path r).repos = some r := by
  simp [Sim.setRepo, assocGet_assocSet_self]

theorem update_of_some (s : Sim) (path : String) (f : SimRepo → Option Error × SimRepo)
    (r : SimRepo) (h : assocGet path s.repos = some r) :
    s.update path f = ((f r).1, s.setRepo path (f r).2) := by
  simp [Sim.update, h]

@[simp] theorem dropRemote_get (r : SimRepo) (name : String) :
    assocGet name (r.dropRemote name).remotes = none := by
  simp only [SimRepo.dropRemote]
  exact assocGet_filter_ne name r.remotes

/-- On the executable store `getWorkTree` succeeds on a ready project with
credentials and leaves it ready, with HEAD and references as they were. -/
theorem simGit_getWorkTree (env : Env) (gitContext : GitContext)
    (credentials : GitCredentials) (s : Sim) (t : List Call) (head : ReferenceName)
    (refs : List (String × Hash))
    (hC : gitContext.Credentials = some credentials)
    (hR : Ready env gitContext s head refs) :
    ∃ s1 t1, Git.getWorkTree simGit env gitContext { lib := s, trace := t } =
        Outcome.ret none { lib := s1, trace := t1 } ∧
      Ready env gitContext s1 head refs := by
  obtain ⟨r, rc, hr, ho, hh, hrefs⟩ := hR
  by_cases hU : rc.URL0 = credentials.RemoteURL
  · refine ⟨s, t ++ [Call.PlainOpen (GetProjectConfigPath env gitContext.Project),
      Call.Remote (GetProjectConfigPath env gitContext.Project) "origin",
      Call.Worktree (GetProjectConfigPath env gitContext.Project)], ?_,
      ⟨r, rc, hr, ho, hh, hrefs⟩⟩
    simp [Git.getWorkTree, ensureRemoteMatchesCredentials, simGit, hr, ho, hC, hU]
  · refine ⟨(s.setRepo (GetProjectConfigPath env gitContext.Project)
        (r.dropRemote "origin")).setRepo (GetProjectConfigPath env gitContext.Project)
        ((r.dropRemote "origin").addRemote (originAt credentials.RemoteURL)),
      t ++ [Call.PlainOpen (GetProjectConfigPath env gitContext.Project),
        Call.Remote (GetProjectConfigPath env gitContext.Project) "origin",
        Call.DeleteRemote (GetProjectConfigPath env gitContext.Project) "origin",
        Call.CreateRemote (GetProjectConfigPath env gitContext.Project)
          (originAt credentials.RemoteURL),
        Call.Worktree (GetProjectConfigPath env gitContext.Project)], ?_, ?_⟩
    · simp [Git.getWorkTree, ensureRemoteMatchesCredentials, simGit, hr, ho, hC, hU,
        update_of_some _ _ _ _ hr, Sim.update, originAt]
    · refine ⟨_, originAt credentials.RemoteURL, setRepo_get _ _ _, ?_, hh, hrefs⟩
      simp [SimRepo.addRemote, originAt, assocGet_assocSet_self]

/-- On the executable store a ready project exists. -/
theorem simGit_ProjectExists (env : Env) (gitContext : GitContext) (s : Sim) (t : List Call)
    (head : ReferenceName) (refs : List (String × Hash))
    (hR : Ready env gitContext s head refs) :
    Git.ProjectExists simGit env gitContext { lib := s, trace := t } =
      Outcome.ret true { lib := s, trace := t ++
        [Call.osStat (GetProjectConfigPath env gitContext.Project),
         Call.PlainOpen (GetProjectConfigPath env gitContext.Project)] } := by
  obtain ⟨r, rc, hr, _, _, _⟩ := hR
  simp [Git.ProjectExists, Git.ProjectRepoExists, simGit, hr]

/-- On the executable store HEAD of a ready project reads as its symbolic target
and the hash that target has among the references. -/
theorem simGit_Head_ready (env : Env) (gitContext : GitContext) (s : Sim)
    (head : ReferenceName) (refs : List (String × Hash)) (h : Hash)
    (hR : Ready env gitContext s head refs) (hh : assocGet head refs = some h) :
    simGit.Head s (GetProjectConfigPath env gitContext.Project) =
      Except.ok { name := head, hash := h } := by
  obtain ⟨r, rc, hr, _, h1, h2⟩ := hR
  subst h1 h2
  simp [simGit, hr, SimRepo.headHash, hh]

/-- On the executable store a non-creating checkout of an existing reference
succeeds and moves HEAD to it. -/
theorem simGit_Checkout_existing (env : Env) (gitContext : GitContext) (s : Sim)
    (head : ReferenceName) (refs : List (String × Hash)) (o : CheckoutOptions) (h : Hash)
    (hR : Ready env gitContext s head refs) (hb : assocGet o.Branch refs = some h)
    (hc : o.Create = false) :
    ∃ s1, simGit.Checkout s (GetProjectConfigPath env gitContext.Project) o = (none, s1) ∧
      Ready env gitContext s1 o.Branch refs := by
  obtain ⟨r, rc, hr, ho, h1, h2⟩ := hR
  subst h2
  refine ⟨s.setRepo (GetProjectConfigPath env gitContext.Project) { r with HEAD := o.Branch },
    ?_, ⟨_, rc, setRepo_get _ _ _, ho, rfl, rfl⟩⟩
  simp [simGit, update_of_some _ _ _ _ hr, SimRepo.checkout, hc, hb]

/-- On the executable store `Git.checkoutBranch` of an existing reference, without
`Create`, succeeds on a ready project and moves HEAD to the reference. -/
theorem simGit_checkoutBranch (env : Env) (gitContext : GitContext)
    (credentials : GitCredentials) (s : Sim) (t : List Call) (head : ReferenceName)
    (refs : List (String × Hash)) (o : CheckoutOptions) (h : Hash)
    (hC : gitContext.Credentials = some credentials)
    (hR : Ready env gitContext s head refs) (hb : assocGet o.Branch refs = some h)
    (hc : o.Create = false) :
    ∃ s1 t1, Git.checkoutBranch simGit env gitContext o { lib := s, trace := t } =
        Outcome.ret none { lib := s1, trace := t1 } ∧
      Ready env gitContext s1 o.Branch refs := by
  obtain ⟨s1, t1, hg, hR1⟩ := simGit_getWorkTree env gitContext credentials s
    (t ++ [Call.osStat (GetProjectConfigPath env gitContext.Project),
      Call.PlainOpen (GetProjectConfigPath env gitContext.Project)]) head refs hC hR
  obtain ⟨s2, hk, hR2⟩ := simGit_Checkout_existing env gitContext s1 head refs o h hR1 hb hc
  refine ⟨s2, t1 ++ [Call.Checkout (GetProjectConfigPath env gitContext.Project) o], ?_, hR2⟩
  simp [Git.checkoutBranch, simGit_ProjectExists env gitContext s t head refs hR, hg, hk]

/-- On the executable store `Git.CheckoutBranch` succeeds on a ready project when
its target reference exists, and moves HEAD to it. -/
theorem simGit_CheckoutBranch (env : Env) (gitContext : GitContext)
    (credentials : GitCredentials) (s : Sim) (t : List Call) (head : ReferenceName)
    (refs : List (String × Hash)) (branch : String) (h : Hash)
    (hC : gitContext.Credentials = some credentials)
    (hR : Ready env gitContext s head refs)
    (hb : assocGet (checkoutTarget branch) refs = some h) :
    ∃ s1 t1, Git.CheckoutBranch simGit env gitContext branch { lib := s, trace := t } =
        Outcome.ret none { lib := s1, trace := t1 } ∧
      Ready env gitContext s1 (checkoutTarget branch) refs := by
  obtain ⟨s1, t1, hk, hR1⟩ := simGit_checkoutBranch env gitContext credentials s t head refs
    { Branch := checkoutTarget branch, Create := false, Force := true } h hC hR hb rfl
  refine ⟨s1, t1, ?_, hR1⟩
  unfold Git.CheckoutBranch
  unfold checkoutTarget at hk
  simp [hk]

theorem simGit_Checkout_eq (s : Sim) (repo : String) (o : CheckoutOptions) :
    simGit.Checkout s repo o = s.update repo (fun r => r.checkout o) := rfl

theorem simGit_CreateBranch_eq (s : Sim) (repo : String) (b : Branch) :
    simGit.CreateBranch s repo b = s.update repo (fun r =>
      match assocGet b.Name r.branches with
      | some _ => (some (Error.lib LibSentinel.gitErrBranchExists), r)
      | none => (none, { r with branches := assocSet b.Name b r.branches })) := rfl

/-- A successful `Git.getWorkTree` opened the repository and found its `origin`. -/
theorem getWorkTree_ok_inv {S : Type} (L : GoGit S) (env : Env) (gitContext : GitContext)
    (w w1 : World S)
    (h : Git.getWorkTree L env gitContext w = Outcome.ret none w1) :
    L.PlainOpen w.lib (GetProjectConfigPath env gitContext.Project) = none ∧
      ∃ rc, L.Remote w.lib (GetProjectConfigPath env gitContext.Project) "origin"
        = Except.ok rc := by
  unfold Git.getWorkTree at h
  simp only [bind_eq, ask_eq] at h
  cases hO : L.PlainOpen w.lib (GetProjectConfigPath env gitContext.Project) with
  | some err => simp [hO] at h
  | none =>
    refine ⟨rfl, ?_⟩
    cases hR : L.Remote w.lib (GetProjectConfigPath env gitContext.Project) "origin" with
    | ok rc => exact ⟨rc, rfl⟩
    | error err => simp [hO, ensureRemoteMatchesCredentials, hR] at h

/-- On the executable store a successful `getWorkTree` had credentials and leaves a
ready project. -/
theorem simGit_getWorkTree_inv (env : Env) (gitContext : GitContext) (w w1 : World Sim)
    (h : Git.getWorkTree simGit env gitContext w = Outcome.ret none w1) :
    ∃ credentials head refs, gitContext.Credentials = some credentials ∧
      Ready env gitContext w1.lib head refs := by
  obtain ⟨credentials, hC⟩ := getWorkTree_ok_creds simGit env _ _ _ h
  obtain ⟨hO, rc, hRm⟩ := getWorkTree_ok_inv simGit env _ _ _ h
  cases hr : assocGet (GetProjectConfigPath env gitContext.Project) w.lib.repos with
  | none => simp [simGit, hr] at hO
  | some r =>
    cases ho : assocGet "origin" r.remotes with
    | none => simp [simGit, hr, ho] at hRm
    | some rc1 =>
      obtain ⟨s1, t1, hg, hR1⟩ := simGit_getWorkTree env gitContext credentials w.lib w.trace
        r.HEAD r.refs hC ⟨r, rc1, hr, ho, rfl, rfl⟩
      have hw : w = { lib := w.lib, trace := w.trace } := rfl
      rw [hw, hg] at h
      simp at h
      subst h
      exact ⟨credentials, r.HEAD, r.refs, hC, hR1⟩

/-- On the executable store a successful `CreateBranch` leaves a ready project with
HEAD on the new branch reference, which exists. -/
theorem simGit_CreateBranch_ok (env : Env) (gitContext : GitContext)
    (branch sourceBranch : String) (w w1 : World Sim)
    (h : Git.CreateBranch simGit env gitContext branch sourceBranch w = Outcome.ret none w1) :
    ∃ credentials refs hh, gitContext.Credentials = some credentials ∧
      Ready env gitContext w1.lib (NewBranchReferenceName branch) refs ∧
      assocGet (NewBranchReferenceName branch) refs = some hh := by
  unfold Git.CreateBranch at h
  cases hk : Git.CheckoutBranch simGit env gitContext sourceBranch w with
  | panicked msg => simp [hk] at h
  | ret e wa =>
    cases e with
    | some e => simp [hk] at h
    | none =>
      cases hg : Git.getWorkTree simGit env gitContext wa with
      | panicked msg => simp [hk, hg] at h
      | ret e wb =>
        cases e with
        | some e => simp [hk, hg] at h
        | none =>
          obtain ⟨credentials, head, refs, hC, r, rc, hr, ho, h1, h2⟩ :=
            simGit_getWorkTree_inv env gitContext wa wb hg
          simp only [hk, hg, bind_eq, act_eq, simGit_Checkout_eq, simGit_CreateBranch_eq,
            update_of_some _ _ _ _ hr] at h
          simp only [SimRepo.checkout] at h
          cases hb : assocGet (NewBranchReferenceName branch) r.refs with
          | some hh => simp [hb] at h
          | none =>
            simp [hb, Sim.update] at h
            cases hH : r.headHash with
            | none => simp [hH] at h
            | some hh =>
              simp [hH] at h
              cases hcfg : assocGet branch r.branches with
              | some b => simp [hcfg] at h
              | none =>
                simp [hcfg] at h
                subst h
                exact ⟨credentials, assocSet (NewBranchReferenceName branch) hh r.refs, hh, hC,
                  ⟨_, rc, setRepo_get _ _ _, ho, rfl, rfl⟩, assocGet_assocSet_self _ _ _⟩

theorem stripLeading_append (pre x : List Char) : stripLeading pre (pre ++ x) = some x := by
  have hp : pre.isPrefixOf (pre ++ x) = true := by
    rw [List.isPrefixOf_iff_prefix]
    exact List.prefix_append pre x
  simp [stripLeading, hp]

/-- The short name of the branch reference of `name` is `name`. -/
theorem Short_NewBranchReferenceName (name : String) :
    ReferenceName.Short (NewBranchReferenceName name) = name := by
  have hd : (NewBranchReferenceName name).data = "refs/heads/".data ++ name.data := by
    simp [NewBranchReferenceName]
  simp only [ReferenceName.Short, hd, stripLeading_append]

/-- C10, at the failing input: the short name `refsx` begins with the characters
`refs` and does not exist; `CreateBranch(ctx, "refsx", "main")` succeeds and creates
`refs/heads/refsx`, and the following `CheckoutBranch(ctx, "refsx")` fails with
`CouldNotCheckout` wrapping `ReferenceNotFound`: the guard for complete reference
paths tests the prefix `refs`, so the reference looked for is `refsx` itself. -/
theorem CheckoutBranch_after_CreateBranch_fails_on_refs_name :
    assocGet (NewBranchReferenceName "refsx") repo0.refs = none ∧
      (Git.CreateBranch simGit env0 ctx0 "refsx" "main" (simProject [])).val? = some none ∧
      (simGit.Head ((Git.CreateBranch simGit env0 ctx0 "refsx" "main"
          (simProject [])).worldOr (simProject [])).lib "/data/p").toOption
        = some { name := "refs/heads/refsx", hash := { hex := "a1" } } ∧
      ((Git.CreateBranch simGit env0 ctx0 "refsx" "main" >>= fun _ =>
          Git.CheckoutBranch simGit env0 ctx0 "refsx") (simProject [])).val?
        = some (some (Error.wrap Fmt.ErrMsgCouldNotCheckout ["refsx"]
            (Error.kerr KSentinel.ErrReferenceNotFound))) := by
  decide

/-- The round trip for the other names.  On the executable store, for every branch
name `B` that does not begin with `refs`: if `CreateBranch(ctx, B, D)` succeeds, then a following
`CheckoutBranch(ctx, B)` succeeds and leaves HEAD on the reference `refs/heads/B`,
whose short name is `B`. -/
theorem CheckoutBranch_after_CreateBranch (env : Env) (gitContext : GitContext)
    (branch sourceBranch : String) (w w1 : World Sim)
    (hn : stringsHasPrefix branch "refs" = false)
    (h : Git.CreateBranch simGit env gitContext branch sourceBranch w = Outcome.ret none w1) :
    ∃ w2 hh, Git.CheckoutBranch simGit env gitContext branch w1 = Outcome.ret none w2 ∧
      simGit.Head w2.lib (GetProjectConfigPath env gitContext.Project) =
        Except.ok { name := NewBranchReferenceName branch, hash := hh } ∧
      ReferenceName.Short (NewBranchReferenceName branch) = branch := by
  obtain ⟨credentials, refs, hh, hC, hR, hb⟩ :=
    simGit_CreateBranch_ok env gitContext branch sourceBranch w w1 h
  have ht : checkoutTarget branch = NewBranchReferenceName branch := by
    simp [checkoutTarget, hn]
  obtain ⟨s2, t2, hk, hR2⟩ := simGit_CheckoutBranch env gitContext credentials w1.lib w1.trace
    (NewBranchReferenceName branch) refs branch hh hC hR (by rw [ht]; exact hb)
  rw [ht] at hR2
  exact ⟨{ lib := s2, trace := t2 }, hh, hk,
    simGit_Head_ready env gitContext s2 _ refs hh hR2 hb, Short_NewBranchReferenceName branch⟩

/-- The round trip on the project of the examples: the new branch `qa` from `main`. -/
theorem CheckoutBranch_after_CreateBranch_witness :
    stringsHasPrefix "qa" "refs" = false ∧
      Git.CreateBranch simGit env0 ctx0 "qa" "main" (simProject []) =
        Outcome.ret none ((Git.CreateBranch simGit env0 ctx0 "qa" "main"
          (simProject [])).worldOr (simProject [])) ∧
      ∃ w2 hh, Git.CheckoutBranch simGit env0 ctx0 "qa"
            ((Git.CreateBranch simGit env0 ctx0 "qa" "main" (simProject [])).worldOr
              (simProject [])) = Outcome.ret none w2 ∧
        simGit.Head w2.lib (GetProjectConfigPath env0 ctx0.Project) =
          Except.ok { name := NewBranchReferenceName "qa", hash := hh } ∧
        ReferenceName.Short (NewBranchReferenceName "qa") = "qa" :=
  ⟨by decide, by rfl,
    CheckoutBranch_after_CreateBranch env0 ctx0 "qa" "main" (simProject []) _ (by decide)
      (by rfl)⟩

/-! ## Credentials and errors -/

/-- C14. `retrieveInsecureSkipTLS` returns the HTTPS flag when the credentials are
present, carry the HTTPS shape and have no proxy, and false in every other case:
nil credentials, credentials without the HTTPS shape, or any proxy, whatever the
flag says. -/
theorem retrieveInsecureSkipTLS_spec (credentials : Option GitCredentials) :
    (∀ c https, credentials = some c → c.HttpsAuth = some https → https.Proxy = none →
        retrieveInsecureSkipTLS credentials = https.InsecureSkipTLS) ∧
      (credentials = none → retrieveInsecureSkipTLS credentials = false) ∧
      (∀ c, credentials = some c → c.HttpsAuth = none →
        retrieveInsecureSkipTLS credentials = false) ∧
      (∀ c https proxy, credentials = some c → c.HttpsAuth = some https →
        https.Proxy = some proxy → retrieveInsecureSkipTLS credentials = false) := by
  refine ⟨?_, ?_, ?_, ?_⟩
  · intro c https hc hh hp
    simp [retrieveInsecureSkipTLS, hc, hh, hp]
  · intro hc
    simp [retrieveInsecureSkipTLS, hc]
  · intro c hc hh
    simp [retrieveInsecureSkipTLS, hc, hh]
  · intro c https proxy hc hh hp
    simp [retrieveInsecureSkipTLS, hc, hh, hp]

/-- An error matches at most one library sentinel. -/
theorem Error.is_lib_unique (e : Error) (a b : LibSentinel)
    (ha : e.is (Error.lib a) = true) (hb : e.is (Error.lib b) = true) : a = b := by
  induction e with
  | lib x =>
    simp [Error.is] at ha hb
    rw [← ha, ← hb]
  | kerr x => simp [Error.is] at ha
  | other msg => simp [Error.is] at ha
  | wrap f args inner ih =>
    simp [Error.is] at ha hb
    exact ih ha hb
  | wrapNil f args => simp [Error.is] at ha

/-- C15, as stated, fails: `mapError` returns reference-not-found,
empty-remote-repository, remote-not-found and already-up-to-date as the
untranslated library errors. -/
theorem mapError_leaves_four_untranslated :
    mapError (some (Error.lib LibSentinel.plumbingErrReferenceNotFound))
        = some (Error.lib LibSentinel.plumbingErrReferenceNotFound) ∧
      mapError (some (Error.lib LibSentinel.transportErrEmptyRemoteRepository))
        = some (Error.lib LibSentinel.transportErrEmptyRemoteRepository) ∧
      mapError (some (Error.lib LibSentinel.gitErrRemoteNotFound))
        = some (Error.lib LibSentinel.gitErrRemoteNotFound) ∧
      mapError (some (Error.lib LibSentinel.gitNoErrAlreadyUpToDate))
        = some (Error.lib LibSentinel.gitNoErrAlreadyUpToDate) := by
  decide

/-- C15, amended. `mapError` recognizes each of the four library failures
non-fast-forward, authentication-required, authorization-failed and force-needed,
also behind wrapping, and translates it to its `kerrors` kind; it returns every
other error unchanged, and nil for nil. -/
theorem mapError_spec (e : Error) :
    (e.is (Error.lib LibSentinel.gitErrNonFastForwardUpdate) = true →
        mapError (some e) = some (Error.kerr KSentinel.ErrNonFastForwardUpdate)) ∧
      (e.is (Error.lib LibSentinel.transportErrAuthenticationRequired) = true →
        mapError (some e) = some (Error.kerr KSentinel.ErrAuthenticationRequired)) ∧
      (e.is (Error.lib LibSentinel.transportErrAuthorizationFailed) = true →
        mapError (some e) = some (Error.kerr KSentinel.ErrAuthorizationFailed)) ∧
      (e.is (Error.lib LibSentinel.gitErrForceNeeded) = true →
        mapError (some e) = some (Error.kerr KSentinel.ErrForceNeeded)) ∧
      (e.is (Error.lib LibSentinel.gitErrNonFastForwardUpdate) = false →
        e.is (Error.lib LibSentinel.transportErrAuthenticationRequired) = false →
        e.is (Error.lib LibSentinel.transportErrAuthorizationFailed) = false →
        e.is (Error.lib LibSentinel.gitErrForceNeeded) = false →
        mapError (some e) = some e) ∧
      mapError none = none := by
  refine ⟨?_, ?_, ?_, ?_, ?_, ?_⟩
  · intro h
    simp [mapError, errorsIs, h]
  · intro h
    have h1 : e.is (Error.lib LibSentinel.gitErrNonFastForwardUpdate) = false := by
      cases hx : e.is (Error.lib LibSentinel.gitErrNonFastForwardUpdate) with
      | false => rfl
      | true => exact absurd (Error.is_lib_unique e _ _ hx h) (by decide)
    simp [mapError, errorsIs, h, h1]
  · intro h
    have h1 : e.is (Error.lib LibSentinel.gitErrNonFastForwardUpdate) = false := by
      cases hx : e.is (Error.lib LibSentinel.gitErrNonFastForwardUpdate) with
      | false => rfl
      | true => exact absurd (Error.is_lib_unique e _ _ hx h) (by decide)
    have h2 : e.is (Error.lib LibSentinel.transportErrAuthenticationRequired) = false := by
      cases hx : e.is (Error.lib LibSentinel.transportErrAuthenticationRequired) with
      | false => rfl
      | true => exact absurd (Error.is_lib_unique e _ _ hx h) (by decide)
    simp [mapError, errorsIs, h, h1, h2]
  · intro h
    have h1 : e.is (Error.lib LibSentinel.gitErrNonFastForwardUpdate) = false := by
      cases hx : e.is (Error.lib LibSentinel.gitErrNonFastForwardUpdate) with
      | false => rfl
      | true => exact absurd (Error.is_lib_unique e _ _ hx h) (by decide)
    have h2 : e.is (Error.lib LibSentinel.transportErrAuthenticationRequired) = false := by
      cases hx : e.is (Error.lib LibSentinel.transportErrAuthenticationRequired) with
      | false => rfl
      | true => exact absurd (Error.is_lib_unique e _ _ hx h) (by decide)
    have h3 : e.is (Error.lib LibSentinel.transportErrAuthorizationFailed) = false := by
      cases hx : e.is (Error.lib LibSentinel.transportErrAuthorizationFailed) with
      | false => rfl
      | true => exact absurd (Error.is_lib_unique e _ _ hx h) (by decide)
    simp [mapError, errorsIs, h, h1, h2, h3]
  · intro h1 h2 h3 h4
    simp [mapError, errorsIs, h1, h2, h3, h4]
  · simp [mapError, errorsIs]

/-! ## The HEAD file -/

theorem isPrefixOf_append_singleton (old : List Char) (c : Char) (hc : c ∉ old) :
    ∀ s : List Char, old.isPrefixOf (s ++ [c]) = old.isPrefixOf s := by
  induction old with
  | nil => intro s; simp
  | cons m ms ih =>
    intro s
    have hm : m ≠ c := fun h => hc (by simp [h])
    have hms : c ∉ ms := fun h => hc (by simp [h])
    cases s with
    | nil => simp [List.isPrefixOf, hm]
    | cons x xs => simp [List.isPrefixOf, ih hms xs]

theorem occursIn_append_singleton (old : List Char) (c : Char) (hc : c ∉ old) :
    ∀ s : List Char, occursIn old (s ++ [c]) = occursIn old s := by
  intro s
  induction s with
  | nil =>
    have h := isPrefixOf_append_singleton old c hc []
    simp only [List.nil_append] at h
    simp [occursIn, h]
  | cons x xs ih =>
    have h := isPrefixOf_append_singleton old c hc (x :: xs)
    simp only [List.cons_append] at h
    simp [occursIn, h, ih]

/-- Where `old` does not occur, the replacement changes nothing. -/
theorem bytesReplaceFrom_absent (old new : List Char) :
    ∀ s : List Char, occursIn old s = false → bytesReplaceFrom old new 0 s = s := by
  intro s
  induction s with
  | nil => intro _; simp [bytesReplaceFrom]
  | cons c cs ih =>
    intro h
    simp only [occursIn, Bool.or_eq_false_iff] at h
    simp [bytesReplaceFrom, h.1, ih h.2]

/-- The rewrite of a HEAD file that points at `refs/heads/master`. -/
theorem bytesReplace_master_head (d : String) :
    bytesReplace "ref: refs/heads/master\n" "master" d = "ref: refs/heads/" ++ d ++ "\n" := by
  have hne : ("master" : String) ≠ "" := by decide
  have hdata : ("ref: refs/heads/master\n" : String).data =
      ['r', 'e', 'f', ':', ' ', 'r', 'e', 'f', 's', '/', 'h', 'e', 'a', 'd', 's', '/',
       'm', 'a', 's', 't', 'e', 'r', '\n'] := by decide
  have hold : ("master" : String).data = ['m', 'a', 's', 't', 'e', 'r'] := by decide
  have hpre : ("ref: refs/heads/" : String).data =
      ['r', 'e', 'f', ':', ' ', 'r', 'e', 'f', 's', '/', 'h', 'e', 'a', 'd', 's', '/'] := by
    decide
  have hnl : ("\n" : String).data = ['\n'] := by decide
  apply String.ext
  simp only [bytesReplace, hne, if_false, hdata, hold, String.data_append, hpre, hnl]
  simp [bytesReplaceFrom, List.isPrefixOf]

/-- A HEAD file that points at a branch whose name does not contain `master`
contains no `master`. -/
theorem occursIn_master_head (d : String) (h : occursIn "master".data d.data = false) :
    occursIn "master".data ("ref: refs/heads/" ++ d ++ "\n").data = false := by
  have hold : ("master" : String).data = ['m', 'a', 's', 't', 'e', 'r'] := by decide
  have hpre : ("ref: refs/heads/" : String).data =
      ['r', 'e', 'f', ':', ' ', 'r', 'e', 'f', 's', '/', 'h', 'e', 'a', 'd', 's', '/'] := by
    decide
  have hnl : ("\n" : String).data = ['\n'] := by decide
  have hc : '\n' ∉ ['m', 'a', 's', 't', 'e', 'r'] := by decide
  rw [hold] at h
  have h2 := occursIn_append_singleton ['m', 'a', 's', 't', 'e', 'r'] '\n' hc d.data
  simp only [String.data_append, hold, hpre, hnl]
  simp [occursIn, List.isPrefixOf, h2, h]

/-- C19, as stated, fails: with the default branch `master2` the first rewrite of
the HEAD file of a fresh repository makes it point at `refs/heads/master2`, and a
second rewrite makes it point at `refs/heads/master22`. -/
theorem rewriteDefaultBranch_twice_rewrites_again :
    (((Git.rewriteDefaultBranch simGit envMaster2 "/data/p/.git/HEAD") simInitialised).world?.bind
        (fun w => assocGet "/data/p" w.lib.repos)).map (fun r => r.headFile)
        = some "ref: refs/heads/master2\n" ∧
      (((Git.rewriteDefaultBranch simGit envMaster2 "/data/p/.git/HEAD" >>= fun _ =>
          Git.rewriteDefaultBranch simGit envMaster2 "/data/p/.git/HEAD")
          simInitialised).world?.bind
        (fun w => assocGet "/data/p" w.lib.repos)).map (fun r => r.headFile)
        = some "ref: refs/heads/master22\n" ∧
      bytesReplace "ref: refs/heads/master2\n" "master" "master2"
        = "ref: refs/heads/master22\n" := by
  decide

/-- C19, amended. If the configured default branch equals the library's hardcoded
name, `rewriteDefaultBranch` neither reads nor writes the file.  Otherwise it reads
the file and writes back its content with every occurrence of the hardcoded name
replaced by the configured one.  With the hardcoded name `master`, a file pointing
at `refs/heads/master` is rewritten to point at `refs/heads/d`, and a second
rewrite leaves a file pointing at `refs/heads/d` as it is when `d` does not
contain `master`. -/
theorem rewriteDefaultBranch_spec {S : Type} (L : GoGit S) (env : Env) (path : String)
    (w : World S) :
    (env.defaultBranchFromEnv = env.GitInitDefaultBranchName →
        Git.rewriteDefaultBranch L env path w = Outcome.ret none w) ∧
      (env.defaultBranchFromEnv ≠ env.GitInitDefaultBranchName →
        ∀ input, L.ReadFile w.lib path = Except.ok input →
          Git.rewriteDefaultBranch L env path w =
            Outcome.ret
              (L.WriteFile w.lib path
                (bytesReplace input env.GitInitDefaultBranchName env.defaultBranchFromEnv)).1
              { lib := (L.WriteFile w.lib path
                  (bytesReplace input env.GitInitDefaultBranchName env.defaultBranchFromEnv)).2,
                trace := w.trace ++ [Call.ReadFile path, Call.WriteFile path
                  (bytesReplace input env.GitInitDefaultBranchName
                    env.defaultBranchFromEnv)] }) ∧
      (env.GitInitDefaultBranchName = "master" →
        bytesReplace "ref: refs/heads/master\n" env.GitInitDefaultBranchName
            env.defaultBranchFromEnv
          = "ref: refs/heads/" ++ env.defaultBranchFromEnv ++ "\n") ∧
      (env.GitInitDefaultBranchName = "master" →
        occursIn "master".data env.defaultBranchFromEnv.data = false →
        bytesReplace ("ref: refs/heads/" ++ env.defaultBranchFromEnv ++ "\n")
            env.GitInitDefaultBranchName env.defaultBranchFromEnv
          = "ref: refs/heads/" ++ env.defaultBranchFromEnv ++ "\n") := by
  refine ⟨?_, ?_, ?_, ?_⟩
  · intro h
    simp [Git.rewriteDefaultBranch, h]
  · intro h input hr
    simp only [Git.rewriteDefaultBranch, bind_eq, ask_eq, act_eq, hr, h, ne_eq, not_false_eq_true,
      if_true]
    cases hw : (L.WriteFile w.lib path
      (bytesReplace input env.GitInitDefaultBranchName env.defaultBranchFromEnv)).1 <;>
      simp [hw]
  · intro hH
    rw [hH]
    exact bytesReplace_master_head _
  · intro hH hd
    rw [hH]
    have hne : ("master" : String) ≠ "" := by decide
    have hocc := occursIn_master_head _ hd
    apply String.ext
    simp only [bytesReplace, hne, if_false]
    exact bytesReplaceFrom_absent _ _ _ hocc

/-! ## Pull and push -/

/-- A call of `Git.getWorkTree` is no pull. -/
theorem isPull_of_isWorkTreeCall (c : Call) (h : c.isWorkTreeCall = true) : c.isPull = false := by
  cases c <;> simp [Call.isWorkTreeCall, Call.isPull] at h ⊢

/-- A list of worktree calls holds no pull. -/
theorem filter_isPull_workTree (t : List Call) (h : ∀ c ∈ t, c.isWorkTreeCall = true) :
    t.filter Call.isPull = [] := by
  rw [List.filter_eq_nil_iff]
  intro c hc
  simp [isPull_of_isWorkTreeCall c (h c hc)]

/-- The verdict of `Git.Pull` on the results of its pull attempts. -/
theorem pull_verdict (project : String) (first retry : Option Error) :
    (match (if errorsIs first (Error.lib LibSentinel.plumbingErrReferenceNotFound) = true
        then retry else first) with
      | some e =>
        if (errorsIs (some e) (Error.lib LibSentinel.gitNoErrAlreadyUpToDate)
            || errorsIs (some e) (Error.lib LibSentinel.transportErrEmptyRemoteRepository)) = true
        then none
        else some (fmtErrorf Fmt.ErrMsgCouldNotGitAction ["pull", project] (mapError (some e)))
      | none => none)
    = if pullSucceeds first retry = true then none
      else some (fmtErrorf Fmt.ErrMsgCouldNotGitAction ["pull", project]
        (mapError (pullFailure first retry))) := by
  cases hF : errorsIs first (Error.lib LibSentinel.plumbingErrReferenceNotFound) with
  | false =>
    cases first with
    | none => simp [pullSucceeds]
    | some e =>
      by_cases ht : tolerated (some e) = true
      · have ht1 := ht
        simp only [tolerated] at ht1
        simp [pullSucceeds, ht, ht1]
      · have ht1 := ht
        simp only [tolerated] at ht1
        simp [pullSucceeds, pullFailure, hF, ht, ht1]
  | true =>
    have hnt : tolerated first = false := by
      cases first with
      | none => simp [errorsIs] at hF
      | some e =>
        simp only [errorsIs] at hF
        cases h1 : e.is (Error.lib LibSentinel.gitNoErrAlreadyUpToDate) with
        | true => exact absurd (Error.is_lib_unique e _ _ hF h1) (by decide)
        | false =>
          cases h2 : e.is (Error.lib LibSentinel.transportErrEmptyRemoteRepository) with
          | true => exact absurd (Error.is_lib_unique e _ _ hF h2) (by decide)
          | false => simp [tolerated, errorsIs, h1, h2]
    have hsome : first.isNone = false := by
      cases first with
      | none => simp [errorsIs] at hF
      | some e => rfl
    cases retry with
    | none => simp [pullSucceeds, hF]
    | some e =>
      by_cases ht : tolerated (some e) = true
      · have ht1 := ht
        simp only [tolerated] at ht1
        simp [pullSucceeds, hF, ht, ht1]
      · have ht1 := ht
        simp only [tolerated] at ht1
        simp [pullSucceeds, pullFailure, hF, ht, ht1, hnt, hsome]

/-- C11, as stated, fails: project `p` exists locally (its path stats and opens as a
repository) and the context has no credentials; `Pull` does not return, neither
with success nor with a `CouldNotGitAction("pull")` error: it ends in a nil
dereference, before any pull is attempted. -/
theorem Pull_without_credentials_does_not_return :
    simGit.osStat (simProject [upToDate]).lib (GetProjectConfigPath env0 ctxNoCreds.Project)
        = none ∧
      simGit.PlainOpen (simProject [upToDate]).lib (GetProjectConfigPath env0 ctxNoCreds.Project)
        = none ∧
      ctxNoCreds.Credentials = none ∧
      (Git.Pull simGit env0 ctxNoCreds (simProject [upToDate])).val? = none ∧
      Git.Pull simGit env0 ctxNoCreds (simProject [upToDate])
        = Outcome.panicked "nil pointer dereference" := by
  refine ⟨by decide, by decide, rfl, by decide, by rfl⟩

/-- C11, amended. For a project that exists locally (its path stats and opens as a
repository) and a context with credentials, `Pull` returns, and at most two library
pulls are made.  When the worktree is obtained and HEAD is read, `Pull` returns
success exactly when `pullSucceeds` holds of the results of the first pull (with the
HEAD reference name) and of the retry without a reference: the first pull succeeds,
or fails with already-up-to-date or empty-remote-repository, or fails with
reference-not-found and the retry succeeds or fails with one of these two.  In every
other case it returns a `CouldNotGitAction("pull")` error wrapping the translated
failure, that of the retry when there was one; a failure to obtain the worktree or
to read HEAD is returned wrapped and translated the same way. -/
theorem Pull_tolerates_and_retries_once {S : Type} (L : GoGit S) (env : Env)
    (gitContext : GitContext) (credentials : GitCredentials) (w : World S)
    (hC : gitContext.Credentials = some credentials)
    (hstat : L.osStat w.lib (GetProjectConfigPath env gitContext.Project) = none)
    (hopen : L.PlainOpen w.lib (GetProjectConfigPath env gitContext.Project) = none) :
    ∃ g w1 res w2,
      Git.getWorkTree L env gitContext
          { lib := w.lib,
            trace := w.trace ++ [Call.osStat (GetProjectConfigPath env gitContext.Project),
              Call.PlainOpen (GetProjectConfigPath env gitContext.Project)] }
        = Outcome.ret g w1 ∧
      Git.Pull L env gitContext w = Outcome.ret res w2 ∧
      (w2.trace.filter Call.isPull).length ≤ (w.trace.filter Call.isPull).length + 2 ∧
      (∀ e, g = some e →
        res = some (fmtErrorf Fmt.ErrMsgCouldNotGitAction ["pull", gitContext.Project]
          (mapError (some e)))) ∧
      (∀ e, g = none →
        L.Head w1.lib (GetProjectConfigPath env gitContext.Project) = Except.error e →
        res = some (fmtErrorf Fmt.ErrMsgCouldNotGitAction ["pull", gitContext.Project]
          (mapError (some e)))) ∧
      (∀ head first retry, g = none →
        L.Head w1.lib (GetProjectConfigPath env gitContext.Project) = Except.ok head →
        first = (L.Pull w1.lib (GetProjectConfigPath env gitContext.Project)
          { RemoteName := "origin", Force := true, ReferenceName := some head.name,
            Auth := gitContext.AuthMethod.GoGitAuth,
            InsecureSkipTLS := retrieveInsecureSkipTLS gitContext.Credentials }).1 →
        retry = (L.Pull
          (L.Pull w1.lib (GetProjectConfigPath env gitContext.Project)
            { RemoteName := "origin", Force := true, ReferenceName := some head.name,
              Auth := gitContext.AuthMethod.GoGitAuth,
              InsecureSkipTLS := retrieveInsecureSkipTLS gitContext.Credentials }).2
          (GetProjectConfigPath env gitContext.Project)
          { RemoteName := "origin", Force := true, ReferenceName := none,
            Auth := gitContext.AuthMethod.GoGitAuth,
            InsecureSkipTLS := retrieveInsecureSkipTLS gitContext.Credentials }).1 →
        (res = none ↔ pullSucceeds first retry = true) ∧
        (pullSucceeds first retry = false →
          res = some (fmtErrorf Fmt.ErrMsgCouldNotGitAction ["pull", gitContext.Project]
            (mapError (pullFailure first retry))))) := by
  obtain ⟨g, w1, hg⟩ := getWorkTree_returns L env gitContext credentials hC
    { lib := w.lib,
      trace := w.trace ++ [Call.osStat (GetProjectConfigPath env gitContext.Project),
        Call.PlainOpen (GetProjectConfigPath env gitContext.Project)] }
  obtain ⟨t, ht, hall⟩ := getWorkTree_calls L env _ _ _ _ hg
  have hft := filter_isPull_workTree t hall
  simp only [List.append_assoc] at ht
  refine ⟨g, w1, ?_⟩
  cases g with
  | some e =>
    refine ⟨some (fmtErrorf Fmt.ErrMsgCouldNotGitAction ["pull", gitContext.Project]
      (mapError (some e))), w1, hg, ?_, ?_, ?_, ?_, ?_⟩
    · simp [Git.Pull, Git.ProjectExists, Git.ProjectRepoExists, hstat, hopen, hg]
    · simp [ht, hft, Call.isPull]
    · intro e1 he1
      cases he1
      rfl
    · intro e1 h1
      cases h1
    · intro head first retry h1
      cases h1
  | none =>
    cases hH : L.Head w1.lib (GetProjectConfigPath env gitContext.Project) with
    | error e =>
      refine ⟨some (fmtErrorf Fmt.ErrMsgCouldNotGitAction ["pull", gitContext.Project]
        (mapError (some e))), { lib := w1.lib, trace := w1.trace ++
          [Call.Head (GetProjectConfigPath env gitContext.Project)] }, hg, ?_, ?_, ?_, ?_, ?_⟩
      · simp [Git.Pull, Git.ProjectExists, Git.ProjectRepoExists, hstat, hopen, hg, hH]
      · simp [ht, hft, Call.isPull]
      · intro e1 h1
        cases h1
      · intro e1 _ h1
        cases h1
        rfl
      · intro head first retry _ h1
        cases h1
    | ok head =>
      cases hp1 : L.Pull w1.lib (GetProjectConfigPath env gitContext.Project)
          { RemoteName := "origin", Force := true, ReferenceName := some head.name,
            Auth := gitContext.AuthMethod.GoGitAuth,
            InsecureSkipTLS := retrieveInsecureSkipTLS gitContext.Credentials } with
      | mk first s1 =>
      cases hp2 : L.Pull s1 (GetProjectConfigPath env gitContext.Project)
          { RemoteName := "origin", Force := true, ReferenceName := none,
            Auth := gitContext.AuthMethod.GoGitAuth,
            InsecureSkipTLS := retrieveInsecureSkipTLS gitContext.Credentials } with
      | mk retry s2 =>
      have hv := pull_verdict gitContext.Project first retry
      refine ⟨if pullSucceeds first retry = true then none
          else some (fmtErrorf Fmt.ErrMsgCouldNotGitAction ["pull", gitContext.Project]
            (mapError (pullFailure first retry))),
        if errorsIs first (Error.lib LibSentinel.plumbingErrReferenceNotFound) = true then
          { lib := s2, trace := w1.trace ++
            [Call.Head (GetProjectConfigPath env gitContext.Project),
             Call.Pull (GetProjectConfigPath env gitContext.Project)
              { RemoteName := "origin", Force := true, ReferenceName := some head.name,
                Auth := gitContext.AuthMethod.GoGitAuth,
                InsecureSkipTLS := retrieveInsecureSkipTLS gitContext.Credentials },
             Call.Pull (GetProjectConfigPath env gitContext.Project)
              { RemoteName := "origin", Force := true, ReferenceName := none,
                Auth := gitContext.AuthMethod.GoGitAuth,
                InsecureSkipTLS := retrieveInsecureSkipTLS gitContext.Credentials }] }
        else
          { lib := s1, trace := w1.trace ++
            [Call.Head (GetProjectConfigPath env gitContext.Project),
             Call.Pull (GetProjectConfigPath env gitContext.Project)
              { RemoteName := "origin", Force := true, ReferenceName := some head.name,
                Auth := gitContext.AuthMethod.GoGitAuth,
                InsecureSkipTLS := retrieveInsecureSkipTLS gitContext.Credentials }] },
        hg, ?_, ?_, ?_, ?_, ?_⟩
      · rw [← hv]
        cases hF : errorsIs first (Error.lib LibSentinel.plumbingErrReferenceNotFound) <;>
          cases first <;> cases retry <;>
          simp [Git.Pull, Git.ProjectExists, Git.ProjectRepoExists, hstat, hopen, hg, hH, hp1,
            hp2, hF] <;>
          split <;> simp
      · by_cases hF : errorsIs first (Error.lib LibSentinel.plumbingErrReferenceNotFound) = true
        · simp [hF, ht, hft, Call.isPull]
        · simp [hF, ht, hft, Call.isPull]
      · intro e1 h1
        cases h1
      · intro e1 _ h1
        cases h1
      · intro head1 first1 retry1 _ h1 hf hr
        cases h1
        rw [hp1] at hf hr
        simp only at hf hr
        rw [hp2] at hr
        simp only at hr
        subst hf
        subst hr
        constructor
        · by_cases hs : pullSucceeds first1 retry1 = true
          · simp [hs]
          · simp [hs]
        · intro hs
          simp [hs]

/-- C11 amended, on the executable store: the remote answers already-up-to-date. -/
theorem Pull_tolerates_and_retries_once_witness :
    ctx0.Credentials = some creds0 ∧
      simGit.osStat (simProject [upToDate]).lib (GetProjectConfigPath env0 ctx0.Project) = none ∧
      simGit.PlainOpen (simProject [upToDate]).lib (GetProjectConfigPath env0 ctx0.Project)
        = none ∧
      ∃ w2, Git.Pull simGit env0 ctx0 (simProject [upToDate]) = Outcome.ret none w2 ∧
        (w2.trace.filter Call.isPull).length ≤
          ((simProject [upToDate]).trace.filter Call.isPull).length + 2 := by
  refine ⟨rfl, by decide, by decide, ?_⟩
  obtain ⟨g, w1, res, w2, _, hP, hn, _⟩ :=
    Pull_tolerates_and_retries_once simGit env0 ctx0 creds0 (simProject [upToDate]) rfl
      (by decide) (by decide)
  have hres : (Git.Pull simGit env0 ctx0 (simProject [upToDate])).val? = some none := by decide
  rw [hP] at hres
  simp only [Outcome.val?, Option.some.injEq] at hres
  subst hres
  exact ⟨w2, hP, hn⟩

/-- C12, as stated, fails: with the zero value for credentials `Push` opens the
repository and contacts the remote, and the error it returns when the remote
refuses wraps the translated library failure, not `ErrCredentialsNotFound`. -/
theorem Push_zero_credentials_opens_and_pushes :
    ctxZeroCreds.Credentials = some GitCredentials.zero ∧
      (Git.Push simGit env0 ctxZeroCreds (simProject [refused])).val? =
        some (some (Error.wrap Fmt.ErrMsgCouldNotGitAction ["push", "p"]
          (Error.kerr KSentinel.ErrAuthorizationFailed))) ∧
      errorsIs (some (Error.wrap Fmt.ErrMsgCouldNotGitAction ["push", "p"]
          (Error.kerr KSentinel.ErrAuthorizationFailed)))
        (Error.kerr KSentinel.ErrCredentialsNotFound) = false ∧
      (Git.Push simGit env0 ctxZeroCreds (simProject [refused])).world?.map (fun w => w.trace) =
        some [Call.PlainOpen "/data/p", Call.Remote "/data/p" "origin",
          Call.DeleteRemote "/data/p" "origin",
          Call.CreateRemote "/data/p" { Name := "origin", URL0 := "", URLs := [] },
          Call.Worktree "/data/p",
          Call.Push "/data/p"
            { RemoteName := "origin", Auth := "t", Force := false, InsecureSkipTLS := false }] ∧
      (Git.Push simGit env0 ctxZeroCreds (simProject [refused])).world?.map
          (fun w => w.lib.net) = some [] := by
  decide

/-- C12, amended. For every context whose credentials are absent (nil), `Push`
returns a `CouldNotGitAction("push")` error wrapping `ErrCredentialsNotFound` in the
world it was called in: no call is made.  For every context with credentials, the
zero value included, `Push` obtains the worktree; if that fails the failure is
returned translated, and otherwise the library push is made once, a result of nil
or already-up-to-date makes `Push` return success and every other library failure
is returned translated inside `CouldNotGitAction("push")`. -/
theorem Push_spec {S : Type} (L : GoGit S) (env : Env) (gitContext : GitContext)
    (w : World S) :
    (gitContext.Credentials = none →
        Git.Push L env gitContext w =
          Outcome.ret (some (Error.wrap Fmt.ErrMsgCouldNotGitAction ["push", gitContext.Project]
            (Error.kerr KSentinel.ErrCredentialsNotFound))) w) ∧
      (∀ credentials e w1, gitContext.Credentials = some credentials →
        Git.getWorkTree L env gitContext w = Outcome.ret (some e) w1 →
        Git.Push L env gitContext w =
          Outcome.ret (some (fmtErrorf Fmt.ErrMsgCouldNotGitAction ["push", gitContext.Project]
            (mapError (some e)))) w1) ∧
      (∀ credentials w1 o, gitContext.Credentials = some credentials →
        Git.getWorkTree L env gitContext w = Outcome.ret none w1 →
        o = ({ RemoteName := "origin", Auth := gitContext.AuthMethod.GoGitAuth, Force := false,
               InsecureSkipTLS := retrieveInsecureSkipTLS gitContext.Credentials } : PushOptions) →
        Git.Push L env gitContext w =
          Outcome.ret
            (if (L.Push w1.lib (GetProjectConfigPath env gitContext.Project) o).1 = none ∨
                errorsIs (L.Push w1.lib (GetProjectConfigPath env gitContext.Project) o).1
                  (Error.lib LibSentinel.gitNoErrAlreadyUpToDate) = true
              then none
              else some (fmtErrorf Fmt.ErrMsgCouldNotGitAction ["push", gitContext.Project]
                (mapError (L.Push w1.lib (GetProjectConfigPath env gitContext.Project) o).1)))
            { lib := (L.Push w1.lib (GetProjectConfigPath env gitContext.Project) o).2,
              trace := w1.trace ++ [Call.Push (GetProjectConfigPath env gitContext.Project) o] }) := by
  refine ⟨?_, ?_, ?_⟩
  · intro hC
    simp [Git.Push, hC, fmtErrorf]
  · intro credentials e w1 hC hg
    simp [Git.Push, hC, hg]
  · intro credentials w1 o hC hg ho
    subst ho
    cases hp : (L.Push w1.lib (GetProjectConfigPath env gitContext.Project)
        { RemoteName := "origin", Auth := gitContext.AuthMethod.GoGitAuth, Force := false,
          InsecureSkipTLS := retrieveInsecureSkipTLS gitContext.Credentials }).1 with
    | none =>
      simp only [hC] at hp
      simp [Git.Push, hC, hg, hp]
    | some e =>
      simp only [hC] at hp
      by_cases hu : errorsIs (some e) (Error.lib LibSentinel.gitNoErrAlreadyUpToDate) = true
      · simp [Git.Push, hC, hg, hp, hu]
      · simp [Git.Push, hC, hg, hp, hu]

/-- C12 amended, on the executable store: with credentials and a remote that
answers already-up-to-date, `Push` returns success. -/
theorem Push_spec_witness :
    ctx0.Credentials = some creds0 ∧
      Git.getWorkTree simGit env0 ctx0 (simProject [upToDate]) =
        Outcome.ret none
          { lib := (simProject [upToDate]).lib,
            trace := [Call.PlainOpen "/data/p", Call.Remote "/data/p" "origin",
              Call.Worktree "/data/p"] } ∧
      (Git.Push simGit env0 ctx0 (simProject [upToDate])).val? = some none := by
  refine ⟨rfl, by rfl, ?_⟩
  rw [(Push_spec simGit env0 ctx0 (simProject [upToDate])).2.2 creds0 _ _ rfl (by rfl) rfl]
  decide

/-! ## Reading a file at a revision -/

/-- An error made by the library matches no `kerrors` sentinel. -/
theorem Error.is_kerr_of_isLibrary (e : Error) (k : KSentinel) (h : e.isLibrary = true) :
    e.is (Error.kerr k) = false := by
  induction e with
  | lib x => simp [Error.is]
  | kerr x => simp [Error.isLibrary] at h
  | other msg => simp [Error.is]
  | wrap f args inner ih =>
    simp only [Error.isLibrary] at h
    simp [Error.is, ih h]
  | wrapNil f args => simp [Error.is]

/-- C13. When the project opens as a repository and `resolve` may recurse twice:
if the revision resolves to a commit whose tree answers file-not-found for the
path, `GetFileRevision` fails with a `CouldNotGitAction` error wrapping
`ErrResourceNotFound`; if the revision does not resolve, it fails with an error
wrapping the library's failure, which does not wrap `ErrResourceNotFound` (nor does
the error returned for a nil hash); and if the tree has the file it returns what
`ioutil.ReadAll` reads from the reader of the file's blob. -/
theorem GetFileRevision_spec {S : Type} (L : GoGit S) (O : GoGitObjects S) (env : Env)
    (gitContext : GitContext) (revision file : String) (s : S) (fuel : Nat)
    (hfuel : 2 ≤ fuel)
    (hopen : L.PlainOpen s (GetProjectConfigPath env gitContext.Project) = none) :
    (∀ h c t e,
        L.ResolveRevision s (GetProjectConfigPath env gitContext.Project) revision
          = Except.ok (some h) →
        O.Object s (GetProjectConfigPath env gitContext.Project) h = (some (Obj.Commit c), none) →
        O.CommitTree s (GetProjectConfigPath env gitContext.Project) c = Except.ok t →
        O.TreeFile s (GetProjectConfigPath env gitContext.Project) t file = Except.error e →
        e.is (Error.lib LibSentinel.objectErrFileNotFound) = true →
        Git.GetFileRevision L env O fuel gitContext revision file s =
            some ("", some (Error.wrap Fmt.ErrMsgCouldNotGitAction
              ["retrieve revision in ", gitContext.Project]
              (Error.kerr KSentinel.ErrResourceNotFound))) ∧
          errorsIs (some (Error.wrap Fmt.ErrMsgCouldNotGitAction
              ["retrieve revision in ", gitContext.Project]
              (Error.kerr KSentinel.ErrResourceNotFound)))
            (Error.kerr KSentinel.ErrResourceNotFound) = true) ∧
      (∀ e,
        L.ResolveRevision s (GetProjectConfigPath env gitContext.Project) revision
          = Except.error e →
        Git.GetFileRevision L env O fuel gitContext revision file s =
            some ("", some (Error.wrap Fmt.ErrMsgCouldNotGitAction
              ["retrieve revision in ", gitContext.Project] e)) ∧
          (e.isLibrary = true →
            errorsIs (some (Error.wrap Fmt.ErrMsgCouldNotGitAction
                ["retrieve revision in ", gitContext.Project] e))
              (Error.kerr KSentinel.ErrResourceNotFound) = false)) ∧
      (L.ResolveRevision s (GetProjectConfigPath env gitContext.Project) revision
          = Except.ok none →
        Git.GetFileRevision L env O fuel gitContext revision file s =
            some ("", some (Error.wrap Fmt.ErrMsgCouldNotGitAction
              ["open", gitContext.Project] (Error.kerr KSentinel.ErrResolvedNilHash))) ∧
          errorsIs (some (Error.wrap Fmt.ErrMsgCouldNotGitAction
              ["open", gitContext.Project] (Error.kerr KSentinel.ErrResolvedNilHash)))
            (Error.kerr KSentinel.ErrResourceNotFound) = false) ∧
      (∀ h c t blob re,
        L.ResolveRevision s (GetProjectConfigPath env gitContext.Project) revision
          = Except.ok (some h) →
        O.Object s (GetProjectConfigPath env gitContext.Project) h = (some (Obj.Commit c), none) →
        O.CommitTree s (GetProjectConfigPath env gitContext.Project) c = Except.ok t →
        O.TreeFile s (GetProjectConfigPath env gitContext.Project) t file = Except.ok blob →
        O.BlobReader s (GetProjectConfigPath env gitContext.Project) blob = Except.ok re →
        Git.GetFileRevision L env O fuel gitContext revision file s =
          some (O.ReadAll s (GetProjectConfigPath env gitContext.Project) re)) := by
  obtain ⟨n, rfl⟩ : ∃ n, fuel = n + 2 := ⟨fuel - 2, by omega⟩
  refine ⟨?_, ?_, ?_, ?_⟩
  · intro h c t e hr ho hc ht he
    refine ⟨?_, by simp [errorsIs, Error.is]⟩
    simp [Git.GetFileRevision, Git.resolve, hopen, hr, ho, hc, ht, errorsIs, he, fmtErrorf]
  · intro e hr
    refine ⟨by simp [Git.GetFileRevision, hopen, hr, fmtErrorf], ?_⟩
    intro hl
    simp [errorsIs, Error.is, Error.is_kerr_of_isLibrary e _ hl]
  · intro hr
    refine ⟨by simp [Git.GetFileRevision, hopen, hr, fmtErrorf], by simp [errorsIs, Error.is]⟩
  · intro h c t blob re hr ho hc ht hb
    simp [Git.GetFileRevision, Git.resolve, hopen, hr, ho, hc, ht, hb]

/-- C13, on the executable store: at `HEAD` of a repository whose tree holds
`metadata.yaml`, a missing path, the file, and a revision that does not resolve. -/
theorem GetFileRevision_spec_witness :
    2 ≤ 2 ∧ simGit.PlainOpen simFiles (GetProjectConfigPath env0 ctx0.Project) = none ∧
      Git.GetFileRevision simGit env0 simObjects 2 ctx0 "HEAD" "missing.yaml" simFiles =
        some ("", some (Error.wrap Fmt.ErrMsgCouldNotGitAction ["retrieve revision in ", "p"]
          (Error.kerr KSentinel.ErrResourceNotFound))) ∧
      Git.GetFileRevision simGit env0 simObjects 2 ctx0 "HEAD" "metadata.yaml" simFiles =
        some ("k: v", none) ∧
      Git.GetFileRevision simGit env0 simObjects 2 ctx0 "nowhere" "metadata.yaml" simFiles =
        some ("", some (Error.wrap Fmt.ErrMsgCouldNotGitAction ["retrieve revision in ", "p"]
          (Error.lib LibSentinel.plumbingErrReferenceNotFound))) :=
  ⟨by decide, by rfl,
    ((GetFileRevision_spec simGit simObjects env0 ctx0 "HEAD" "missing.yaml" simFiles 2
      (by decide) (by rfl)).1 { hex := "a1" } { hex := "a1" } { hex := "a1" }
      (Error.lib LibSentinel.objectErrFileNotFound) (by rfl) (by rfl) (by rfl)
      (by rfl) (by decide)).1,
    (GetFileRevision_spec simGit simObjects env0 ctx0 "HEAD" "metadata.yaml" simFiles 2
      (by decide) (by rfl)).2.2.2 { hex := "a1" } { hex := "a1" } { hex := "a1" }
      { hex := "b1" } { blob := { hex := "b1" } } (by rfl) (by rfl) (by rfl)
      (by rfl) (by rfl),
    ((GetFileRevision_spec simGit simObjects env0 ctx0 "nowhere" "metadata.yaml" simFiles 2
      (by decide) (by rfl)).2.1 (Error.lib LibSentinel.plumbingErrReferenceNotFound)
      (by rfl)).1⟩

/-! ## The origin remote -/

/-- On the executable store, after a successful `ensureRemoteMatchesCredentials` the
first URL of `origin` is the credential URL. -/
theorem simGit_ensureRemoteMatchesCredentials_ok (repo : String) (gitContext : GitContext)
    (credentials : GitCredentials) (hC : gitContext.Credentials = some credentials)
    (w w1 : World Sim)
    (h : ensureRemoteMatchesCredentials simGit repo gitContext w = Outcome.ret none w1) :
    ∃ rc, simGit.Remote w1.lib repo "origin" = Except.ok rc ∧
      rc.URL0 = credentials.RemoteURL := by
  cases hr : assocGet repo w.lib.repos with
  | none => simp [ensureRemoteMatchesCredentials, simGit, hr] at h
  | some r =>
    cases ho : assocGet "origin" r.remotes with
    | none => simp [ensureRemoteMatchesCredentials, simGit, hr, ho] at h
    | some rc =>
      by_cases hU : rc.URL0 = credentials.RemoteURL
      · simp [ensureRemoteMatchesCredentials, simGit, hr, ho, hC, hU] at h
        subst h
        exact ⟨rc, by simp [simGit, hr, ho], hU⟩
      · simp [ensureRemoteMatchesCredentials, simGit, hr, ho, hC, hU,
          update_of_some _ _ _ _ hr, Sim.update] at h
        subst h
        refine ⟨originAt credentials.RemoteURL, ?_, rfl⟩
        simp [simGit, SimRepo.addRemote, originAt, assocGet_assocSet_self]

/-- On the executable store, after a successful `getWorkTree` the first URL of
`origin` is the credential URL. -/
theorem simGit_getWorkTree_origin (env : Env) (gitContext : GitContext)
    (credentials : GitCredentials) (hC : gitContext.Credentials = some credentials)
    (w w1 : World Sim)
    (h : Git.getWorkTree simGit env gitContext w = Outcome.ret none w1) :
    ∃ rc, simGit.Remote w1.lib (GetProjectConfigPath env gitContext.Project) "origin"
        = Except.ok rc ∧
      rc.URL0 = credentials.RemoteURL := by
  cases hO : simGit.PlainOpen w.lib (GetProjectConfigPath env gitContext.Project) with
  | some err => simp [Git.getWorkTree, hO] at h
  | none =>
    cases hE : ensureRemoteMatchesCredentials simGit
        (GetProjectConfigPath env gitContext.Project) gitContext
        { lib := w.lib, trace := w.trace ++
          [Call.PlainOpen (GetProjectConfigPath env gitContext.Project)] } with
    | panicked msg => simp [Git.getWorkTree, hO, hE] at h
    | ret e2 w2 =>
      cases e2 with
      | some err => simp [Git.getWorkTree, hO, hE] at h
      | none =>
        obtain ⟨rc, hrc, hu⟩ :=
          simGit_ensureRemoteMatchesCredentials_ok _ gitContext credentials hC _ _ hE
        cases hW : simGit.Worktree w2.lib (GetProjectConfigPath env gitContext.Project) with
        | some err => simp [Git.getWorkTree, hO, hE, hW] at h
        | none =>
          simp [Git.getWorkTree, hO, hE, hW] at h
          subst h
          exact ⟨rc, hrc, hu⟩

/-- C16. For a context with credentials.  Whatever the library, when the repository
has an `origin` remote: if its first URL equals the credential URL,
`ensureRemoteMatchesCredentials` returns without error after reading the remote
only, the store untouched (no delete, no create); if it differs, a return without
error means that `origin` was deleted and then created with exactly the credential
URL, and nothing else was done.  On the executable store, after every return
without error of `ensureRemoteMatchesCredentials`, and after every successful
`getWorkTree`, the first URL of `origin` equals the credential URL. -/
theorem ensureRemoteMatchesCredentials_spec (gitContext : GitContext)
    (credentials : GitCredentials) (hC : gitContext.Credentials = some credentials) :
    (∀ (S : Type) (L : GoGit S) (repo : String) (w : World S) (remote : RemoteConfig),
        L.Remote w.lib repo "origin" = Except.ok remote →
        remote.URL0 = credentials.RemoteURL →
        ensureRemoteMatchesCredentials L repo gitContext w =
          Outcome.ret none { lib := w.lib, trace := w.trace ++ [Call.Remote repo "origin"] }) ∧
      (∀ (S : Type) (L : GoGit S) (repo : String) (w w1 : World S) (remote : RemoteConfig),
        L.Remote w.lib repo "origin" = Except.ok remote →
        remote.URL0 ≠ credentials.RemoteURL →
        ensureRemoteMatchesCredentials L repo gitContext w = Outcome.ret none w1 →
        (L.DeleteRemote w.lib repo "origin").1 = none ∧
          (L.CreateRemote (L.DeleteRemote w.lib repo "origin").2 repo
            (originAt credentials.RemoteURL)).1 = none ∧
          w1 = { lib := (L.CreateRemote (L.DeleteRemote w.lib repo "origin").2 repo
                   (originAt credentials.RemoteURL)).2,
                 trace := w.trace ++ [Call.Remote repo "origin", Call.DeleteRemote repo "origin",
                   Call.CreateRemote repo (originAt credentials.RemoteURL)] }) ∧
      (∀ (repo : String) (w w1 : World Sim),
        ensureRemoteMatchesCredentials simGit repo gitContext w = Outcome.ret none w1 →
        ∃ rc, simGit.Remote w1.lib repo "origin" = Except.ok rc ∧
          rc.URL0 = credentials.RemoteURL) ∧
      (∀ (env : Env) (w w1 : World Sim),
        Git.getWorkTree simGit env gitContext w = Outcome.ret none w1 →
        ∃ rc, simGit.Remote w1.lib (GetProjectConfigPath env gitContext.Project) "origin"
            = Except.ok rc ∧
          rc.URL0 = credentials.RemoteURL) := by
  refine ⟨?_, ?_, ?_, ?_⟩
  · intro S L repo w remote hR hU
    simp [ensureRemoteMatchesCredentials, hR, hC, hU]
  · intro S L repo w w1 remote hR hU h
    simp only [originAt]
    cases hD : (L.DeleteRemote w.lib repo "origin").1 with
    | some e => simp [ensureRemoteMatchesCredentials, hR, hC, hU, hD] at h
    | none =>
      cases hK : (L.CreateRemote (L.DeleteRemote w.lib repo "origin").2 repo
          { Name := "origin", URL0 := credentials.RemoteURL, URLs := [] }).1 with
      | some e => simp [ensureRemoteMatchesCredentials, hR, hC, hU, hD, hK] at h
      | none =>
        simp [ensureRemoteMatchesCredentials, hR, hC, hU, hD, hK] at h
        subst h
        exact ⟨rfl, rfl, rfl⟩
  · intro repo w w1 h
    exact simGit_ensureRemoteMatchesCredentials_ok repo gitContext credentials hC w w1 h
  · intro env w w1 h
    exact simGit_getWorkTree_origin env gitContext credentials hC w w1 h

/-- C16, on the executable store: the repository's `origin` is at `https://git/p`,
the credentials name `https://git/q`; after `getWorkTree` the remote is at the
credential URL. -/
theorem ensureRemoteMatchesCredentials_spec_witness :
    ctxNew.Credentials = some credsNew ∧
      simGit.Remote (simProject []).lib "/data/p" "origin" = Except.ok (originAt "https://git/p") ∧
      Git.getWorkTree simGit env0 ctxNew (simProject []) =
        Outcome.ret none ((Git.getWorkTree simGit env0 ctxNew (simProject [])).worldOr
          (simProject [])) ∧
      ∃ rc, simGit.Remote ((Git.getWorkTree simGit env0 ctxNew (simProject [])).worldOr
            (simProject [])).lib (GetProjectConfigPath env0 ctxNew.Project) "origin"
          = Except.ok rc ∧
        rc.URL0 = credsNew.RemoteURL :=
  ⟨rfl, by rfl, by rfl,
    (ensureRemoteMatchesCredentials_spec ctxNew credsNew rfl).2.2.2 env0 (simProject [])
      ((Git.getWorkTree simGit env0 ctxNew (simProject [])).worldOr (simProject [])) (by rfl)⟩

/-! ## Clone failures and the init subprotocol -/

section Init

variable {S : Type} (L : GoGit S) (env : Env)

/-- A returning run of a bind is a returning run of its two parts. -/
theorem bind_ret_inv {W α β : Type} (m : Prog W α) (f : α → Prog W β) (w w1 : W) (b : β)
    (h : (m >>= f) w = Outcome.ret b w1) :
    ∃ a w2, m w = Outcome.ret a w2 ∧ f a w2 = Outcome.ret b w1 := by
  simp only [bind_eq] at h
  cases hm : m w with
  | panicked msg => simp [hm] at h
  | ret a w2 => exact ⟨a, w2, rfl, by simpa [hm] using h⟩

/-- A returning run that starts with a library call goes on in a world whose trace
has that call appended. -/
theorem act_bind_inv {α β : Type} (c : Call) (f : S → α × S) (k : α → Prog (World S) β)
    (w w1 : World S) (b : β) (h : (act c f >>= k) w = Outcome.ret b w1) :
    ∃ a w2, w2.trace = w.trace ++ [c] ∧ k a w2 = Outcome.ret b w1 :=
  ⟨_, _, rfl, h⟩

/-- The same for an inspection. -/
theorem ask_bind_inv {α β : Type} (c : Call) (f : S → α) (k : α → Prog (World S) β)
    (w w1 : World S) (b : β) (h : (ask c f >>= k) w = Outcome.ret b w1) :
    ∃ a w2, w2.trace = w.trace ++ [c] ∧ k a w2 = Outcome.ret b w1 :=
  ⟨_, _, rfl, h⟩

/-- A successful `Git.Push` obtained the worktree and made the library push. -/
theorem Push_ok_inv (gitContext : GitContext) (w w1 : World S)
    (h : Git.Push L env gitContext w = Outcome.ret none w1) :
    ∃ wq, Git.getWorkTree L env gitContext w = Outcome.ret none wq ∧
      w1 = { lib := (L.Push wq.lib (GetProjectConfigPath env gitContext.Project)
               { RemoteName := "origin", Auth := gitContext.AuthMethod.GoGitAuth, Force := false,
                 InsecureSkipTLS := retrieveInsecureSkipTLS gitContext.Credentials }).2,
             trace := wq.trace ++ [Call.Push (GetProjectConfigPath env gitContext.Project)
               { RemoteName := "origin", Auth := gitContext.AuthMethod.GoGitAuth, Force := false,
                 InsecureSkipTLS := retrieveInsecureSkipTLS gitContext.Credentials }] } := by
  cases hC : gitContext.Credentials with
  | none => simp [Git.Push, hC, fmtErrorf] at h
  | some credentials =>
    cases hg : Git.getWorkTree L env gitContext w with
    | panicked msg => simp [Git.Push, hC, hg] at h
    | ret g wq =>
      cases g with
      | some e => simp [Git.Push, hC, hg, fmtErrorf] at h
      | none =>
        refine ⟨wq, rfl, ?_⟩
        cases hp : (L.Push wq.lib (GetProjectConfigPath env gitContext.Project)
            { RemoteName := "origin", Auth := gitContext.AuthMethod.GoGitAuth, Force := false,
              InsecureSkipTLS := retrieveInsecureSkipTLS (some credentials) }).1 with
        | none =>
          simp [Git.Push, hC, hg, hp] at h
          exact h.symm
        | some e =>
          by_cases hu : errorsIs (some e) (Error.lib LibSentinel.gitNoErrAlreadyUpToDate) = true
          · simp [Git.Push, hC, hg, hp, hu] at h
            exact h.symm
          · simp [Git.Push, hC, hg, hp, hu, fmtErrorf] at h

/-- A successful `initSeed` made the seed calls and then a successful `Push`. -/
theorem initSeed_ok_inv (gitContext : GitContext) (projectPath : String) (w w1 : World S)
    (h : Git.initSeed L env gitContext projectPath w = Outcome.ret none w1) :
    ∃ wp, wp.trace = w.trace ++ seedCalls env projectPath ∧
      Git.Push L env gitContext wp = Outcome.ret none w1 := by
  unfold Git.initSeed at h
  dsimp only at h
  obtain ⟨a1, u1, t1, h⟩ := act_bind_inv _ _ _ _ _ _ h
  cases a1 with
  | some e => simp at h
  | none =>
  dsimp only at h
  obtain ⟨a2, u2, t2, h⟩ := act_bind_inv _ _ _ _ _ _ h
  cases a2 with
  | some e => simp at h
  | none =>
  dsimp only at h
  obtain ⟨a3, u3, t3, h⟩ := act_bind_inv _ _ _ _ _ _ h
  cases a3 with
  | some e => simp at h
  | none =>
  dsimp only at h
  obtain ⟨a4, u4, t4, h⟩ := act_bind_inv _ _ _ _ _ _ h
  obtain ⟨a5, u5, t5, h⟩ := ask_bind_inv _ _ _ _ _ _ h
  cases a5 with
  | some e => simp at h
  | none =>
  dsimp only at h
  obtain ⟨a6, u6, t6, h⟩ := act_bind_inv _ _ _ _ _ _ h
  obtain ⟨a7, u7, t7, h⟩ := act_bind_inv _ _ _ _ _ _ h
  cases h7 : a7.2 with
  | some e => simp [h7] at h
  | none =>
  simp only [h7] at h
  obtain ⟨a8, u8, hP, h⟩ := bind_ret_inv _ _ _ _ _ h
  cases a8 with
  | some e => simp at h
  | none =>
  simp at h
  subst h
  refine ⟨u7, ?_, hP⟩
  rw [t7, t6, t5, t4, t3, t2, t1]
  simp [seedCalls]

/-- The calls of `rewriteDefaultBranch` on the HEAD file are calls of the prelude of
`Git.init`. -/
theorem rewriteDefaultBranch_prelude (projectPath url : String) (w w1 : World S)
    (a : Option Error)
    (h : Git.rewriteDefaultBranch L env (projectPath ++ gitHeadFilePath) w = Outcome.ret a w1) :
    ∃ t, w1.trace = w.trace ++ t ∧ ∀ c ∈ t, c.isInitPrelude projectPath url = true := by
  unfold Git.rewriteDefaultBranch at h
  dsimp only at h
  by_cases hd : env.defaultBranchFromEnv = env.GitInitDefaultBranchName
  · simp [hd] at h
    exact ⟨[], by simp [← h.2], by simp⟩
  · simp only [ne_eq, hd, not_false_eq_true, if_true] at h
    obtain ⟨a1, u1, t1, h⟩ := ask_bind_inv _ _ _ _ _ _ h
    cases a1 with
    | error e =>
      simp at h
      exact ⟨[Call.ReadFile (projectPath ++ gitHeadFilePath)], by rw [← h.2, t1],
        by simp [Call.isInitPrelude]⟩
    | ok input =>
      dsimp only at h
      obtain ⟨a2, u2, t2, h⟩ := act_bind_inv _ _ _ _ _ _ h
      refine ⟨[Call.ReadFile (projectPath ++ gitHeadFilePath),
        Call.WriteFile (projectPath ++ gitHeadFilePath)
          (bytesReplace input env.GitInitDefaultBranchName env.defaultBranchFromEnv)], ?_,
        by simp [Call.isInitPrelude]⟩
      cases a2 <;> simp at h <;> rw [← h.2, t2, t1] <;> simp

/-- A successful `initRemote` made calls of the prelude and then a successful
`initSeed`. -/
theorem initRemote_ok_inv (gitContext : GitContext) (credentials : GitCredentials)
    (hC : gitContext.Credentials = some credentials) (projectPath : String) (w w1 : World S)
    (h : Git.initRemote L env gitContext projectPath w = Outcome.ret none w1) :
    ∃ ws tA, ws.trace = w.trace ++ tA ∧
      Call.Remote projectPath "origin" ∈ tA ∧
      (∀ c ∈ tA, c.isInitPrelude projectPath credentials.RemoteURL = true) ∧
      Git.initSeed L env gitContext projectPath ws = Outcome.ret none w1 := by
  unfold Git.initRemote at h
  obtain ⟨a1, u1, hrw, h⟩ := bind_ret_inv _ _ _ _ _ h
  obtain ⟨t1, ht1, hall1⟩ :=
    rewriteDefaultBranch_prelude L env projectPath credentials.RemoteURL _ _ _ hrw
  cases a1 with
  | some e => simp at h
  | none =>
    dsimp only at h
    obtain ⟨a2, u2, t2, h⟩ := ask_bind_inv _ _ _ _ _ _ h
    have hcreate : (do
          let err ← act (Call.CreateRemote projectPath
              { Name := "origin", URL0 := credentials.RemoteURL, URLs := [] })
            (fun s => L.CreateRemote s projectPath
              { Name := "origin", URL0 := credentials.RemoteURL, URLs := [] })
          match err with
          | some e => pure (some e)
          | none => Git.initSeed L env gitContext projectPath) u2 = Outcome.ret none w1 →
        ∃ ws tA, ws.trace = w.trace ++ tA ∧
          Call.Remote projectPath "origin" ∈ tA ∧
          (∀ c ∈ tA, c.isInitPrelude projectPath credentials.RemoteURL = true) ∧
          Git.initSeed L env gitContext projectPath ws = Outcome.ret none w1 := by
      intro h
      obtain ⟨a3, u3, t3, h⟩ := act_bind_inv _ _ _ _ _ _ h
      cases a3 with
      | some e => simp at h
      | none =>
        dsimp only at h
        refine ⟨u3, t1 ++ [Call.Remote projectPath "origin",
          Call.CreateRemote projectPath (originAt credentials.RemoteURL)], ?_, by simp, ?_, h⟩
        · rw [t3, t2, ht1]
          simp [originAt]
        · intro c hc
          rcases List.mem_append.1 hc with hc | hc
          · exact hall1 c hc
          · simp at hc
            rcases hc with rfl | rfl <;> simp [Call.isInitPrelude]
    have hkeep : Git.initSeed L env gitContext projectPath u2 = Outcome.ret none w1 →
        ∃ ws tA, ws.trace = w.trace ++ tA ∧
          Call.Remote projectPath "origin" ∈ tA ∧
          (∀ c ∈ tA, c.isInitPrelude projectPath credentials.RemoteURL = true) ∧
          Git.initSeed L env gitContext projectPath ws = Outcome.ret none w1 := by
      intro h
      refine ⟨u2, t1 ++ [Call.Remote projectPath "origin"], ?_, by simp, ?_, h⟩
      · rw [t2, ht1]
        simp
      · intro c hc
        rcases List.mem_append.1 hc with hc | hc
        · exact hall1 c hc
        · simp at hc
          subst hc
          simp [Call.isInitPrelude]
    cases a2 with
    | ok rc =>
      simp only [errorsIs, Bool.false_eq_true, if_false] at h
      exact hkeep h
    | error e0 =>
      by_cases hnf : errorsIs (some e0) (Error.lib LibSentinel.gitErrRemoteNotFound) = true
      · simp only [hnf, if_true, hC] at h
        exact hcreate h
      · simp only [hnf, Bool.false_eq_true, if_false] at h
        exact hkeep h

/-- A successful `Git.init` initialised the repository, made calls of the prelude,
the seed calls, calls of `getWorkTree`, and the library push. -/
theorem init_ok_inv (gitContext : GitContext) (credentials : GitCredentials)
    (hC : gitContext.Credentials = some credentials) (projectPath : String) (w w1 : World S)
    (h : Git.init L env gitContext projectPath w = Outcome.ret none w1) :
    ∃ tA tW wq, w1.trace = w.trace ++ (Call.PlainInit projectPath :: tA)
        ++ seedCalls env projectPath ++ tW
        ++ [Call.Push (GetProjectConfigPath env gitContext.Project)
          { RemoteName := "origin", Auth := gitContext.AuthMethod.GoGitAuth, Force := false,
            InsecureSkipTLS := retrieveInsecureSkipTLS gitContext.Credentials }] ∧
      Call.Remote projectPath "origin" ∈ tA ∧
      (∀ c ∈ tA, c.isInitPrelude projectPath credentials.RemoteURL = true) ∧
      (∀ c ∈ tW, c.isWorkTreeCall = true) ∧
      (∃ wp, Git.getWorkTree L env gitContext wp = Outcome.ret none wq) ∧
      w1.lib = (L.Push wq.lib (GetProjectConfigPath env gitContext.Project)
        { RemoteName := "origin", Auth := gitContext.AuthMethod.GoGitAuth, Force := false,
          InsecureSkipTLS := retrieveInsecureSkipTLS gitContext.Credentials }).2 := by
  have key : ∀ (wi : World S) (t0 : List Call), wi.trace = w.trace ++ Call.PlainInit projectPath :: t0 →
      (∀ c ∈ t0, c.isInitPrelude projectPath credentials.RemoteURL = true) →
      Git.initRemote L env gitContext projectPath wi = Outcome.ret none w1 →
      ∃ tA tW wq, w1.trace = w.trace ++ (Call.PlainInit projectPath :: tA)
        ++ seedCalls env projectPath ++ tW
        ++ [Call.Push (GetProjectConfigPath env gitContext.Project)
          { RemoteName := "origin", Auth := gitContext.AuthMethod.GoGitAuth, Force := false,
            InsecureSkipTLS := retrieveInsecureSkipTLS gitContext.Credentials }] ∧
      Call.Remote projectPath "origin" ∈ tA ∧
      (∀ c ∈ tA, c.isInitPrelude projectPath credentials.RemoteURL = true) ∧
      (∀ c ∈ tW, c.isWorkTreeCall = true) ∧
      (∃ wp, Git.getWorkTree L env gitContext wp = Outcome.ret none wq) ∧
      w1.lib = (L.Push wq.lib (GetProjectConfigPath env gitContext.Project)
        { RemoteName := "origin", Auth := gitContext.AuthMethod.GoGitAuth, Force := false,
          InsecureSkipTLS := retrieveInsecureSkipTLS gitContext.Credentials }).2 := by
    intro wi t0 hwi h0 hi
    obtain ⟨ws, tA, hws, hmem, hA, hseed⟩ :=
      initRemote_ok_inv L env gitContext credentials hC _ _ _ hi
    obtain ⟨wp, hwp, hpush⟩ := initSeed_ok_inv L env gitContext _ _ _ hseed
    obtain ⟨wq, hg, hw1⟩ := Push_ok_inv L env gitContext _ _ hpush
    obtain ⟨tW, htW, hW⟩ := getWorkTree_calls L env gitContext _ _ _ hg
    refine ⟨t0 ++ tA, tW, wq, ?_, List.mem_append.2 (Or.inr hmem), ?_, hW, ⟨wp, hg⟩, ?_⟩
    · rw [hw1]
      simp only
      rw [htW, hwp, hws, hwi]
      simp
    · intro c hc
      rcases List.mem_append.1 hc with hc | hc
      · exact h0 c hc
      · exact hA c hc
    · rw [hw1]
  unfold Git.init at h
  obtain ⟨a1, u1, t1, h⟩ := act_bind_inv _ _ _ _ _ _ h
  cases a1 with
  | none =>
    dsimp only at h
    exact key u1 [] (by rw [t1]) (by simp) h
  | some e =>
    dsimp only at h
    by_cases hx : errorsIs (some e) (Error.lib LibSentinel.gitErrRepositoryAlreadyExists) = true
    · simp only [hx, if_true] at h
      obtain ⟨a2, u2, t2, h⟩ := ask_bind_inv _ _ _ _ _ _ h
      cases a2 with
      | some e1 => simp at h
      | none =>
        dsimp only at h
        exact key u2 [Call.PlainOpen projectPath] (by rw [t2, t1]; simp)
          (by simp [Call.isInitPrelude]) h
    · simp [hx] at h

end Init


/-- `ProjectRepoExists` neither initialises a repository nor commits nor pushes. -/
theorem ProjectRepoExists_inspects {S : Type} (L : GoGit S) (env : Env) (project : String) :
    Emits (fun c => !c.isInitCommitPush) (Git.ProjectRepoExists L env project) := by
  unfold Git.ProjectRepoExists
  repeat (first
    | exact emits_pure _ _
    | exact emits_goPanic _ _
    | exact emits_ask _ _ _ rfl
    | exact emits_act _ _ _ rfl
    | refine emits_bind _ _ _ ?_ (fun _ => ?_)
    | split
    | dsimp only)

/-- A transfer leaves the repositories on disk as they are. -/
theorem transfer_repos (s : Sim) : s.transfer.2.repos = s.repos := by
  unfold Sim.transfer
  cases s.net <;> rfl

/-- On the executable store a push leaves the remotes as they are. -/
theorem simGit_Push_Remote (s : Sim) (repo : String) (o : PushOptions) (name : String) :
    simGit.Remote (simGit.Push s repo o).2 repo name = simGit.Remote s repo name := by
  show simGit.Remote (s.receive repo).2 repo name = simGit.Remote s repo name
  cases hr : assocGet repo s.repos with
  | none => simp [Sim.receive, hr]
  | some r =>
    have hr2 : assocGet repo s.transfer.2.repos = some r := by rw [transfer_repos, hr]
    cases he : s.transfer.1.err with
    | some e => simp [Sim.receive, hr, he, simGit, hr2]
    | none => simp [Sim.receive, hr, he, simGit, update_of_some _ _ _ _ hr2]

/-- Clone failures.  For a context with non-empty credentials and no local
repository, when the directory is there and the library clone fails with `e`.  If
`e` is not the empty-remote-repository failure, `CloneRepo` returns false with a
`CouldNotGitAction("clone")` error wrapping the translated failure, and none of the
calls it made initialises a repository, commits or pushes.  If `e` is the
empty-remote-repository failure, `CloneRepo` runs `init`: a failure of `init` is
returned wrapped in `CouldNotGitAction("init")`, and after a success `CloneRepo`
goes on to configure the clone; a successful `init` has made the call that
initialises the repository, looked up `origin` and asked for no remote but `origin`
at the credential URL, then made the calls `seedCalls`, among them the commit with
the message "init git empty repo", and the push.  On the executable store, after a
successful `init` the remote `origin` is at the credential URL. -/
theorem CloneRepo_clone_failure (gitContext : GitContext) (credentials : GitCredentials)
    (hC : gitContext.Credentials = some credentials)
    (hz : credentials ≠ GitCredentials.zero) :
    (∀ (S : Type) (L : GoGit S) (env : Env) (w w0 wc : World S) (e : Error),
        Git.ProjectRepoExists L env gitContext.Project w = Outcome.ret false w0 →
        (L.ensureDirectoryExists w0.lib (GetProjectConfigPath env gitContext.Project)).1 = none →
        (L.PlainClone
          (L.ensureDirectoryExists w0.lib (GetProjectConfigPath env gitContext.Project)).2
          (GetProjectConfigPath env gitContext.Project)
          { URL := credentials.RemoteURL, Auth := gitContext.AuthMethod.GoGitAuth,
            InsecureSkipTLS := retrieveInsecureSkipTLS gitContext.Credentials }).1 = some e →
        wc = { lib := (L.PlainClone
                 (L.ensureDirectoryExists w0.lib (GetProjectConfigPath env gitContext.Project)).2
                 (GetProjectConfigPath env gitContext.Project)
                 { URL := credentials.RemoteURL, Auth := gitContext.AuthMethod.GoGitAuth,
                   InsecureSkipTLS := retrieveInsecureSkipTLS gitContext.Credentials }).2,
               trace := w0.trace ++
                 [Call.ensureDirectoryExists (GetProjectConfigPath env gitContext.Project),
                  Call.PlainClone (GetProjectConfigPath env gitContext.Project)
                    { URL := credentials.RemoteURL, Auth := gitContext.AuthMethod.GoGitAuth,
                      InsecureSkipTLS := retrieveInsecureSkipTLS gitContext.Credentials }] } →
        (ErrEmptyRemoteRepository_Is e = false →
          Git.CloneRepo L env gitContext w =
              Outcome.ret (false, some (fmtErrorf Fmt.ErrMsgCouldNotGitAction
                ["clone", gitContext.Project] (mapError (some e)))) wc ∧
            ∃ t, wc.trace = w.trace ++ t ∧ ∀ c ∈ t, c.isInitCommitPush = false) ∧
        (ErrEmptyRemoteRepository_Is e = true →
          (∀ e1 w3,
            Git.init L env gitContext (GetProjectConfigPath env gitContext.Project) wc
              = Outcome.ret (some e1) w3 →
            Git.CloneRepo L env gitContext w =
              Outcome.ret (false, some (fmtErrorf Fmt.ErrMsgCouldNotGitAction
                ["init", gitContext.Project] (mapError (some e1)))) w3) ∧
          (∀ w3,
            Git.init L env gitContext (GetProjectConfigPath env gitContext.Project) wc
              = Outcome.ret none w3 →
            Git.CloneRepo L env gitContext w =
                Git.cloneFinish L env gitContext (GetProjectConfigPath env gitContext.Project) w3 ∧
              ∃ tA tW, w3.trace = wc.trace
                  ++ (Call.PlainInit (GetProjectConfigPath env gitContext.Project) :: tA)
                  ++ seedCalls env (GetProjectConfigPath env gitContext.Project) ++ tW
                  ++ [Call.Push (GetProjectConfigPath env gitContext.Project)
                    { RemoteName := "origin", Auth := gitContext.AuthMethod.GoGitAuth,
                      Force := false,
                      InsecureSkipTLS := retrieveInsecureSkipTLS gitContext.Credentials }] ∧
                Call.Remote (GetProjectConfigPath env gitContext.Project) "origin" ∈ tA ∧
                (∀ c ∈ tA, c.isInitPrelude (GetProjectConfigPath env gitContext.Project)
                  credentials.RemoteURL = true) ∧
                (∀ c ∈ tW, c.isWorkTreeCall = true)))) ∧
      (∀ (env : Env) (w w3 : World Sim),
        Git.init simGit env gitContext (GetProjectConfigPath env gitContext.Project) w
          = Outcome.ret none w3 →
        ∃ rc, simGit.Remote w3.lib (GetProjectConfigPath env gitContext.Project) "origin"
            = Except.ok rc ∧
          rc.URL0 = credentials.RemoteURL) := by
  constructor
  · intro S L env w w0 wc e hno hdir hclone hwc
    subst hwc
    have hclone2 := hclone
    simp only [hC] at hclone2
    constructor
    · intro hE
      constructor
      · simp [Git.CloneRepo, hC, hz, hno, hdir, hclone2, hE]
      · obtain ⟨t, ht, hall⟩ := ProjectRepoExists_inspects L env _ _ _ _ hno
        refine ⟨t ++ [Call.ensureDirectoryExists (GetProjectConfigPath env gitContext.Project),
          Call.PlainClone (GetProjectConfigPath env gitContext.Project)
            { URL := credentials.RemoteURL, Auth := gitContext.AuthMethod.GoGitAuth,
              InsecureSkipTLS := retrieveInsecureSkipTLS gitContext.Credentials }], ?_, ?_⟩
        · simp [ht]
        · intro c hc
          rcases List.mem_append.1 hc with hc | hc
          · simpa using hall c hc
          · simp at hc
            rcases hc with rfl | rfl <;> rfl
    · intro hE
      constructor
      · intro e1 w3 hi
        simp only [hC] at hi
        simp [Git.CloneRepo, hC, hz, hno, hdir, hclone2, hE, hi]
      · intro w3 hi
        constructor
        · have hi2 := hi
          simp only [hC] at hi2
          simp [Git.CloneRepo, hC, hz, hno, hdir, hclone2, hE, hi2]
        · obtain ⟨tA, tW, wq, ht, hmem, hA, hW, _, _⟩ :=
            init_ok_inv L env gitContext credentials hC _ _ _ hi
          exact ⟨tA, tW, ht, hmem, hA, hW⟩
  · intro env w w3 hi
    obtain ⟨tA, tW, wq, _, _, _, _, ⟨wp, hg⟩, hlib⟩ :=
      init_ok_inv simGit env gitContext credentials hC _ _ _ hi
    obtain ⟨rc, hrc, hu⟩ := simGit_getWorkTree_origin env gitContext credentials hC _ _ hg
    refine ⟨rc, ?_, hu⟩
    rw [hlib, simGit_Push_Remote]
    exact hrc

/-- Clone failures on the executable store: a clone that the remote refuses, and an
`init` on an empty disk whose push the remote accepts. -/
theorem CloneRepo_clone_failure_witness :
    ctx0.Credentials = some creds0 ∧ creds0 ≠ GitCredentials.zero ∧
      Git.ProjectRepoExists simGit env0 ctx0.Project (simEmpty [refused]) =
        Outcome.ret false { lib := (simEmpty [refused]).lib, trace := [Call.osStat "/data/p"] } ∧
      Git.CloneRepo simGit env0 ctx0 (simEmpty [refused]) =
        Outcome.ret (false, some (fmtErrorf Fmt.ErrMsgCouldNotGitAction ["clone", ctx0.Project]
            (mapError (some (Error.lib LibSentinel.transportErrAuthorizationFailed)))))
          { lib := { dirs := ["/data/p"], files := [], repos := [], net := [],
                     commitFault := none },
            trace := [Call.osStat "/data/p", Call.ensureDirectoryExists "/data/p",
              Call.PlainClone "/data/p"
                { URL := "https://git/p", Auth := "t", InsecureSkipTLS := false }] } ∧
      Git.init simGit env0 ctx0 (GetProjectConfigPath env0 ctx0.Project) (simEmpty [pushedInit]) =
        Outcome.ret none
          ((Git.init simGit env0 ctx0 "/data/p" (simEmpty [pushedInit])).worldOr (simEmpty [])) ∧
      ∃ rc, simGit.Remote
            ((Git.init simGit env0 ctx0 "/data/p" (simEmpty [pushedInit])).worldOr
              (simEmpty [])).lib
            (GetProjectConfigPath env0 ctx0.Project) "origin" = Except.ok rc ∧
        rc.URL0 = creds0.RemoteURL :=
  ⟨rfl, by decide, by rfl,
    (((CloneRepo_clone_failure ctx0 creds0 rfl (by decide)).1 Sim simGit env0
      (simEmpty [refused])
      { lib := (simEmpty [refused]).lib, trace := [Call.osStat "/data/p"] }
      { lib := { dirs := ["/data/p"], files := [], repos := [], net := [],
                 commitFault := none },
        trace := [Call.osStat "/data/p", Call.ensureDirectoryExists "/data/p",
          Call.PlainClone "/data/p"
            { URL := "https://git/p", Auth := "t", InsecureSkipTLS := false }] }
      (Error.lib LibSentinel.transportErrAuthorizationFailed)
      (by rfl) (by rfl) (by rfl) (by rfl)).1 (by rfl)).1,
    by rfl,
    (CloneRepo_clone_failure ctx0 creds0 rfl (by decide)).2 env0 (simEmpty [pushedInit])
      ((Git.init simGit env0 ctx0 "/data/p" (simEmpty [pushedInit])).worldOr (simEmpty []))
      (by rfl)⟩

/-- C18, at the failing input: no local repository, an empty upstream that accepts
the push.  `CloneRepo` returns `(true, nil)` after running `init`, which creates
`/data/p/metadata.yaml` and passes that same absolute path to `Add`; the worktree
has no file of that name relative to its root, `Add` fails and its result is
dropped, so the commit `init git empty repo` that is pushed has an empty tree:
`metadata.yaml` is not a file at HEAD.  With the name relative to the worktree the
same `Add` stages the file, and the commit then holds it. -/
theorem CloneRepo_init_commits_empty_tree :
    (Git.CloneRepo simGitIndex env0 ctx0 (simEmpty [emptyRemote, pushedInit, upToDate])).val?
        = some (true, none) ∧
      assocGet "/data/p/metadata.yaml" afterInit.lib.files = some "" ∧
      Call.Add "/data/p" "/data/p/metadata.yaml" ∈ afterInit.trace ∧
      Call.Commit "/data/p" "init git empty repo" { Name := "keptn", Email := "keptn@keptn.sh" }
        ∈ afterInit.trace ∧
      Call.Push "/data/p"
          { RemoteName := "origin", Auth := "t", Force := false, InsecureSkipTLS := false }
        ∈ afterInit.trace ∧
      (simGitIndex.Add afterInit.lib "/data/p" "/data/p/metadata.yaml").1
        = some (Error.other "entry not found") ∧
      (assocGet "/data/p" afterInit.lib.repos).map (fun r => r.headHash)
        = some (some { hex := "c" }) ∧
      (assocGet "/data/p" afterInit.lib.repos).map (fun r => r.trees) = some [("c", [])] ∧
      Git.GetFileRevision simGitIndex env0 simObjects 2 ctx0 "HEAD" "metadata.yaml" afterInit.lib
        = some ("", some (Error.wrap Fmt.ErrMsgCouldNotGitAction ["retrieve revision in ", "p"]
            (Error.kerr KSentinel.ErrResourceNotFound))) ∧
      (simGitIndex.Add afterInit.lib "/data/p" "metadata.yaml").1 = none ∧
      Git.GetFileRevision simGitIndex env0 simObjects 2 ctx0 "HEAD" "metadata.yaml"
          (simGitIndex.Commit (simGitIndex.Add afterInit.lib "/data/p" "metadata.yaml").2
            "/data/p" "init git empty repo" { Name := "keptn", Email := "keptn@keptn.sh" }).2
        = some ("", none) := by
  decide

/-! ## Moving to a new upstream -/

section Move

variable {S : Type} (L : GoGit S) (env : Env)

/-- A run that starts with an inspection goes on with its answer, the call
appended to the trace. -/
theorem ask_bind_eq {α β : Type} (c : Call) (f : S → α) (k : α → Prog (World S) β)
    (w : World S) :
    (ask c f >>= k) w = k (f w.lib) { lib := w.lib, trace := w.trace ++ [c] } := rfl

/-- A run that starts with a library call goes on with its result in the store it
left, the call appended to the trace. -/
theorem act_bind_eq {α β : Type} (c : Call) (f : S → α × S) (k : α → Prog (World S) β)
    (w : World S) :
    (act c f >>= k) w = k (f w.lib).1 { lib := (f w.lib).2, trace := w.trace ++ [c] } := rfl

/-- The translation of an error is an error. -/
theorem mapError_some_ne_none (e : Error) : mapError (some e) ≠ none := by
  unfold mapError
  repeat' split
  all_goals simp

/-- A successful callback of `MoveToNewUpstream` made the library checkout of its
branch, which succeeded, and then the library push, which succeeded or found
nothing to push; the store it leaves is the one that push left. -/
theorem pushBranch_ok_inv (currentRepo : String) (newContext : GitContext) (branch : Reference)
    (w w1 : World S)
    (h : Git.pushBranch L currentRepo newContext branch w = Outcome.ret none w1) :
    w1 = { lib := moveStore L currentRepo newContext [branch] w.lib,
           trace := w.trace ++ moveCalls currentRepo newContext branch } ∧
      moveAccepted L currentRepo newContext [branch] w.lib = true := by
  unfold Git.pushBranch at h
  simp only [bind_eq, act_eq] at h
  cases hk : (L.Checkout w.lib currentRepo
      { Branch := branch.name, Create := false, Force := false }).1 with
  | some e => simp [hk] at h
  | none =>
    simp only [hk, bind_eq, act_eq] at h
    cases hp : (L.Push (L.Checkout w.lib currentRepo
        { Branch := branch.name, Create := false, Force := false }).2 currentRepo
        { RemoteName := "tmp-origin", Auth := newContext.AuthMethod.GoGitAuth, Force := false,
          InsecureSkipTLS := retrieveInsecureSkipTLS newContext.Credentials }).1 with
    | none =>
      simp [hp] at h
      subst h
      simp [moveStore, moveAccepted, moveCalls, hk, hp]
    | some e =>
      by_cases hu : errorsIs (some e) (Error.lib LibSentinel.gitNoErrAlreadyUpToDate) = true
      · simp [hp, hu] at h
        subst h
        simp [moveStore, moveAccepted, moveCalls, hk, hp, hu]
      · simp [hp, hu] at h

/-- When the library checkout never answers `storer.ErrStop`, neither does the
callback of `MoveToNewUpstream`. -/
theorem pushBranch_not_stop (currentRepo : String) (newContext : GitContext)
    (branch : Reference) (w w1 : World S) (e : Error)
    (hstop : ∀ s r o, (L.Checkout s r o).1 ≠ some (Error.lib LibSentinel.storerErrStop))
    (h : Git.pushBranch L currentRepo newContext branch w = Outcome.ret (some e) w1) :
    e ≠ Error.lib LibSentinel.storerErrStop := by
  unfold Git.pushBranch at h
  dsimp only at h
  simp only [bind_eq, act_eq] at h
  cases hk : (L.Checkout w.lib currentRepo
      { Branch := branch.name, Create := false, Force := false }).1 with
  | some e1 =>
    simp [hk] at h
    intro he
    apply hstop w.lib currentRepo { Branch := branch.name, Create := false, Force := false }
    rw [hk, h.1, he]
  | none =>
    simp only [hk] at h
    cases hp : (L.Push (L.Checkout w.lib currentRepo
        { Branch := branch.name, Create := false, Force := false }).2 currentRepo
        { RemoteName := "tmp-origin", Auth := newContext.AuthMethod.GoGitAuth, Force := false,
          InsecureSkipTLS := retrieveInsecureSkipTLS newContext.Credentials }).1 with
    | none => simp [hp] at h
    | some e2 =>
      by_cases hu : errorsIs (some e2) (Error.lib LibSentinel.gitNoErrAlreadyUpToDate) = true
      · simp [hp, hu] at h
      · simp [hp, hu] at h
        intro he
        rw [← h.1] at he
        cases hm : mapError (some e2) <;> simp [fmtErrorf, hm] at he

/-- When the library checkout never answers `storer.ErrStop`, a successful iteration
over the branches made the library checkout and push of every one of them, in
order, each accepted; the store it leaves is the one the last push left. -/
theorem forEach_pushBranch_ok (currentRepo : String) (newContext : GitContext)
    (hstop : ∀ s r o, (L.Checkout s r o).1 ≠ some (Error.lib LibSentinel.storerErrStop)) :
    ∀ (branches : List Reference) (w w1 : World S),
      Git.forEach (Git.pushBranch L currentRepo newContext) branches w = Outcome.ret none w1 →
      w1 = { lib := moveStore L currentRepo newContext branches w.lib,
             trace := w.trace ++ branches.flatMap (moveCalls currentRepo newContext) } ∧
        moveAccepted L currentRepo newContext branches w.lib = true := by
  intro branches
  induction branches with
  | nil =>
    intro w w1 h
    simp [Git.forEach] at h
    subst h
    simp [moveStore, moveAccepted]
  | cons b rest ih =>
    intro w w1 h
    unfold Git.forEach at h
    obtain ⟨a, u, hb, h⟩ := bind_ret_inv _ _ _ _ _ h
    cases a with
    | some e =>
      have hne := pushBranch_not_stop L currentRepo newContext b w u e hstop hb
      simp [hne] at h
    | none =>
      dsimp only at h
      obtain ⟨h1, h1a⟩ := pushBranch_ok_inv L currentRepo newContext b w u hb
      obtain ⟨h2, h2a⟩ := ih u w1 h
      subst h1
      simp only [moveStore, moveAccepted, Bool.and_true, Bool.and_eq_true] at h1a h2 h2a ⊢
      refine ⟨?_, ⟨h1a.1, h1a.2⟩, h2a⟩
      rw [h2]
      simp

/-- A successful `Git.fetch` made the one library fetch and leaves the store that
fetch left. -/
theorem fetch_ok_inv (gitContext : GitContext) (r : String) (w w1 : World S)
    (h : Git.fetch L gitContext r w = Outcome.ret none w1) :
    w1 = { lib := (L.Fetch w.lib r
             { RemoteName := "origin", RefSpecs := ["+refs/*:refs/*"], Force := true,
               Auth := gitContext.AuthMethod.GoGitAuth,
               InsecureSkipTLS := retrieveInsecureSkipTLS gitContext.Credentials }).2,
           trace := w.trace ++ [Call.Fetch r
             { RemoteName := "origin", RefSpecs := ["+refs/*:refs/*"], Force := true,
               Auth := gitContext.AuthMethod.GoGitAuth,
               InsecureSkipTLS := retrieveInsecureSkipTLS gitContext.Credentials }] } := by
  unfold Git.fetch at h
  simp only [bind_eq, act_eq] at h
  cases hf : (L.Fetch w.lib r
      { RemoteName := "origin", RefSpecs := ["+refs/*:refs/*"], Force := true,
        Auth := gitContext.AuthMethod.GoGitAuth,
        InsecureSkipTLS := retrieveInsecureSkipTLS gitContext.Credentials }).1 with
  | none =>
    simp [hf] at h
    exact h.symm
  | some e =>
    by_cases hu : errorsIs (some e) (Error.lib LibSentinel.gitNoErrAlreadyUpToDate) = true
    · simp [hf, hu] at h
      exact h.symm
    · simp [hf, hu] at h

/-- When the library checkout never answers `storer.ErrStop`, a successful
`moveBranches` fetched, listed the branches, checked out and pushed each of them,
made `origin` match the new credentials and deleted `tmp-origin`; the stores are
those the library calls left. -/
theorem moveBranches_ok_inv (currentContext newContext : GitContext) (currentRepo : String)
    (hstop : ∀ s r o, (L.Checkout s r o).1 ≠ some (Error.lib LibSentinel.storerErrStop))
    (w w1 : World S)
    (h : Git.moveBranches L currentContext newContext currentRepo w = Outcome.ret none w1) :
    ∃ wf branches wF,
      Git.fetch L currentContext currentRepo w = Outcome.ret none wf ∧
      L.Branches wf.lib currentRepo = Except.ok branches ∧
      moveAccepted L currentRepo newContext branches wf.lib = true ∧
      ensureRemoteMatchesCredentials L currentRepo newContext
        { lib := moveStore L currentRepo newContext branches wf.lib,
          trace := wf.trace ++ [Call.Branches currentRepo]
            ++ branches.flatMap (moveCalls currentRepo newContext) } = Outcome.ret none wF ∧
      (L.DeleteRemote wF.lib currentRepo "tmp-origin").1 = none ∧
      w1 = { lib := (L.DeleteRemote wF.lib currentRepo "tmp-origin").2,
             trace := wF.trace ++ [Call.DeleteRemote currentRepo "tmp-origin"] } := by
  unfold Git.moveBranches at h
  obtain ⟨a1, wf, hf, h⟩ := bind_ret_inv _ _ _ _ _ h
  cases a1 with
  | some e => simp at h
  | none =>
    dsimp only at h
    rw [ask_bind_eq] at h
    cases hB : L.Branches wf.lib currentRepo with
    | error e => simp [hB] at h
    | ok branches =>
      simp only [hB] at h
      obtain ⟨a2, wE, hF, h⟩ := bind_ret_inv _ _ _ _ _ h
      cases a2 with
      | some e =>
        simp only [pure_eq, Outcome.ret.injEq] at h
        exact absurd h.1 (mapError_some_ne_none e)
      | none =>
        dsimp only at h
        obtain ⟨hwE, hacc⟩ :=
          forEach_pushBranch_ok L currentRepo newContext hstop branches _ _ hF
        obtain ⟨a3, wF, hE, h⟩ := bind_ret_inv _ _ _ _ _ h
        cases a3 with
        | some e =>
          simp only [pure_eq, Outcome.ret.injEq] at h
          exact absurd h.1 (mapError_some_ne_none e)
        | none =>
          dsimp only at h
          rw [act_bind_eq] at h
          cases hD : (L.DeleteRemote wF.lib currentRepo "tmp-origin").1 with
          | some e =>
            simp only [hD, pure_eq, Outcome.ret.injEq] at h
            exact absurd h.1 (mapError_some_ne_none e)
          | none =>
            simp only [hD, pure_eq, Outcome.ret.injEq, true_and] at h
            rw [hwE] at hE
            exact ⟨wf, branches, wF, hf, hB, hacc, by simpa using hE, hD, h.symm⟩

/-- When the library checkout never answers `storer.ErrStop`, a successful
`MoveToNewUpstream` pulled, obtained the worktree, deleted `tmp-origin` (or found
none), created it at the new URL, fetched, listed the branches, checked out and
pushed each of them, made `origin` match the new credentials and deleted
`tmp-origin`; the stores are those the library calls left. -/
theorem MoveToNewUpstream_ok_inv (currentContext newContext : GitContext)
    (credentials : GitCredentials) (hCn : newContext.Credentials = some credentials)
    (hstop : ∀ s r o, (L.Checkout s r o).1 ≠ some (Error.lib LibSentinel.storerErrStop))
    (w w1 : World S)
    (h : Git.MoveToNewUpstream L env currentContext newContext w = Outcome.ret none w1) :
    ∃ (wP wG : World S) (branches : List Reference) (wF : World S),
      Git.Pull L env currentContext w = Outcome.ret none wP ∧
      Git.getWorkTree L env currentContext wP = Outcome.ret none wG ∧
      ((L.DeleteRemote wG.lib (GetProjectConfigPath env currentContext.Project)
          "tmp-origin").1 = none ∨
        (L.DeleteRemote wG.lib (GetProjectConfigPath env currentContext.Project)
          "tmp-origin").1 = some (Error.lib LibSentinel.gitErrRemoteNotFound)) ∧
      (L.CreateRemote
        (L.DeleteRemote wG.lib (GetProjectConfigPath env currentContext.Project)
          "tmp-origin").2
        (GetProjectConfigPath env currentContext.Project)
        (tmpOriginAt credentials.RemoteURL)).1 = none ∧
      L.Branches
        (afterTmpOrigin L (GetProjectConfigPath env currentContext.Project)
          credentials.RemoteURL currentContext wG.lib)
        (GetProjectConfigPath env currentContext.Project) = Except.ok branches ∧
      moveAccepted L (GetProjectConfigPath env currentContext.Project) newContext branches
        (afterTmpOrigin L (GetProjectConfigPath env currentContext.Project)
          credentials.RemoteURL currentContext wG.lib) = true ∧
      ensureRemoteMatchesCredentials L (GetProjectConfigPath env currentContext.Project)
        newContext
        { lib := moveStore L (GetProjectConfigPath env currentContext.Project) newContext
            branches
            (afterTmpOrigin L (GetProjectConfigPath env currentContext.Project)
              credentials.RemoteURL currentContext wG.lib),
          trace := wG.trace
            ++ tmpOriginCalls (GetProjectConfigPath env currentContext.Project)
              credentials.RemoteURL currentContext
            ++ branches.flatMap
              (moveCalls (GetProjectConfigPath env currentContext.Project) newContext) }
        = Outcome.ret none wF ∧
      (L.DeleteRemote wF.lib (GetProjectConfigPath env currentContext.Project)
        "tmp-origin").1 = none ∧
      w1 = { lib := (L.DeleteRemote wF.lib (GetProjectConfigPath env currentContext.Project)
               "tmp-origin").2,
             trace := wF.trace ++
               [Call.DeleteRemote (GetProjectConfigPath env currentContext.Project)
                 "tmp-origin"] } := by
  unfold Git.MoveToNewUpstream at h
  obtain ⟨a1, wP, hP, h⟩ := bind_ret_inv _ _ _ _ _ h
  cases a1 with
  | some e => simp at h
  | none =>
    dsimp only at h
    obtain ⟨a2, wG, hG, h⟩ := bind_ret_inv _ _ _ _ _ h
    cases a2 with
    | some e => simp at h
    | none =>
      dsimp only at h
      simp only [bind_eq, act_eq] at h
      have hD : (L.DeleteRemote wG.lib (GetProjectConfigPath env currentContext.Project)
            "tmp-origin").1 = none ∨
          (L.DeleteRemote wG.lib (GetProjectConfigPath env currentContext.Project)
            "tmp-origin").1 = some (Error.lib LibSentinel.gitErrRemoteNotFound) := by
        cases hd : (L.DeleteRemote wG.lib (GetProjectConfigPath env currentContext.Project)
            "tmp-origin").1 with
        | none => exact Or.inl rfl
        | some e =>
          by_cases he : e = Error.lib LibSentinel.gitErrRemoteNotFound
          · subst he
            exact Or.inr rfl
          · simp only [hd] at h
            have hc : (some e ≠ none) ∧
                some e ≠ some (Error.lib LibSentinel.gitErrRemoteNotFound) := by
              simp [he]
            rw [if_pos hc] at h
            simp only [pure_eq, Outcome.ret.injEq] at h
            exact absurd h.1 (mapError_some_ne_none e)
      have hc : ¬ ((L.DeleteRemote wG.lib (GetProjectConfigPath env currentContext.Project)
            "tmp-origin").1 ≠ none ∧
          (L.DeleteRemote wG.lib (GetProjectConfigPath env currentContext.Project)
            "tmp-origin").1 ≠ some (Error.lib LibSentinel.gitErrRemoteNotFound)) := by
        rcases hD with hd | hd <;> simp [hd]
      rw [if_neg hc] at h
      simp only [hCn, bind_eq, act_eq] at h
      cases hK : (L.CreateRemote
          (L.DeleteRemote wG.lib (GetProjectConfigPath env currentContext.Project)
            "tmp-origin").2
          (GetProjectConfigPath env currentContext.Project)
          { Name := "tmp-origin", URL0 := credentials.RemoteURL, URLs := [] }).1 with
      | some e =>
        simp only [hK, pure_eq, Outcome.ret.injEq] at h
        exact absurd h.1 (mapError_some_ne_none e)
      | none =>
        simp only [hK] at h
        obtain ⟨wf, branches, wF, hf, hB, hacc, hE, hDel, hw1⟩ :=
          moveBranches_ok_inv L currentContext newContext _ hstop _ _ h
        have hwf := fetch_ok_inv L currentContext _ _ _ hf
        simp only at hwf
        subst hwf
        refine ⟨wP, wG, branches, wF, hP, hG, hD, hK, hB, hacc, ?_, hDel, hw1⟩
        simpa [afterTmpOrigin, tmpOriginCalls, tmpOriginAt] using hE

end Move


/-- Lookup of another key is not affected by the removal of a key. -/
theorem assocGet_filter_other {α : Type} (k k1 : String) (hk : k ≠ k1)
    (l : List (String × α)) :
    assocGet k (l.filter (fun kv => decide (kv.1 ≠ k1))) = assocGet k l := by
  induction l with
  | nil => rfl
  | cons kv rest ih =>
    obtain ⟨k2, v2⟩ := kv
    by_cases h2 : k2 = k1
    · have hne : ¬ k2 = k := fun h => hk (h.symm.trans h2)
      simp only [List.filter, h2, ne_eq, not_true_eq_false, decide_False, assocGet]
      simp only [ne_eq] at ih
      rw [ih]
      subst h2
      simp [hne]
    · simp only [List.filter, h2, ne_eq, not_false_eq_true, decide_True, assocGet]
      simp only [ne_eq] at ih
      rw [ih]

/-- On the executable store a checkout never answers `storer.ErrStop`. -/
theorem simGit_Checkout_not_stop (s : Sim) (r : String) (o : CheckoutOptions) :
    (simGit.Checkout s r o).1 ≠ some (Error.lib LibSentinel.storerErrStop) := by
  show (s.update r (fun x => x.checkout o)).1 ≠ _
  cases hr : assocGet r s.repos with
  | none => simp [Sim.update, hr, notARepo]
  | some x =>
    simp only [Sim.update, hr, SimRepo.checkout]
    repeat' split
    all_goals simp

/-- The lookup of a remote in a repository of the executable store. -/
theorem simGit_Remote_of (s : Sim) (repo name : String) (r : SimRepo)
    (hr : assocGet repo s.repos = some r) :
    simGit.Remote s repo name =
      (match assocGet name r.remotes with
       | some c => Except.ok c
       | none => Except.error (Error.lib LibSentinel.gitErrRemoteNotFound)) := by
  show (match assocGet repo s.repos with
    | none => Except.error notARepo
    | some r =>
      match assocGet name r.remotes with
      | some c => Except.ok c
      | none => Except.error (Error.lib LibSentinel.gitErrRemoteNotFound)) = _
  rw [hr]

/-- The deletion of a remote that is there, on the executable store. -/
theorem simGit_DeleteRemote_some (s : Sim) (repo name : String) (r : SimRepo)
    (c : RemoteConfig) (hr : assocGet repo s.repos = some r)
    (hn : assocGet name r.remotes = some c) :
    simGit.DeleteRemote s repo name = (none, s.setRepo repo (r.dropRemote name)) := by
  show s.update repo _ = _
  rw [update_of_some _ _ _ _ hr]
  simp only [hn]

/-- The deletion of a remote that is not there, on the executable store. -/
theorem simGit_DeleteRemote_none (s : Sim) (repo name : String) (r : SimRepo)
    (hr : assocGet repo s.repos = some r) (hn : assocGet name r.remotes = none) :
    simGit.DeleteRemote s repo name =
      (some (Error.lib LibSentinel.gitErrRemoteNotFound), s.setRepo repo r) := by
  show s.update repo _ = _
  rw [update_of_some _ _ _ _ hr]
  simp only [hn]

/-- The creation of a remote that is not there, on the executable store. -/
theorem simGit_CreateRemote_none (s : Sim) (repo : String) (c : RemoteConfig) (r : SimRepo)
    (hr : assocGet repo s.repos = some r) (hn : assocGet c.Name r.remotes = none) :
    simGit.CreateRemote s repo c = (none, s.setRepo repo (r.addRemote c)) := by
  show s.update repo _ = _
  rw [update_of_some _ _ _ _ hr]
  simp only [hn]

/-- On the executable store a successful deletion of `tmp-origin` leaves `origin` as
it was and no `tmp-origin`. -/
theorem simGit_DeleteRemote_tmp (s : Sim) (repo : String) (rc : RemoteConfig)
    (ho : simGit.Remote s repo "origin" = Except.ok rc)
    (hd : (simGit.DeleteRemote s repo "tmp-origin").1 = none) :
    simGit.Remote (simGit.DeleteRemote s repo "tmp-origin").2 repo "origin" = Except.ok rc ∧
      simGit.Remote (simGit.DeleteRemote s repo "tmp-origin").2 repo "tmp-origin"
        = Except.error (Error.lib LibSentinel.gitErrRemoteNotFound) := by
  cases hr : assocGet repo s.repos with
  | none => simp [simGit, hr] at ho
  | some r =>
    rw [simGit_Remote_of s repo "origin" r hr] at ho
    cases ht : assocGet "tmp-origin" r.remotes with
    | none =>
      rw [simGit_DeleteRemote_none s repo _ r hr ht] at hd
      simp at hd
    | some c =>
      rw [simGit_DeleteRemote_some s repo _ r c hr ht]
      simp only
      rw [simGit_Remote_of _ repo "origin" _ (setRepo_get _ _ _),
        simGit_Remote_of _ repo "tmp-origin" _ (setRepo_get _ _ _), dropRemote_get]
      refine ⟨?_, rfl⟩
      have hf : assocGet "origin" (r.dropRemote "tmp-origin").remotes
          = assocGet "origin" r.remotes :=
        assocGet_filter_other "origin" "tmp-origin" (by decide) r.remotes
      rw [hf]
      exact ho

/-- On the executable store, whether or not a `tmp-origin` is there, deleting it
answers nil or remote-not-found and `tmp-origin` can then be created. -/
theorem simGit_tmp_origin_fresh (s : Sim) (repo url : String) (r : SimRepo)
    (hr : assocGet repo s.repos = some r) :
    ((simGit.DeleteRemote s repo "tmp-origin").1 = none ∨
        (simGit.DeleteRemote s repo "tmp-origin").1
          = some (Error.lib LibSentinel.gitErrRemoteNotFound)) ∧
      (simGit.CreateRemote (simGit.DeleteRemote s repo "tmp-origin").2 repo
        (tmpOriginAt url)).1 = none := by
  cases ht : assocGet "tmp-origin" r.remotes with
  | none =>
    rw [simGit_DeleteRemote_none s repo _ r hr ht]
    refine ⟨Or.inr rfl, ?_⟩
    simp only
    rw [simGit_CreateRemote_none _ repo _ r (setRepo_get _ _ _) ht]
  | some c =>
    rw [simGit_DeleteRemote_some s repo _ r c hr ht]
    refine ⟨Or.inl rfl, ?_⟩
    simp only
    rw [simGit_CreateRemote_none (s.setRepo repo (r.dropRemote "tmp-origin")) repo
      (tmpOriginAt url) (r.dropRemote "tmp-origin") (setRepo_get _ _ _)
      (dropRemote_get r "tmp-origin")]

/-- C17. For a new context with credentials.  Whatever the library, provided its
checkout never answers `storer.ErrStop`: if `MoveToNewUpstream` returns without
error, then the pull and `getWorkTree` succeeded, `tmp-origin` was deleted (or there
was none) and created at the new URL, the fetch was made, and for every branch the
library then listed, in order, the library's checkout of the branch succeeded and
the library's push to `tmp-origin` with the auth of the new context succeeded or
found nothing to push; from the store the last push left, `origin` was made to
match the new credentials, and the store returned is the one the final deletion of
`tmp-origin`, which succeeded, left.  The calls after `getWorkTree` are these and
no others.  On the executable store, after a return without error the first URL of
`origin` is the new credential URL and there is no remote `tmp-origin`.  A stale
`tmp-origin` does not make the call fail: whether the first deletion answers nil or
remote-not-found, the call goes on to create `tmp-origin` and, when that succeeds,
to move the branches; and on the executable store the deletion answers one of the
two and the creation then succeeds, whether or not a `tmp-origin` was there. -/
theorem MoveToNewUpstream_spec (newContext : GitContext) (credentials : GitCredentials)
    (hCn : newContext.Credentials = some credentials) :
    (∀ (S : Type) (L : GoGit S) (env : Env) (currentContext : GitContext) (w w1 : World S),
        (∀ s r o, (L.Checkout s r o).1 ≠ some (Error.lib LibSentinel.storerErrStop)) →
        Git.MoveToNewUpstream L env currentContext newContext w = Outcome.ret none w1 →
        ∃ (wP wG : World S) (branches : List Reference) (wF : World S) (tEns : List Call),
          Git.Pull L env currentContext w = Outcome.ret none wP ∧
          Git.getWorkTree L env currentContext wP = Outcome.ret none wG ∧
          (L.CreateRemote
            (L.DeleteRemote wG.lib (GetProjectConfigPath env currentContext.Project)
              "tmp-origin").2
            (GetProjectConfigPath env currentContext.Project)
            (tmpOriginAt credentials.RemoteURL)).1 = none ∧
          L.Branches
            (afterTmpOrigin L (GetProjectConfigPath env currentContext.Project)
              credentials.RemoteURL currentContext wG.lib)
            (GetProjectConfigPath env currentContext.Project) = Except.ok branches ∧
          moveAccepted L (GetProjectConfigPath env currentContext.Project) newContext branches
            (afterTmpOrigin L (GetProjectConfigPath env currentContext.Project)
              credentials.RemoteURL currentContext wG.lib) = true ∧
          ensureRemoteMatchesCredentials L (GetProjectConfigPath env currentContext.Project)
            newContext
            { lib := moveStore L (GetProjectConfigPath env currentContext.Project) newContext
                branches
                (afterTmpOrigin L (GetProjectConfigPath env currentContext.Project)
                  credentials.RemoteURL currentContext wG.lib),
              trace := wG.trace
                ++ tmpOriginCalls (GetProjectConfigPath env currentContext.Project)
                  credentials.RemoteURL currentContext
                ++ branches.flatMap
                  (moveCalls (GetProjectConfigPath env currentContext.Project) newContext) }
            = Outcome.ret none wF ∧
          (L.DeleteRemote wF.lib (GetProjectConfigPath env currentContext.Project)
            "tmp-origin").1 = none ∧
          w1.lib = (L.DeleteRemote wF.lib (GetProjectConfigPath env currentContext.Project)
            "tmp-origin").2 ∧
          w1.trace = wG.trace
            ++ tmpOriginCalls (GetProjectConfigPath env currentContext.Project)
              credentials.RemoteURL currentContext
            ++ branches.flatMap
              (moveCalls (GetProjectConfigPath env currentContext.Project) newContext)
            ++ tEns
            ++ [Call.DeleteRemote (GetProjectConfigPath env currentContext.Project)
                 "tmp-origin"] ∧
          (∀ c ∈ tEns, c.isWorkTreeCall = true)) ∧
      (∀ (env : Env) (currentContext : GitContext) (w w1 : World Sim),
        Git.MoveToNewUpstream simGit env currentContext newContext w = Outcome.ret none w1 →
        ∃ rc, simGit.Remote w1.lib (GetProjectConfigPath env currentContext.Project) "origin"
            = Except.ok rc ∧
          rc.URL0 = credentials.RemoteURL ∧
          simGit.Remote w1.lib (GetProjectConfigPath env currentContext.Project) "tmp-origin"
            = Except.error (Error.lib LibSentinel.gitErrRemoteNotFound)) ∧
      (∀ (S : Type) (L : GoGit S) (env : Env) (currentContext : GitContext)
          (w wP wG : World S),
        Git.Pull L env currentContext w = Outcome.ret none wP →
        Git.getWorkTree L env currentContext wP = Outcome.ret none wG →
        ((L.DeleteRemote wG.lib (GetProjectConfigPath env currentContext.Project)
            "tmp-origin").1 = none ∨
          (L.DeleteRemote wG.lib (GetProjectConfigPath env currentContext.Project)
            "tmp-origin").1 = some (Error.lib LibSentinel.gitErrRemoteNotFound)) →
        (L.CreateRemote
          (L.DeleteRemote wG.lib (GetProjectConfigPath env currentContext.Project)
            "tmp-origin").2
          (GetProjectConfigPath env currentContext.Project)
          (tmpOriginAt credentials.RemoteURL)).1 = none →
        Git.MoveToNewUpstream L env currentContext newContext w =
          Git.moveBranches L currentContext newContext
            (GetProjectConfigPath env currentContext.Project)
            { lib := (L.CreateRemote
                (L.DeleteRemote wG.lib (GetProjectConfigPath env currentContext.Project)
                  "tmp-origin").2
                (GetProjectConfigPath env currentContext.Project)
                (tmpOriginAt credentials.RemoteURL)).2,
              trace := wG.trace ++
                [Call.DeleteRemote (GetProjectConfigPath env currentContext.Project)
                   "tmp-origin",
                 Call.CreateRemote (GetProjectConfigPath env currentContext.Project)
                   (tmpOriginAt credentials.RemoteURL)] }) ∧
      (∀ (s : Sim) (repo : String) (r : SimRepo), assocGet repo s.repos = some r →
        ((simGit.DeleteRemote s repo "tmp-origin").1 = none ∨
            (simGit.DeleteRemote s repo "tmp-origin").1
              = some (Error.lib LibSentinel.gitErrRemoteNotFound)) ∧
          (simGit.CreateRemote (simGit.DeleteRemote s repo "tmp-origin").2 repo
            (tmpOriginAt credentials.RemoteURL)).1 = none) := by
  refine ⟨?_, ?_, ?_, ?_⟩
  · intro S L env currentContext w w1 hstop h
    obtain ⟨wP, wG, branches, wF, hP, hG, _, hK, hB, hacc, hE, hD, hw1⟩ :=
      MoveToNewUpstream_ok_inv L env currentContext newContext credentials hCn hstop w w1 h
    obtain ⟨tEns, htF, hall⟩ := ensureRemoteMatchesCredentials_calls L _ _ _ _ _ hE
    refine ⟨wP, wG, branches, wF, tEns, hP, hG, hK, hB, hacc, hE, hD, ?_, ?_, hall⟩
    · rw [hw1]
    · rw [hw1]
      simp only
      rw [htF]
  · intro env currentContext w w1 h
    obtain ⟨wP, wG, branches, wF, _, _, _, _, _, _, hE, hD, hw1⟩ :=
      MoveToNewUpstream_ok_inv simGit env currentContext newContext credentials hCn
        simGit_Checkout_not_stop w w1 h
    obtain ⟨rc, hrc, hu⟩ :=
      simGit_ensureRemoteMatchesCredentials_ok _ newContext credentials hCn _ _ hE
    obtain ⟨h1, h2⟩ := simGit_DeleteRemote_tmp _ _ rc hrc hD
    rw [hw1]
    exact ⟨rc, h1, hu, h2⟩
  · intro S L env currentContext w wP wG hP hG hD hK
    simp only [tmpOriginAt] at hK ⊢
    rcases hD with hD | hD
    · simp [Git.MoveToNewUpstream, hP, hG, hD, hCn, hK]
    · simp [Git.MoveToNewUpstream, hP, hG, hD, hCn, hK]
  · intro s repo r hr
    exact simGit_tmp_origin_fresh s repo credentials.RemoteURL r hr

/-- C17, on the executable store: project `p` has the branches `main` and `dev` and
a stale `tmp-origin`; the move to the upstream `https://git/q` returns without
error, after the checkout and the push to `tmp-origin` of `main` and of `dev`. -/
theorem MoveToNewUpstream_spec_witness :
    ctxNew.Credentials = some credsNew ∧
      simGit.Remote simStale.lib "/data/p" "tmp-origin"
        = Except.ok (tmpOriginAt "https://git/old") ∧
      Git.MoveToNewUpstream simGit env0 ctx0 ctxNew simStale =
        Outcome.ret none
          ((Git.MoveToNewUpstream simGit env0 ctx0 ctxNew simStale).worldOr simStale) ∧
      ((Git.MoveToNewUpstream simGit env0 ctx0 ctxNew simStale).worldOr simStale).trace.drop 10
        = tmpOriginCalls "/data/p" "https://git/q" ctx0
          ++ [Call.Checkout "/data/p"
                { Branch := "refs/heads/main", Create := false, Force := false },
              Call.Push "/data/p"
                { RemoteName := "tmp-origin", Auth := "t2", Force := false,
                  InsecureSkipTLS := false },
              Call.Checkout "/data/p"
                { Branch := "refs/heads/dev", Create := false, Force := false },
              Call.Push "/data/p"
                { RemoteName := "tmp-origin", Auth := "t2", Force := false,
                  InsecureSkipTLS := false },
              Call.Remote "/data/p" "origin", Call.DeleteRemote "/data/p" "origin",
              Call.CreateRemote "/data/p" (originAt "https://git/q"),
              Call.DeleteRemote "/data/p" "tmp-origin"] ∧
      ((Git.MoveToNewUpstream simGit env0 ctx0 ctxNew simStale).worldOr simStale).lib.net
        = [] ∧
      ∃ rc, simGit.Remote
            ((Git.MoveToNewUpstream simGit env0 ctx0 ctxNew simStale).worldOr simStale).lib
            (GetProjectConfigPath env0 ctx0.Project) "origin" = Except.ok rc ∧
        rc.URL0 = credsNew.RemoteURL ∧
        simGit.Remote
            ((Git.MoveToNewUpstream simGit env0 ctx0 ctxNew simStale).worldOr simStale).lib
            (GetProjectConfigPath env0 ctx0.Project) "tmp-origin"
          = Except.error (Error.lib LibSentinel.gitErrRemoteNotFound) :=
  ⟨rfl, by rfl, by rfl, by decide, by decide,
    (MoveToNewUpstream_spec ctxNew credsNew rfl).2.1 env0 ctx0 simStale
      ((Git.MoveToNewUpstream simGit env0 ctx0 ctxNew simStale).worldOr simStale) (by rfl)⟩

end ResourceService
